import Mathlib

/-!
libqaccessibilityclient: object handles, proxy states and the cache strategy.

A shallow embedding of `src/qaccessibilityclient/accessibleobject.cpp`.

* A `QSharedPointer<AccessibleObjectPrivate>` is an optional address (`none` is the null
  pointer); the Proxy States live in a store `World.heap`, and two handles reference the
  same instance exactly when their addresses are equal.
* `RegistryPrivate*` is an optional address into `World.registries`.
* Dereferencing a null pointer is the fault `Fault.nullDereference`; a failing `Q_ASSERT`
  is the fault `Fault.assertFailed`.
* The query methods of `RegistryPrivate` (registry.cpp is not part of the sources at hand)
  are a parameter `Remote`; every call through `d->registryPrivate->...` is recorded in
  `World.log`.
-/

namespace QAccessibleClient

/-- Addresses of heap objects. -/
abbrev Ptr := Nat

/-- Ways in which a call aborts instead of returning. -/
inductive Fault where
  | assertFailed
  | nullDereference
  deriving DecidableEq, Repr

/-- Qt's `Q_ASSERT(cond)`: aborts when `cond` is false, unless the build defines
`QT_NO_DEBUG`, in which case it expands to nothing. -/
def Q_ASSERT (QT_NO_DEBUG : Bool) (cond : Bool) : Except Fault Unit :=
  if QT_NO_DEBUG || cond then .ok () else .error .assertFailed

/-- `QString::isEmpty()`. -/
def isEmpty (s : String) : Bool := decide (s = "")

/-- Qt's `QRect`, stored as its two corners; `int` coordinates. -/
structure QRect where
  x1 : Int
  y1 : Int
  x2 : Int
  y2 : Int
  deriving DecidableEq, Repr

/-- `QRect()`: the null rectangle, corners (0,0) and (-1,-1). -/
def QRect.null : QRect := { x1 := 0, y1 := 0, x2 := -1, y2 := -1 }

/-- The data block behind a handle (`AccessibleObjectPrivate`, the Proxy State); the fields
are those `accessibleobject.cpp` reads and writes through `d->`. -/
structure AccessibleObjectPrivate where
  registryPrivate : Option Ptr
  service : String
  path : String
  defunct : Bool
  actionsFetched : Bool
  actions : List Ptr
  deriving DecidableEq, Repr

/-- Modelled from the spec: the constructor `AccessibleObjectPrivate(registryPrivate,
service, path)` (accessibleobject_p.cpp is missing). The Identity is the pair given, the
state is bound to the registry given, nothing is fetched yet and the state is not defunct. -/
def newAccessibleObjectPrivate (registryPrivate : Option Ptr)
    (service path : String) : AccessibleObjectPrivate :=
  { registryPrivate := registryPrivate, service := service, path := path,
    defunct := false, actionsFetched := false, actions := [] }

/-- Modelled from the spec: `AccessibleObjectPrivate::operator==` (accessibleobject_p.cpp is
missing). Two Proxy States are equal when they have equal Identity (peer, path). -/
def AccessibleObjectPrivate.operatorEq (self other : AccessibleObjectPrivate) : Bool :=
  decide (self.service = other.service) && decide (self.path = other.path)

/-- The handle `AccessibleObject`: its only member is the shared pointer `d`. -/
structure AccessibleObject where
  d : Option Ptr
  deriving DecidableEq, Repr

/-- `Registry::CacheType` (registry.h). -/
inductive CacheType where
  | NoCache
  | WeakCache
  | StrongCache
  deriving DecidableEq, Repr

/-- Modelled from the spec: the cache strategy classes (cachestrategy_p.h is missing). A
closed set of three policies over one store of (key, state) entries, newest first. -/
structure CacheStrategy where
  type : CacheType
  entries : List (String × Ptr)
  deriving DecidableEq, Repr

/-- Modelled from the spec: the entries of the store that are there to be found (the cache
strategy classes are missing). `NoCache` holds nothing; `StrongCache` owns its states, so
every entry stays; an entry of `WeakCache` disappears once no handle holds its state
(`owners` lists the states held by outstanding handles). -/
def CacheStrategy.live (c : CacheStrategy) (owners : List Ptr) : List (String × Ptr) :=
  match c.type with
  | .NoCache => []
  | .WeakCache => c.entries.filter (fun e => decide (e.2 ∈ owners))
  | .StrongCache => c.entries

/-- Modelled from the spec: `CacheStrategy::get(key)`, a Proxy State reference or none (the
cache strategy classes are missing). `NoCache` always misses. -/
def CacheStrategy.get (c : CacheStrategy) (owners : List Ptr) (id : String) : Option Ptr :=
  (c.live owners).lookup id

/-- Modelled from the spec: `CacheStrategy::add(key, state)` (the cache strategy classes are
missing). A no-op under `NoCache`; otherwise the association is stored. -/
def CacheStrategy.add (c : CacheStrategy) (id : String) (p : Ptr) : CacheStrategy :=
  match c.type with
  | .NoCache => c
  | _ => { c with entries := (id, p) :: c.entries }

/-- The members of `RegistryPrivate` that `accessibleobject.cpp` reads: the nullable
`m_cacheStrategy` pointer and the scheme string of object URLs. -/
structure RegistryPrivate where
  m_cacheStrategy : Option CacheStrategy
  ACCESSIBLE_OBJECT_SCHEME_STRING : String
  deriving DecidableEq, Repr

/-- The query methods of `RegistryPrivate` that a handle forwards to, with their extra
arguments. -/
inductive Query where
  | parentAccessible
  | children
  | childCount
  | name
  | description
  | role
  | boundingRect
  | characterRect (offset : Int)
  | supportedInterfaces
  | caretOffset
  | characterCount
  | text (startOffset endOffset : Int)
  | setText (text : String)
  | insertText (text : String) (position length : Int)
  | copyText (startPos endPos : Int)
  | cutText (startPos endPos : Int)
  | deleteText (startPos endPos : Int)
  | pasteText (position : Int)
  | textSelections
  | setTextSelections (selections : List (Int × Int))
  | actions
  | state
  deriving DecidableEq, Repr

/-- One call `registryPrivate->query(object, ...)`. -/
structure Call where
  registry : Ptr
  object : AccessibleObject
  query : Query
  deriving DecidableEq, Repr

/-- The program state: the Proxy States by address (`next` is the first unused address),
the registries by address, one entry in `owners` per outstanding handle that holds a state,
the registry calls issued so far (oldest first) and the `qWarning()` lines printed. -/
structure World where
  heap : Ptr → AccessibleObjectPrivate
  next : Ptr
  registries : Ptr → RegistryPrivate
  owners : List Ptr
  log : List Call
  warnings : List String

/-- `new AccessibleObjectPrivate(...)`: the state is placed at the first unused address. -/
def World.alloc (w : World) (c : AccessibleObjectPrivate) : Ptr × World :=
  (w.next, { w with heap := fun q => if q = w.next then c else w.heap q, next := w.next + 1 })

/-- A handle takes a reference to the state at `p`. -/
def World.retain (w : World) (p : Ptr) : World :=
  { w with owners := p :: w.owners }

/-- Assignment to `registryPrivate->m_cacheStrategy` contents of registry `r`. -/
def World.setCache (w : World) (r : Ptr) (c : CacheStrategy) : World :=
  { w with registries := fun q =>
      if q = r then { w.registries r with m_cacheStrategy := some c } else w.registries q }

/-- `AccessibleObject::AccessibleObject()`: `d(0)`. -/
def AccessibleObject.AccessibleObject0 : AccessibleObject := { d := none }

/-- `AccessibleObject::AccessibleObject(RegistryPrivate*, const QString &service, const
QString &path)`: the resolution of an Identity to a handle. -/
def AccessibleObject.AccessibleObject3 (QT_NO_DEBUG : Bool) (w : World)
    (registryPrivate : Option Ptr) (service path : String) :
    Except Fault (AccessibleObject × World) := do
  Q_ASSERT QT_NO_DEBUG registryPrivate.isSome
  Q_ASSERT QT_NO_DEBUG (!isEmpty service)
  Q_ASSERT QT_NO_DEBUG (!isEmpty path)
  match registryPrivate with
  | none => .error .nullDereference
  | some r =>
    match (w.registries r).m_cacheStrategy with
    | some cs =>
      let id := path ++ service
      match cs.get w.owners id with
      | some p => .ok ({ d := some p }, w.retain p)
      | none =>
        let (p, w1) := w.alloc (newAccessibleObjectPrivate registryPrivate service path)
        let w2 := w1.setCache r (cs.add id p)
        .ok ({ d := some p }, w2.retain p)
    | none =>
      let (p, w1) := w.alloc (newAccessibleObjectPrivate registryPrivate service path)
      .ok ({ d := some p }, w1.retain p)

/-- `AccessibleObject::id()`. -/
def AccessibleObject.id (w : World) (self : AccessibleObject) : String :=
  match self.d with
  | none => ""
  | some p =>
    match (w.heap p).registryPrivate with
    | none => ""
    | some _ => (w.heap p).path ++ (w.heap p).service

/-- `AccessibleObject::isValid()`. -/
def AccessibleObject.isValid (w : World) (self : AccessibleObject) : Bool :=
  match self.d with
  | none => false
  | some p =>
    (w.heap p).registryPrivate.isSome
      && (!isEmpty (w.heap p).service)
      && (!isEmpty (w.heap p).path)
      && decide ((w.heap p).path ≠ "/org/a11y/atspi/null")

/-- `AccessibleObject::operator==`: `(d == other.d) || (d && other.d && *d == *other.d)`. -/
def AccessibleObject.operatorEq (w : World) (self other : AccessibleObject) : Bool :=
  decide (self.d = other.d) ||
    (match self.d, other.d with
     | some p, some q => (w.heap p).operatorEq (w.heap q)
     | _, _ => false)

/-- Enumerators of `AccessibleObject` that the accessors name; accessibleobject.h, which gives
them their values, is missing, so they are parameters. The first three belong to
`enum Interface`. `Text` is the enumerator written `AccessibleObject::Text` in
`textSelections` and `setTextSelections`: another enumerator than `TextInterface`. -/
structure Enumerators where
  ComponentInterface : Nat
  TextInterface : Nat
  EditableTextInterface : Nat
  Text : Nat
  deriving DecidableEq, Repr

/-- What the query methods of `RegistryPrivate` answer (registry.cpp is missing, so the
answers are parameters). Each answer may depend on the whole program state at the time of the
call, on the registry called and on the handle passed as `*this`. -/
structure Remote where
  parentAccessible : World → Ptr → AccessibleObject → AccessibleObject
  children : World → Ptr → AccessibleObject → List AccessibleObject
  childCount : World → Ptr → AccessibleObject → Int
  name : World → Ptr → AccessibleObject → String
  description : World → Ptr → AccessibleObject → String
  role : World → Ptr → AccessibleObject → Nat
  boundingRect : World → Ptr → AccessibleObject → QRect
  characterRect : Int → World → Ptr → AccessibleObject → QRect
  supportedInterfaces : World → Ptr → AccessibleObject → Nat
  caretOffset : World → Ptr → AccessibleObject → Int
  characterCount : World → Ptr → AccessibleObject → Int
  text : Int → Int → World → Ptr → AccessibleObject → String
  setText : String → World → Ptr → AccessibleObject → Bool
  insertText : String → Int → Int → World → Ptr → AccessibleObject → Bool
  copyText : Int → Int → World → Ptr → AccessibleObject → Bool
  cutText : Int → Int → World → Ptr → AccessibleObject → Bool
  deleteText : Int → Int → World → Ptr → AccessibleObject → Bool
  pasteText : Int → World → Ptr → AccessibleObject → Bool
  textSelections : World → Ptr → AccessibleObject → List (Int × Int)
  actions : World → Ptr → AccessibleObject → List Ptr
  state : World → Ptr → AccessibleObject → Nat

/-- Records a call of a query method of a registry. -/
def World.record (w : World) (c : Call) : World :=
  { w with log := w.log ++ [c] }

/-- Records `qWarning() << msg`. -/
def World.qWarning (w : World) (msg : String) : World :=
  { w with warnings := w.warnings ++ [msg] }

/-- Assignment through `d->` to the state at address `p`. -/
def World.store (w : World) (p : Ptr) (c : AccessibleObjectPrivate) : World :=
  { w with heap := fun q => if q = p then c else w.heap q }

/-- The expression `d->registryPrivate->query(*this, ...)`: both pointers are dereferenced
without a test, the call is recorded and its answer returned. -/
def AccessibleObject.forward {α : Type} (w : World) (self : AccessibleObject) (q : Query)
    (answer : World → Ptr → AccessibleObject → α) : Except Fault (α × World) :=
  match self.d with
  | none => .error .nullDereference
  | some p =>
    match (w.heap p).registryPrivate with
    | none => .error .nullDereference
    | some r => .ok (answer w r self, w.record { registry := r, object := self, query := q })

/-- `AccessibleObject::parent()`. -/
def AccessibleObject.parent (R : Remote) (w : World) (self : AccessibleObject) :
    Except Fault (AccessibleObject × World) :=
  self.forward w .parentAccessible R.parentAccessible

/-- `AccessibleObject::children()`. -/
def AccessibleObject.children (R : Remote) (w : World) (self : AccessibleObject) :
    Except Fault (List AccessibleObject × World) :=
  self.forward w .children R.children

/-- `AccessibleObject::childCount()`. -/
def AccessibleObject.childCount (R : Remote) (w : World) (self : AccessibleObject) :
    Except Fault (Int × World) :=
  self.forward w .childCount R.childCount

/-- `AccessibleObject::name()`. -/
def AccessibleObject.name (R : Remote) (w : World) (self : AccessibleObject) :
    Except Fault (String × World) :=
  self.forward w .name R.name

/-- `AccessibleObject::description()`. -/
def AccessibleObject.description (R : Remote) (w : World) (self : AccessibleObject) :
    Except Fault (String × World) :=
  self.forward w .description R.description

/-- `AccessibleObject::role()`. -/
def AccessibleObject.role (R : Remote) (w : World) (self : AccessibleObject) :
    Except Fault (Nat × World) :=
  self.forward w .role R.role

/-- `AccessibleObject::supportedInterfaces()`. -/
def AccessibleObject.supportedInterfaces (R : Remote) (w : World) (self : AccessibleObject) :
    Except Fault (Nat × World) :=
  self.forward w .supportedInterfaces R.supportedInterfaces

/-- `AccessibleObject::boundingRect()`. -/
def AccessibleObject.boundingRect (E : Enumerators) (R : Remote) (w : World)
    (self : AccessibleObject) : Except Fault (QRect × World) := do
  let (ifaces, w1) ← self.supportedInterfaces R w
  if ifaces &&& E.ComponentInterface ≠ 0 then
    self.forward w1 .boundingRect R.boundingRect
  else
    .ok (QRect.null,
      w1.qWarning "boundingRect called on accessible that does not implement component")

/-- `AccessibleObject::characterRect(int offset)`. -/
def AccessibleObject.characterRect (E : Enumerators) (R : Remote) (w : World)
    (self : AccessibleObject) (offset : Int) : Except Fault (QRect × World) := do
  let (ifaces, w1) ← self.supportedInterfaces R w
  if ifaces &&& E.TextInterface ≠ 0 then
    self.forward w1 (.characterRect offset) (R.characterRect offset)
  else
    .ok (QRect.null,
      w1.qWarning "characterRect called on accessible that does not implement text")

/-- `AccessibleObject::caretOffset()`. -/
def AccessibleObject.caretOffset (E : Enumerators) (R : Remote) (w : World)
    (self : AccessibleObject) : Except Fault (Int × World) := do
  let (ifaces, w1) ← self.supportedInterfaces R w
  if ifaces &&& E.TextInterface ≠ 0 then
    self.forward w1 .caretOffset R.caretOffset
  else
    .ok (0, w1.qWarning "caretOffset called on accessible that does not implement text")

/-- `AccessibleObject::characterCount()`. -/
def AccessibleObject.characterCount (E : Enumerators) (R : Remote) (w : World)
    (self : AccessibleObject) : Except Fault (Int × World) := do
  let (ifaces, w1) ← self.supportedInterfaces R w
  if ifaces &&& E.TextInterface ≠ 0 then
    self.forward w1 .characterCount R.characterCount
  else
    .ok (0, w1.qWarning "characterCount called on accessible that does not implement text")

/-- `AccessibleObject::text(int startOffset, int endOffset)`. -/
def AccessibleObject.text (E : Enumerators) (R : Remote) (w : World)
    (self : AccessibleObject) (startOffset endOffset : Int) :
    Except Fault (String × World) := do
  let (ifaces, w1) ← self.supportedInterfaces R w
  if ifaces &&& E.TextInterface ≠ 0 then
    self.forward w1 (.text startOffset endOffset) (R.text startOffset endOffset)
  else
    .ok ("", w1.qWarning "text called on accessible that does not implement text")

/-- `AccessibleObject::setText(const QString &text)`. -/
def AccessibleObject.setText (E : Enumerators) (R : Remote) (w : World)
    (self : AccessibleObject) (text : String) : Except Fault (Bool × World) := do
  let (ifaces, w1) ← self.supportedInterfaces R w
  if ifaces &&& E.EditableTextInterface ≠ 0 then
    self.forward w1 (.setText text) (R.setText text)
  else
    .ok (false,
      w1.qWarning "setText called on accessible that does not implement editableText")

/-- `AccessibleObject::insertText(const QString &text, int position, int length)`. -/
def AccessibleObject.insertText (E : Enumerators) (R : Remote) (w : World)
    (self : AccessibleObject) (text : String) (position length : Int) :
    Except Fault (Bool × World) := do
  let (ifaces, w1) ← self.supportedInterfaces R w
  if ifaces &&& E.EditableTextInterface ≠ 0 then
    self.forward w1 (.insertText text position length) (R.insertText text position length)
  else
    .ok (false,
      w1.qWarning "insertText called on accessible that does not implement editableText")

/-- `AccessibleObject::copyText(int startPos, int endPos)`. -/
def AccessibleObject.copyText (E : Enumerators) (R : Remote) (w : World)
    (self : AccessibleObject) (startPos endPos : Int) : Except Fault (Bool × World) := do
  let (ifaces, w1) ← self.supportedInterfaces R w
  if ifaces &&& E.EditableTextInterface ≠ 0 then
    self.forward w1 (.copyText startPos endPos) (R.copyText startPos endPos)
  else
    .ok (false,
      w1.qWarning "copyText called on accessible that does not implement editableText")

/-- `AccessibleObject::cutText(int startPos, int endPos)`. -/
def AccessibleObject.cutText (E : Enumerators) (R : Remote) (w : World)
    (self : AccessibleObject) (startPos endPos : Int) : Except Fault (Bool × World) := do
  let (ifaces, w1) ← self.supportedInterfaces R w
  if ifaces &&& E.EditableTextInterface ≠ 0 then
    self.forward w1 (.cutText startPos endPos) (R.cutText startPos endPos)
  else
    .ok (false,
      w1.qWarning "cutText called on accessible that does not implement editableText")

/-- `AccessibleObject::deleteText(int startPos, int endPos)`. -/
def AccessibleObject.deleteText (E : Enumerators) (R : Remote) (w : World)
    (self : AccessibleObject) (startPos endPos : Int) : Except Fault (Bool × World) := do
  let (ifaces, w1) ← self.supportedInterfaces R w
  if ifaces &&& E.EditableTextInterface ≠ 0 then
    self.forward w1 (.deleteText startPos endPos) (R.deleteText startPos endPos)
  else
    .ok (false,
      w1.qWarning "deleteText called on accessible that does not implement editableText")

/-- `AccessibleObject::pasteText(int position)`. -/
def AccessibleObject.pasteText (E : Enumerators) (R : Remote) (w : World)
    (self : AccessibleObject) (position : Int) : Except Fault (Bool × World) := do
  let (ifaces, w1) ← self.supportedInterfaces R w
  if ifaces &&& E.EditableTextInterface ≠ 0 then
    self.forward w1 (.pasteText position) (R.pasteText position)
  else
    .ok (false,
      w1.qWarning "pasteText called on accessible that does not implement editableText")

/-- `AccessibleObject::textSelections()`; the mask tested is `AccessibleObject::Text`. -/
def AccessibleObject.textSelections (E : Enumerators) (R : Remote) (w : World)
    (self : AccessibleObject) : Except Fault (List (Int × Int) × World) := do
  let (ifaces, w1) ← self.supportedInterfaces R w
  if ifaces &&& E.Text ≠ 0 then
    self.forward w1 .textSelections R.textSelections
  else
    .ok ([], w1.qWarning "textSelections called on accessible that does not implement text")

/-- `AccessibleObject::setTextSelections(selections)`; the mask tested is
`AccessibleObject::Text`. The registry method returns nothing. -/
def AccessibleObject.setTextSelections (E : Enumerators) (R : Remote) (w : World)
    (self : AccessibleObject) (selections : List (Int × Int)) :
    Except Fault (Unit × World) := do
  let (ifaces, w1) ← self.supportedInterfaces R w
  if ifaces &&& E.Text ≠ 0 then
    self.forward w1 (.setTextSelections selections) (fun _ _ _ => ())
  else
    .ok ((),
      w1.qWarning "setTextSelections called on accessible that does not implement text")

/-- `AccessibleObject::actions()`: the flag is set first, then the registry is asked and its
answer stored in `d->actions`; `d->actions` is returned. -/
def AccessibleObject.actions (R : Remote) (w : World) (self : AccessibleObject) :
    Except Fault (List Ptr × World) :=
  match self.d with
  | none => .error .nullDereference
  | some p =>
    if !(w.heap p).actionsFetched then
      let w1 := w.store p { w.heap p with actionsFetched := true }
      match (w1.heap p).registryPrivate with
      | none => .error .nullDereference
      | some r =>
        let fetched := R.actions w1 r self
        let w2 := w1.record { registry := r, object := self, query := .actions }
        let w3 := w2.store p { w2.heap p with actions := fetched }
        .ok ((w3.heap p).actions, w3)
    else
      .ok ((w.heap p).actions, w)

/-- The index `ATSPI_STATE_ACTIVE` of `enum AtspiStateType` (atspi-constants.h of AT-SPI). -/
def ATSPI_STATE_ACTIVE : Nat := 1

/-- `AccessibleObject::isActive()`: `state(*this) & (quint64(1) << ATSPI_STATE_ACTIVE)`,
a `quint64` converted to `bool`. -/
def AccessibleObject.isActive (R : Remote) (w : World) (self : AccessibleObject) :
    Except Fault (Bool × World) := do
  let (s, w1) ← self.forward w .state R.state
  .ok (decide ((s % 2 ^ 64) &&& ((1 <<< ATSPI_STATE_ACTIVE) % 2 ^ 64) ≠ 0), w1)

/-- `AccessibleObject::isDefunct()`: `d->defunct`. -/
def AccessibleObject.isDefunct (w : World) (self : AccessibleObject) : Except Fault Bool :=
  match self.d with
  | none => .error .nullDereference
  | some p => .ok (w.heap p).defunct

/-- `AccessibleObject::AccessibleObject(const AccessibleObject &other)`: the copy shares
`other.d` and holds one more reference to the state. Only a handle that exists can be copied,
so a reference is added only when some handle holds the state. -/
def AccessibleObject.AccessibleObjectCopy (w : World) (other : AccessibleObject) :
    AccessibleObject × World :=
  match other.d with
  | none => ({ d := none }, w)
  | some p => ({ d := some p }, if p ∈ w.owners then w.retain p else w)

/-- `AccessibleObject::~AccessibleObject()`: the handle gives up its reference (one entry of
`owners`; nothing happens when no handle holds the state). -/
def AccessibleObject.destroy (w : World) (self : AccessibleObject) : World :=
  match self.d with
  | none => w
  | some p => { w with owners := w.owners.erase p }

/-- One step of a client of registry `r`: resolving an Identity, copying a handle, or
destroying a handle. -/
inductive Step where
  | resolve (service path : String)
  | copy (h : AccessibleObject)
  | destroy (h : AccessibleObject)
  deriving DecidableEq, Repr

/-- The program state after one step; a step that aborts leaves no later state (`none`). -/
def Step.apply (QT_NO_DEBUG : Bool) (r : Ptr) (w : World) : Step → Option World
  | .resolve service path =>
    match AccessibleObject.AccessibleObject3 QT_NO_DEBUG w (some r) service path with
    | .ok (_, w1) => some w1
    | .error _ => none
  | .copy h => some (AccessibleObject.AccessibleObjectCopy w h).2
  | .destroy h => some (h.destroy w)

/-- The program state reached by a sequence of steps; the run ends at the first step that
aborts. -/
def run (QT_NO_DEBUG : Bool) (r : Ptr) : World → List Step → World
  | w, [] => w
  | w, s :: rest =>
    match s.apply QT_NO_DEBUG r w with
    | some w1 => run QT_NO_DEBUG r w1 rest
    | none => w

/-- The result of `n` calls of `actions()` in a row on handles sharing one state: the list of
the values returned, in call order, and the final program state. -/
def actionsTimes (R : Remote) (self : AccessibleObject) :
    Nat → World → Except Fault (List (List Ptr) × World)
  | 0, w => .ok ([], w)
  | n + 1, w =>
    match self.actions R w with
    | .error e => .error e
    | .ok (a, w1) =>
      match actionsTimes R self n w1 with
      | .error e => .error e
      | .ok (rest, w2) => .ok (a :: rest, w2)

/-- A program state before any resolution: no Proxy State, no handle, no call made, and
every registry with the cache strategy `c` and the scheme string documented in registry.h. -/
def World.initial (c : Option CacheStrategy) : World :=
  { heap := fun _ => newAccessibleObjectPrivate none "" "",
    next := 0,
    registries := fun _ =>
      { m_cacheStrategy := c, ACCESSIBLE_OBJECT_SCHEME_STRING := "AccessibleObject" },
    owners := [],
    log := [],
    warnings := [] }

/-- An assignment of the enumerator values in which `Text` is entry number 39 of the role
enumeration and the interface enumerators are single bits: `ComponentInterface` 0x20,
`EditableTextInterface` 0x80, `TextInterface` 0x10000. -/
def Enumerators.sample : Enumerators :=
  { ComponentInterface := 0x20, TextInterface := 0x10000, EditableTextInterface := 0x80,
    Text := 39 }

/-- A remote side for examples: every object has the interface bitset `ifaces`, one text
selection (2, 5), and an action fetch that answers the empty list the first time it is asked
and the list [7] afterwards; the other answers are empty or zero. -/
def Remote.sample (ifaces : Nat) : Remote :=
  { parentAccessible := fun _ _ _ => { d := none },
    children := fun _ _ _ => [],
    childCount := fun _ _ _ => 0,
    name := fun _ _ _ => "",
    description := fun _ _ _ => "",
    role := fun _ _ _ => 0,
    boundingRect := fun _ _ _ => { x1 := 10, y1 := 10, x2 := 19, y2 := 19 },
    characterRect := fun _ _ _ _ => { x1 := 10, y1 := 10, x2 := 19, y2 := 19 },
    supportedInterfaces := fun _ _ _ => ifaces,
    caretOffset := fun _ _ _ => 3,
    characterCount := fun _ _ _ => 8,
    text := fun _ _ _ _ _ => "abc",
    setText := fun _ _ _ _ => true,
    insertText := fun _ _ _ _ _ _ => true,
    copyText := fun _ _ _ _ _ => true,
    cutText := fun _ _ _ _ _ => true,
    deleteText := fun _ _ _ _ _ => true,
    pasteText := fun _ _ _ _ => true,
    textSelections := fun _ _ _ => [(2, 5)],
    actions := fun w _ _ => if w.log.isEmpty then [] else [7],
    state := fun _ _ _ => 0 }

/-- A program state with one Proxy State at address 0, bound to registry 0, for the object
(":1.7", "/org/a11y/atspi/accessible/root"), held by one handle; nothing fetched yet. -/
def World.oneObject : World :=
  { heap := fun _ =>
      newAccessibleObjectPrivate (some 0) ":1.7" "/org/a11y/atspi/accessible/root",
    next := 1,
    registries := fun _ =>
      { m_cacheStrategy := none, ACCESSIBLE_OBJECT_SCHEME_STRING := "AccessibleObject" },
    owners := [0],
    log := [],
    warnings := [] }

/-- The cache of registry `r` is `cs` and is well formed in the program state `w`: every
entry refers to an allocated state, no two entries that can be found have the same key, and
every entry is stored under the key path ++ service of its own state. -/
def CacheInv (w : World) (r : Ptr) (cs : CacheStrategy) : Prop :=
  (w.registries r).m_cacheStrategy = some cs ∧
  (∀ e ∈ cs.entries, e.2 < w.next) ∧
  ((cs.live w.owners).map Prod.fst).Nodup ∧
  (∀ e ∈ cs.entries, e.1 = (w.heap e.2).path ++ (w.heap e.2).service)

/-- Qt's `QPoint`; `int` coordinates. -/
structure QPoint where
  xp : Int
  yp : Int
  deriving DecidableEq, Repr

/-- `QPoint()`: the null point (0, 0). -/
def QPoint.null : QPoint := { xp := 0, yp := 0 }

/-- `QRect::x()`: the left edge. -/
def QRect.x (r : QRect) : Int := r.x1

/-- `QRect::y()`: the top edge. -/
def QRect.y (r : QRect) : Int := r.y1

/-- `QRect::width()`. -/
def QRect.width (r : QRect) : Int := r.x2 - r.x1 + 1

/-- `QRect::height()`. -/
def QRect.height (r : QRect) : Int := r.y2 - r.y1 + 1

/-- `QRect::isNull()`: width and height are both 0. -/
def QRect.isNull (r : QRect) : Bool := decide (r.x2 = r.x1 - 1) && decide (r.y2 = r.y1 - 1)

/-- `QRect::center()`: `QPoint((x1 + x2) / 2, (y1 + y2) / 2)`, the sums taken in 64 bits and
the division truncating as in C++. -/
def QRect.center (r : QRect) : QPoint :=
  { xp := (r.x1 + r.x2).tdiv 2, yp := (r.y1 + r.y2).tdiv 2 }

/-- The first block of `AccessibleObject::focusPoint()`: with `TextInterface` in `ifaces`,
the character rectangle at the caret offset is fetched and its centre returned when
`r.x() != 0 || r.y() != 0`; `none` means that the block returns nothing and control goes
on. -/
def AccessibleObject.focusPointText (E : Enumerators) (R : Remote) (w : World)
    (self : AccessibleObject) (ifaces : Nat) : Except Fault (Option QPoint × World) :=
  if ifaces &&& E.TextInterface ≠ 0 then do
    let (offset, w1) ← self.caretOffset E R w
    let (r, w2) ← self.characterRect E R w1 offset
    if r.x ≠ 0 ∨ r.y ≠ 0 then .ok (some r.center, w2) else .ok (none, w2)
  else
    .ok (none, w)

/-- The second block of `AccessibleObject::focusPoint()`: with `ComponentInterface` in
`ifaces`, the bounding rectangle is fetched and its centre returned when `!r.isNull()`. -/
def AccessibleObject.focusPointComponent (E : Enumerators) (R : Remote) (w : World)
    (self : AccessibleObject) (ifaces : Nat) : Except Fault (Option QPoint × World) :=
  if ifaces &&& E.ComponentInterface ≠ 0 then do
    let (r, w1) ← self.boundingRect E R w
    if !r.isNull then .ok (some r.center, w1) else .ok (none, w1)
  else
    .ok (none, w)

/-- `AccessibleObject::focusPoint()`. The C++ function calls itself on the parent; the first
argument bounds the depth of these calls, and `none` means that the bound was reached before
the call returned. -/
def AccessibleObject.focusPoint (E : Enumerators) (R : Remote) :
    Nat → World → AccessibleObject → Option (Except Fault (QPoint × World))
  | 0, _, _ => none
  | fuel + 1, w, self =>
    match self.supportedInterfaces R w with
    | .error e => some (.error e)
    | .ok (ifaces, w1) =>
      match self.focusPointText E R w1 ifaces with
      | .error e => some (.error e)
      | .ok (some pt, w2) => some (.ok (pt, w2))
      | .ok (none, w2) =>
        match self.focusPointComponent E R w2 ifaces with
        | .error e => some (.error e)
        | .ok (some pt, w3) => some (.ok (pt, w3))
        | .ok (none, w3) =>
          match self.parent R w3 with
          | .error e => some (.error e)
          | .ok (p, w4) =>
            if p.isValid w4 then AccessibleObject.focusPoint E R fuel w4 p
            else some (.ok (QPoint.null, w4))

/-- The registry answers the same about `self` whenever it is asked: the interface bitset
`ifaces`, the caret offset `offset`, the character rectangle `cr` at that offset and the
bounding rectangle `br`. -/
def StableAnswers (R : Remote) (r : Ptr) (self : AccessibleObject) (ifaces : Nat)
    (offset : Int) (cr br : QRect) : Prop :=
  (∀ w, R.supportedInterfaces w r self = ifaces) ∧
  (∀ w, R.caretOffset w r self = offset) ∧
  (∀ w, R.characterRect offset w r self = cr) ∧
  (∀ w, R.boundingRect w r self = br)

/-- A parent chain, bottom object first, over the Proxy States of `w`: every object has a
state bound to a registry and supports neither the text nor the component interface, the
parent of each object is the next one, which is a valid handle, and the parent of the last
object is an invalid handle. -/
def ParentChain (E : Enumerators) (R : Remote) (w : World) : List AccessibleObject → Prop
  | [] => False
  | [top] =>
    (∃ p r, top.d = some p ∧ (w.heap p).registryPrivate = some r ∧
      (∀ w1, R.supportedInterfaces w1 r top &&& E.TextInterface = 0 ∧
        R.supportedInterfaces w1 r top &&& E.ComponentInterface = 0) ∧
      ∃ q, (∀ w1, R.parentAccessible w1 r top = q) ∧ q.isValid w = false)
  | o :: next :: rest =>
    (∃ p r, o.d = some p ∧ (w.heap p).registryPrivate = some r ∧
      (∀ w1, R.supportedInterfaces w1 r o &&& E.TextInterface = 0 ∧
        R.supportedInterfaces w1 r o &&& E.ComponentInterface = 0) ∧
      (∀ w1, R.parentAccessible w1 r o = next) ∧ next.isValid w = true) ∧
    ParentChain E R w (next :: rest)

/-- A remote side for examples about `focusPoint()`: as `Remote.sample ifaces`, with the
character rectangle `cr`, the bounding rectangle `br` and the parent given by `parentOf`. -/
def Remote.geometry (ifaces : Nat) (cr br : QRect)
    (parentOf : AccessibleObject → AccessibleObject) : Remote :=
  { Remote.sample ifaces with
    characterRect := fun _ _ _ _ => cr,
    boundingRect := fun _ _ _ => br,
    parentAccessible := fun _ _ o => parentOf o }

/-- A program state with one Proxy State per address, all bound to registry 0; the object at
address `p` has the peer ":" followed by `p` digits 1. Addresses below `n` are allocated and
held by a handle. -/
def World.chain (n : Nat) : World :=
  { heap := fun p =>
      newAccessibleObjectPrivate (some 0) (String.mk (':' :: List.replicate p '1'))
        "/org/a11y/atspi/accessible/object",
    next := n,
    registries := fun _ =>
      { m_cacheStrategy := none, ACCESSIBLE_OBJECT_SCHEME_STRING := "AccessibleObject" },
    owners := List.range n,
    log := [],
    warnings := [] }

/-- The parent relation of a chain of `n` objects: the parent of the object at address `p`
is the object at `p + 1`, and the object at `n - 1` has the invalid handle as parent. -/
def chainParent (n : Nat) (o : AccessibleObject) : AccessibleObject :=
  match o.d with
  | some p => if p + 1 < n then { d := some (p + 1) } else { d := none }
  | none => { d := none }

/-- The handles to the objects at addresses `k`, `k + 1`, ..., `k + len - 1`. -/
def chainFrom (k : Nat) : Nat → List AccessibleObject
  | 0 => []
  | len + 1 => { d := some k } :: chainFrom (k + 1) len

/-- Qt's `QUrl`, as far as `url()` and `fromUrl()` use it: the scheme, the path and the
fragment, each read back as it was set. -/
structure QUrl where
  scheme : String
  path : String
  fragment : String
  deriving DecidableEq, Repr

/-- `QUrl()`: the empty URL. -/
def QUrl.empty : QUrl := { scheme := "", path := "", fragment := "" }

/-- `QUrl::setScheme`. -/
def QUrl.setScheme (u : QUrl) (scheme : String) : QUrl := { u with scheme := scheme }

/-- `QUrl::setPath`. -/
def QUrl.setPath (u : QUrl) (path : String) : QUrl := { u with path := path }

/-- `QUrl::setFragment`. -/
def QUrl.setFragment (u : QUrl) (fragment : String) : QUrl := { u with fragment := fragment }

/-- `AccessibleObject::url()`. -/
def AccessibleObject.url (w : World) (self : AccessibleObject) : QUrl :=
  match self.d with
  | none => QUrl.empty
  | some p =>
    match (w.heap p).registryPrivate with
    | none => QUrl.empty
    | some r =>
      ((QUrl.empty.setScheme (w.registries r).ACCESSIBLE_OBJECT_SCHEME_STRING).setPath
        (w.heap p).path).setFragment (w.heap p).service

/-- Modelled from the spec: `RegistryPrivate::fromUrl` (registry.cpp is missing; registry.h
and registry_p.h only declare it). Parsing reverses `url()`: the path is read back from the
URL path and the peer from the URL fragment, and the pair is resolved to a handle of this
registry. -/
def RegistryPrivate.fromUrl (QT_NO_DEBUG : Bool) (w : World) (r : Ptr) (url : QUrl) :
    Except Fault (AccessibleObject × World) :=
  AccessibleObject.AccessibleObject3 QT_NO_DEBUG w (some r) url.fragment url.path

/-- Every state in the cache of registry `r` is bound to `r`, and in a build with assertions
has a non-empty peer and a non-empty path. -/
def CacheBound (QT_NO_DEBUG : Bool) (w : World) (cs : CacheStrategy) (r : Ptr) : Prop :=
  ∀ e ∈ cs.entries, (w.heap e.2).registryPrivate = some r ∧
    (QT_NO_DEBUG = false → (w.heap e.2).service ≠ "" ∧ (w.heap e.2).path ≠ "")

/-- `qHash(const AccessibleObject &object)`: `qHash(object.d)`, Qt's hash of the shared
pointer held. Qt hashes the pointer itself, so the value is a function `qHashPointer` of the
pointer. -/
def qHash (qHashPointer : Option Ptr → Nat) (object : AccessibleObject) : Nat :=
  qHashPointer object.d

/-- Qt's `qHash` of a pointer on a 64-bit machine, `uint((key >> 31) ^ key)` of the address,
for a layout in which the null pointer has address 0 and the Proxy State number `p` lies at
address `16 * (p + 1)`. -/
def qHashPointerSample : Option Ptr → Nat
  | none => 0
  | some p => (((16 * (p + 1)) >>> 31) ^^^ (16 * (p + 1))) % 2 ^ 32

/-- `QList<Role>::indexOf(role)`: the index of the first occurrence, or -1. -/
def indexOf (roles : List Nat) (role : Nat) : Int :=
  if role ∈ roles then (roles.indexOf role : Nat) else -1

/-- The loop of `AccessibleObject::children(const QList<Role> &roles)` over the children
still to visit: the role of the child is asked, and the child is appended to
`result[index]` unless `index < 0`. -/
def childrenRolesLoop (R : Remote) (roles : List Nat) :
    List AccessibleObject → List (List AccessibleObject) → World →
      Except Fault (List (List AccessibleObject) × World)
  | [], result, w => .ok (result, w)
  | child :: rest, result, w =>
    match child.role R w with
    | .error e => .error e
    | .ok (role, w1) =>
      let index := indexOf roles role
      if index < 0 then childrenRolesLoop R roles rest result w1
      else childrenRolesLoop R roles rest
        (result.modify (fun bucket => bucket ++ [child]) index.toNat) w1

/-- `AccessibleObject::children(const QList<Role> &roles)`: a vector of `roles.count()`
empty lists is made, `children()` is fetched and the loop run over it. -/
def AccessibleObject.childrenRoles (R : Remote) (w : World) (self : AccessibleObject)
    (roles : List Nat) : Except Fault (List (List AccessibleObject) × World) :=
  match self.children R w with
  | .error e => .error e
  | .ok (all, w1) => childrenRolesLoop R roles all (List.replicate roles.length []) w1

/-- A remote side for examples about `children(roles)`: every object has the children at
the addresses 1, 2 and 1, in this order, and the role of the object at address `p` is `p`. -/
def Remote.family : Remote :=
  { Remote.sample 0 with
    children := fun _ _ _ => [{ d := some 1 }, { d := some 2 }, { d := some 1 }],
    role := fun _ _ c => match c.d with
      | some p => p
      | none => 0 }

/-- The index `ATSPI_STATE_CHECKED` of `enum AtspiStateType` (atspi-constants.h of AT-SPI, which
counts from `ATSPI_STATE_INVALID` = 0). -/
def ATSPI_STATE_CHECKED : Nat := 4

/-- The index `ATSPI_STATE_EDITABLE` of `enum AtspiStateType` (atspi-constants.h of AT-SPI, which
counts from `ATSPI_STATE_INVALID` = 0). -/
def ATSPI_STATE_EDITABLE : Nat := 7

/-- The index `ATSPI_STATE_ENABLED` of `enum AtspiStateType` (atspi-constants.h of AT-SPI, which
counts from `ATSPI_STATE_INVALID` = 0). -/
def ATSPI_STATE_ENABLED : Nat := 8

/-- The index `ATSPI_STATE_EXPANDABLE` of `enum AtspiStateType` (atspi-constants.h of AT-SPI, which
counts from `ATSPI_STATE_INVALID` = 0). -/
def ATSPI_STATE_EXPANDABLE : Nat := 9

/-- The index `ATSPI_STATE_EXPANDED` of `enum AtspiStateType` (atspi-constants.h of AT-SPI, which
counts from `ATSPI_STATE_INVALID` = 0). -/
def ATSPI_STATE_EXPANDED : Nat := 10

/-- The index `ATSPI_STATE_FOCUSABLE` of `enum AtspiStateType` (atspi-constants.h of AT-SPI, which
counts from `ATSPI_STATE_INVALID` = 0). -/
def ATSPI_STATE_FOCUSABLE : Nat := 11

/-- The index `ATSPI_STATE_FOCUSED` of `enum AtspiStateType` (atspi-constants.h of AT-SPI, which
counts from `ATSPI_STATE_INVALID` = 0). -/
def ATSPI_STATE_FOCUSED : Nat := 12

/-- The index `ATSPI_STATE_HAS_TOOLTIP` of `enum AtspiStateType` (atspi-constants.h of AT-SPI, which
counts from `ATSPI_STATE_INVALID` = 0). -/
def ATSPI_STATE_HAS_TOOLTIP : Nat := 13

/-- The index `ATSPI_STATE_MULTI_LINE` of `enum AtspiStateType` (atspi-constants.h of AT-SPI, which
counts from `ATSPI_STATE_INVALID` = 0). -/
def ATSPI_STATE_MULTI_LINE : Nat := 17

/-- The index `ATSPI_STATE_SELECTABLE` of `enum AtspiStateType` (atspi-constants.h of AT-SPI, which
counts from `ATSPI_STATE_INVALID` = 0). -/
def ATSPI_STATE_SELECTABLE : Nat := 22

/-- The index `ATSPI_STATE_SELECTED` of `enum AtspiStateType` (atspi-constants.h of AT-SPI, which
counts from `ATSPI_STATE_INVALID` = 0). -/
def ATSPI_STATE_SELECTED : Nat := 23

/-- The index `ATSPI_STATE_SENSITIVE` of `enum AtspiStateType` (atspi-constants.h of AT-SPI, which
counts from `ATSPI_STATE_INVALID` = 0). -/
def ATSPI_STATE_SENSITIVE : Nat := 24

/-- The index `ATSPI_STATE_SINGLE_LINE` of `enum AtspiStateType` (atspi-constants.h of AT-SPI, which
counts from `ATSPI_STATE_INVALID` = 0). -/
def ATSPI_STATE_SINGLE_LINE : Nat := 26

/-- The index `ATSPI_STATE_VISIBLE` of `enum AtspiStateType` (atspi-constants.h of AT-SPI, which
counts from `ATSPI_STATE_INVALID` = 0). -/
def ATSPI_STATE_VISIBLE : Nat := 30

/-- The index `ATSPI_STATE_SUPPORTS_AUTOCOMPLETION` of `enum AtspiStateType` (atspi-constants.h of AT-SPI, which
counts from `ATSPI_STATE_INVALID` = 0). -/
def ATSPI_STATE_SUPPORTS_AUTOCOMPLETION : Nat := 37

/-- The index `ATSPI_STATE_SELECTABLE_TEXT` of `enum AtspiStateType` (atspi-constants.h of AT-SPI, which
counts from `ATSPI_STATE_INVALID` = 0). -/
def ATSPI_STATE_SELECTABLE_TEXT : Nat := 38

/-- The index `ATSPI_STATE_IS_DEFAULT` of `enum AtspiStateType` (atspi-constants.h of AT-SPI, which
counts from `ATSPI_STATE_INVALID` = 0). -/
def ATSPI_STATE_IS_DEFAULT : Nat := 39

/-- The body shared by the state predicates:
`d->registryPrivate->state(*this) & (quint64(1) << index)`, a `quint64` converted to `bool`
by the `bool` return type. -/
def AccessibleObject.stateBit (R : Remote) (w : World) (self : AccessibleObject)
    (index : Nat) : Except Fault (Bool × World) := do
  let (s, w1) ← self.forward w .state R.state
  .ok (decide ((s % 2 ^ 64) &&& ((1 <<< index) % 2 ^ 64) ≠ 0), w1)

/-- `AccessibleObject::hasSelectableText()`: the state bit `ATSPI_STATE_SELECTABLE_TEXT`. -/
def AccessibleObject.hasSelectableText (R : Remote) (w : World) (self : AccessibleObject) :
    Except Fault (Bool × World) :=
  self.stateBit R w ATSPI_STATE_SELECTABLE_TEXT

/-- `AccessibleObject::hasToolTip()`: the state bit `ATSPI_STATE_HAS_TOOLTIP`. -/
def AccessibleObject.hasToolTip (R : Remote) (w : World) (self : AccessibleObject) :
    Except Fault (Bool × World) :=
  self.stateBit R w ATSPI_STATE_HAS_TOOLTIP

/-- `AccessibleObject::isChecked()`: the state bit `ATSPI_STATE_CHECKED`. -/
def AccessibleObject.isChecked (R : Remote) (w : World) (self : AccessibleObject) :
    Except Fault (Bool × World) :=
  self.stateBit R w ATSPI_STATE_CHECKED

/-- `AccessibleObject::isDefault()`: the state bit `ATSPI_STATE_IS_DEFAULT`. -/
def AccessibleObject.isDefault (R : Remote) (w : World) (self : AccessibleObject) :
    Except Fault (Bool × World) :=
  self.stateBit R w ATSPI_STATE_IS_DEFAULT

/-- `AccessibleObject::isEditable()`: the state bit `ATSPI_STATE_EDITABLE`. -/
def AccessibleObject.isEditable (R : Remote) (w : World) (self : AccessibleObject) :
    Except Fault (Bool × World) :=
  self.stateBit R w ATSPI_STATE_EDITABLE

/-- `AccessibleObject::isEnabled()`: the state bit `ATSPI_STATE_ENABLED`. -/
def AccessibleObject.isEnabled (R : Remote) (w : World) (self : AccessibleObject) :
    Except Fault (Bool × World) :=
  self.stateBit R w ATSPI_STATE_ENABLED

/-- `AccessibleObject::isExpandable()`: the state bit `ATSPI_STATE_EXPANDABLE`. -/
def AccessibleObject.isExpandable (R : Remote) (w : World) (self : AccessibleObject) :
    Except Fault (Bool × World) :=
  self.stateBit R w ATSPI_STATE_EXPANDABLE

/-- `AccessibleObject::isExpanded()`: the state bit `ATSPI_STATE_EXPANDED`. -/
def AccessibleObject.isExpanded (R : Remote) (w : World) (self : AccessibleObject) :
    Except Fault (Bool × World) :=
  self.stateBit R w ATSPI_STATE_EXPANDED

/-- `AccessibleObject::isFocusable()`: the state bit `ATSPI_STATE_FOCUSABLE`. -/
def AccessibleObject.isFocusable (R : Remote) (w : World) (self : AccessibleObject) :
    Except Fault (Bool × World) :=
  self.stateBit R w ATSPI_STATE_FOCUSABLE

/-- `AccessibleObject::isFocused()`: the state bit `ATSPI_STATE_FOCUSED`. -/
def AccessibleObject.isFocused (R : Remote) (w : World) (self : AccessibleObject) :
    Except Fault (Bool × World) :=
  self.stateBit R w ATSPI_STATE_FOCUSED

/-- `AccessibleObject::isMultiLine()`: the state bit `ATSPI_STATE_MULTI_LINE`. -/
def AccessibleObject.isMultiLine (R : Remote) (w : World) (self : AccessibleObject) :
    Except Fault (Bool × World) :=
  self.stateBit R w ATSPI_STATE_MULTI_LINE

/-- `AccessibleObject::isSelectable()`: the state bit `ATSPI_STATE_SELECTABLE`. -/
def AccessibleObject.isSelectable (R : Remote) (w : World) (self : AccessibleObject) :
    Except Fault (Bool × World) :=
  self.stateBit R w ATSPI_STATE_SELECTABLE

/-- `AccessibleObject::isSelected()`: the state bit `ATSPI_STATE_SELECTED`. -/
def AccessibleObject.isSelected (R : Remote) (w : World) (self : AccessibleObject) :
    Except Fault (Bool × World) :=
  self.stateBit R w ATSPI_STATE_SELECTED

/-- `AccessibleObject::isSensitive()`: the state bit `ATSPI_STATE_SENSITIVE`. -/
def AccessibleObject.isSensitive (R : Remote) (w : World) (self : AccessibleObject) :
    Except Fault (Bool × World) :=
  self.stateBit R w ATSPI_STATE_SENSITIVE

/-- `AccessibleObject::isSingleLine()`: the state bit `ATSPI_STATE_SINGLE_LINE`. -/
def AccessibleObject.isSingleLine (R : Remote) (w : World) (self : AccessibleObject) :
    Except Fault (Bool × World) :=
  self.stateBit R w ATSPI_STATE_SINGLE_LINE

/-- `AccessibleObject::isVisible()`: the state bit `ATSPI_STATE_VISIBLE`. -/
def AccessibleObject.isVisible (R : Remote) (w : World) (self : AccessibleObject) :
    Except Fault (Bool × World) :=
  self.stateBit R w ATSPI_STATE_VISIBLE

/-- `AccessibleObject::supportsAutocompletion()`: the state bit `ATSPI_STATE_SUPPORTS_AUTOCOMPLETION`. -/
def AccessibleObject.supportsAutocompletion (R : Remote) (w : World) (self : AccessibleObject) :
    Except Fault (Bool × World) :=
  self.stateBit R w ATSPI_STATE_SUPPORTS_AUTOCOMPLETION

/-- The predicates of `AccessibleObject` that read the state bitset of the registry, each
with the index it shifts by. -/
def statePredicates :
    List ((Remote → World → AccessibleObject → Except Fault (Bool × World)) × Nat) :=
  [(AccessibleObject.hasSelectableText, ATSPI_STATE_SELECTABLE_TEXT),
   (AccessibleObject.hasToolTip, ATSPI_STATE_HAS_TOOLTIP),
   (AccessibleObject.isActive, ATSPI_STATE_ACTIVE),
   (AccessibleObject.isChecked, ATSPI_STATE_CHECKED),
   (AccessibleObject.isDefault, ATSPI_STATE_IS_DEFAULT),
   (AccessibleObject.isEditable, ATSPI_STATE_EDITABLE),
   (AccessibleObject.isEnabled, ATSPI_STATE_ENABLED),
   (AccessibleObject.isExpandable, ATSPI_STATE_EXPANDABLE),
   (AccessibleObject.isExpanded, ATSPI_STATE_EXPANDED),
   (AccessibleObject.isFocusable, ATSPI_STATE_FOCUSABLE),
   (AccessibleObject.isFocused, ATSPI_STATE_FOCUSED),
   (AccessibleObject.isMultiLine, ATSPI_STATE_MULTI_LINE),
   (AccessibleObject.isSelectable, ATSPI_STATE_SELECTABLE),
   (AccessibleObject.isSelected, ATSPI_STATE_SELECTED),
   (AccessibleObject.isSensitive, ATSPI_STATE_SENSITIVE),
   (AccessibleObject.isSingleLine, ATSPI_STATE_SINGLE_LINE),
   (AccessibleObject.isVisible, ATSPI_STATE_VISIBLE),
   (AccessibleObject.supportsAutocompletion, ATSPI_STATE_SUPPORTS_AUTOCOMPLETION)]

/-- A remote side for examples about the state predicates: as `Remote.sample 0`, with the
state bitset `state` for every object. -/
def Remote.withState (state : Nat) : Remote :=
  { Remote.sample 0 with state := fun _ _ _ => state }

/-! ## Theorems -/

/-- C1: `a == b` holds exactly when the two handles hold the same pointer (the same Proxy
State instance, or both none), or both hold a Proxy State and the two states have equal
peer and equal path. -/
theorem operatorEq_iff_same_instance_or_equal_identity (w : World) (a b : AccessibleObject) :
    a.operatorEq w b = true ↔
      (a.d = b.d ∨ ∃ p q, a.d = some p ∧ b.d = some q ∧
        (w.heap p).service = (w.heap q).service ∧ (w.heap p).path = (w.heap q).path) := by
  cases ha : a.d <;> cases hb : b.d <;>
    simp [AccessibleObject.operatorEq, AccessibleObjectPrivate.operatorEq, ha, hb]

/-- C5: `isValid()` is true exactly when the handle has a Proxy State bound to a registry
with non-empty peer, non-empty path and a path other than "/org/a11y/atspi/null"; a handle
whose path is that sentinel is invalid whatever its peer. -/
theorem isValid_iff (w : World) (h : AccessibleObject) :
    (h.isValid w = true ↔
      ∃ p, h.d = some p ∧ (w.heap p).registryPrivate ≠ none ∧ (w.heap p).service ≠ "" ∧
        (w.heap p).path ≠ "" ∧ (w.heap p).path ≠ "/org/a11y/atspi/null") ∧
    (∀ p, h.d = some p → (w.heap p).path = "/org/a11y/atspi/null" → h.isValid w = false) := by
  constructor
  · cases hd : h.d with
    | none => simp [AccessibleObject.isValid, hd]
    | some p =>
      cases hr : (w.heap p).registryPrivate <;>
        simp [AccessibleObject.isValid, hd, hr, isEmpty, and_assoc]
  · intro p hd hp
    simp [AccessibleObject.isValid, hd, hp]

/-- Resolution with a registry and non-empty peer and path passes the three assertions. -/
theorem AccessibleObject3_eq (QT_NO_DEBUG : Bool) (w : World) (r : Ptr)
    (service path : String) (hs : service ≠ "") (hp : path ≠ "") :
    AccessibleObject.AccessibleObject3 QT_NO_DEBUG w (some r) service path =
      match (w.registries r).m_cacheStrategy with
      | some cs =>
        match cs.get w.owners (path ++ service) with
        | some p => .ok ({ d := some p }, w.retain p)
        | none =>
          .ok ({ d := some w.next },
            (((w.alloc (newAccessibleObjectPrivate (some r) service path)).2.setCache r
              (cs.add (path ++ service) w.next)).retain w.next))
      | none =>
        .ok ({ d := some w.next },
          (w.alloc (newAccessibleObjectPrivate (some r) service path)).2.retain w.next) := by
  simp [AccessibleObject.AccessibleObject3, Q_ASSERT, isEmpty, hs, hp, bind, Except.bind,
    World.alloc]

/-- With assertions compiled out, resolution with a registry passes for every peer and
path. -/
theorem AccessibleObject3_release_eq (w : World) (r : Ptr) (service path : String) :
    AccessibleObject.AccessibleObject3 true w (some r) service path =
      match (w.registries r).m_cacheStrategy with
      | some cs =>
        match cs.get w.owners (path ++ service) with
        | some p => .ok ({ d := some p }, w.retain p)
        | none =>
          .ok ({ d := some w.next },
            (((w.alloc (newAccessibleObjectPrivate (some r) service path)).2.setCache r
              (cs.add (path ++ service) w.next)).retain w.next))
      | none =>
        .ok ({ d := some w.next },
          (w.alloc (newAccessibleObjectPrivate (some r) service path)).2.retain w.next) := by
  simp [AccessibleObject.AccessibleObject3, Q_ASSERT, bind, Except.bind, World.alloc]

/-- A resolution that finds its key in the cache returns the state found and creates
nothing. -/
theorem AccessibleObject3_hit (QT_NO_DEBUG : Bool) (w : World) (r : Ptr) (cs : CacheStrategy)
    (service path : String) (p : Ptr) (hs : service ≠ "") (hp : path ≠ "")
    (hc : (w.registries r).m_cacheStrategy = some cs)
    (hg : cs.get w.owners (path ++ service) = some p) :
    AccessibleObject.AccessibleObject3 QT_NO_DEBUG w (some r) service path
      = .ok ({ d := some p }, w.retain p) := by
  rw [AccessibleObject3_eq QT_NO_DEBUG w r service path hs hp]
  simp only [hc, hg]

/-- A resolution that misses the cache creates a state at the first unused address and adds it
under the key path ++ service. -/
theorem AccessibleObject3_miss (QT_NO_DEBUG : Bool) (w : World) (r : Ptr) (cs : CacheStrategy)
    (service path : String) (hs : service ≠ "") (hp : path ≠ "")
    (hc : (w.registries r).m_cacheStrategy = some cs)
    (hg : cs.get w.owners (path ++ service) = none) :
    AccessibleObject.AccessibleObject3 QT_NO_DEBUG w (some r) service path
      = .ok ({ d := some w.next },
          (((w.alloc (newAccessibleObjectPrivate (some r) service path)).2.setCache r
              (cs.add (path ++ service) w.next)).retain w.next)) := by
  rw [AccessibleObject3_eq QT_NO_DEBUG w r service path hs hp]
  simp only [hc, hg]

/-- A resolution on a registry without cache strategy creates a state at the first unused
address. -/
theorem AccessibleObject3_nostrategy (QT_NO_DEBUG : Bool) (w : World) (r : Ptr)
    (service path : String) (hs : service ≠ "") (hp : path ≠ "")
    (hc : (w.registries r).m_cacheStrategy = none) :
    AccessibleObject.AccessibleObject3 QT_NO_DEBUG w (some r) service path
      = .ok ({ d := some w.next },
          (w.alloc (newAccessibleObjectPrivate (some r) service path)).2.retain w.next) := by
  rw [AccessibleObject3_eq QT_NO_DEBUG w r service path hs hp]
  simp only [hc]

/-- C2: under `StrongCache`, two successive resolutions of one non-empty (peer, path) return
handles to the identical Proxy State instance, and the second resolution creates no state.
When the key path ++ peer is not yet in the cache, the first resolution creates the state
at a fresh address and adds it under that key, and the second changes neither the cache nor
the store. -/
theorem strongCache_resolve_twice_same_instance (QT_NO_DEBUG : Bool) (w : World) (r : Ptr)
    (entries : List (String × Ptr)) (service path : String)
    (hs : service ≠ "") (hp : path ≠ "")
    (hc : (w.registries r).m_cacheStrategy =
      some { type := .StrongCache, entries := entries }) :
    ∃ p w1 w2,
      AccessibleObject.AccessibleObject3 QT_NO_DEBUG w (some r) service path
        = .ok ({ d := some p }, w1) ∧
      AccessibleObject.AccessibleObject3 QT_NO_DEBUG w1 (some r) service path
        = .ok ({ d := some p }, w2) ∧
      w2.next = w1.next ∧ w2.heap = w1.heap ∧
      (w2.registries r).m_cacheStrategy = (w1.registries r).m_cacheStrategy ∧
      (entries.lookup (path ++ service) = none →
        p = w.next ∧ w1.next = w.next + 1 ∧
        w1.heap p = newAccessibleObjectPrivate (some r) service path ∧
        (w1.registries r).m_cacheStrategy =
          some { type := .StrongCache, entries := (path ++ service, p) :: entries }) := by
  cases hl : entries.lookup (path ++ service) with
  | some p =>
    refine ⟨p, w.retain p, (w.retain p).retain p, ?_, ?_, rfl, rfl, rfl, ?_⟩
    · exact AccessibleObject3_hit QT_NO_DEBUG w r _ service path p hs hp hc
        (by simp [CacheStrategy.get, CacheStrategy.live, hl])
    · exact AccessibleObject3_hit QT_NO_DEBUG _ r _ service path p hs hp hc
        (by simp [CacheStrategy.get, CacheStrategy.live, hl])
    · intro h; cases h
  | none =>
    refine ⟨w.next, _, ?w2, AccessibleObject3_miss QT_NO_DEBUG w r _ service path hs hp hc
      (by simp [CacheStrategy.get, CacheStrategy.live, hl]), ?h2, ?_, ?_, ?_, ?_⟩
    case h2 =>
      refine AccessibleObject3_hit QT_NO_DEBUG _ r
        { type := .StrongCache, entries := (path ++ service, w.next) :: entries }
        service path w.next hs hp ?_ ?_
      · simp [World.retain, World.setCache, World.alloc, CacheStrategy.add]
      · simp [CacheStrategy.get, CacheStrategy.live, List.lookup]
    · rfl
    · rfl
    · rfl
    · intro _
      simp [World.retain, World.setCache, World.alloc, CacheStrategy.add]

/-- C2 at a concrete input: a first and a second resolution of (":1.7",
"/org/a11y/atspi/accessible/root") from the initial state with an empty strong cache. -/
theorem strongCache_resolve_twice_same_instance_witness :
    ∃ p w1 w2,
      AccessibleObject.AccessibleObject3 false
          (World.initial (some { type := .StrongCache, entries := [] })) (some 0)
          ":1.7" "/org/a11y/atspi/accessible/root"
        = .ok ({ d := some p }, w1) ∧
      AccessibleObject.AccessibleObject3 false w1 (some 0)
          ":1.7" "/org/a11y/atspi/accessible/root"
        = .ok ({ d := some p }, w2) ∧
      w2.next = w1.next ∧ w2.heap = w1.heap ∧
      (w2.registries 0).m_cacheStrategy = (w1.registries 0).m_cacheStrategy ∧
      (([] : List (String × Ptr)).lookup ("/org/a11y/atspi/accessible/root" ++ ":1.7") = none →
        p = (World.initial (some { type := .StrongCache, entries := [] })).next ∧
        w1.next = (World.initial (some { type := .StrongCache, entries := [] })).next + 1 ∧
        w1.heap p =
          newAccessibleObjectPrivate (some 0) ":1.7" "/org/a11y/atspi/accessible/root" ∧
        (w1.registries 0).m_cacheStrategy =
          some { type := .StrongCache,
                 entries := [("/org/a11y/atspi/accessible/root" ++ ":1.7", p)] }) :=
  strongCache_resolve_twice_same_instance false
    (World.initial (some { type := .StrongCache, entries := [] })) 0 []
    ":1.7" "/org/a11y/atspi/accessible/root" (by decide) (by decide) rfl

/-- C3: under `NoCache`, and also when the registry has no cache strategy, two resolutions
of one non-empty (peer, path) return handles to two distinct Proxy State instances, and the
two handles compare equal with `operator==`. -/
theorem noCache_resolve_twice_distinct_instances_equal (QT_NO_DEBUG : Bool) (w : World)
    (r : Ptr) (service path : String) (hs : service ≠ "") (hp : path ≠ "")
    (hc : (w.registries r).m_cacheStrategy = none ∨
      ∃ entries, (w.registries r).m_cacheStrategy =
        some { type := .NoCache, entries := entries }) :
    ∃ p1 p2 w1 w2,
      AccessibleObject.AccessibleObject3 QT_NO_DEBUG w (some r) service path
        = .ok ({ d := some p1 }, w1) ∧
      AccessibleObject.AccessibleObject3 QT_NO_DEBUG w1 (some r) service path
        = .ok ({ d := some p2 }, w2) ∧
      p1 ≠ p2 ∧
      AccessibleObject.operatorEq w2 { d := some p1 } { d := some p2 } = true := by
  rcases hc with hc | ⟨entries, hc⟩
  · have h1 := AccessibleObject3_nostrategy QT_NO_DEBUG w r service path hs hp hc
    have hc1 : ((((w.alloc (newAccessibleObjectPrivate (some r) service path)).2.retain
        w.next).registries r).m_cacheStrategy) = none := by
      simpa [World.retain, World.alloc] using hc
    have h2 := AccessibleObject3_nostrategy QT_NO_DEBUG _ r service path hs hp hc1
    refine ⟨_, _, _, _, h1, h2, ?_, ?_⟩
    · simp [World.retain, World.alloc]
    · simp [AccessibleObject.operatorEq, AccessibleObjectPrivate.operatorEq, World.retain,
        World.alloc, newAccessibleObjectPrivate]
  · have h1 := AccessibleObject3_miss QT_NO_DEBUG w r _ service path hs hp hc
      (by simp [CacheStrategy.get, CacheStrategy.live])
    have hc1 : (((((w.alloc (newAccessibleObjectPrivate (some r) service path)).2.setCache r
        (CacheStrategy.add { type := .NoCache, entries := entries } (path ++ service)
          w.next)).retain w.next).registries r).m_cacheStrategy)
        = some { type := .NoCache, entries := entries } := by
      simp [World.retain, World.setCache, World.alloc, CacheStrategy.add]
    have h2 := AccessibleObject3_miss QT_NO_DEBUG _ r _ service path hs hp hc1
      (by simp [CacheStrategy.get, CacheStrategy.live])
    refine ⟨_, _, _, _, h1, h2, ?_, ?_⟩
    · simp [World.retain, World.setCache, World.alloc]
    · simp [AccessibleObject.operatorEq, AccessibleObjectPrivate.operatorEq, World.retain,
        World.alloc, World.setCache, newAccessibleObjectPrivate]

/-- C3 at a concrete input: two resolutions of (":1.7", "/org/a11y/atspi/accessible/root")
from the initial state of a registry whose strategy is `NoCache`. -/
theorem noCache_resolve_twice_distinct_instances_equal_witness :
    ∃ p1 p2 w1 w2,
      AccessibleObject.AccessibleObject3 false
          (World.initial (some { type := .NoCache, entries := [] })) (some 0)
          ":1.7" "/org/a11y/atspi/accessible/root"
        = .ok ({ d := some p1 }, w1) ∧
      AccessibleObject.AccessibleObject3 false w1 (some 0)
          ":1.7" "/org/a11y/atspi/accessible/root"
        = .ok ({ d := some p2 }, w2) ∧
      p1 ≠ p2 ∧
      AccessibleObject.operatorEq w2 { d := some p1 } { d := some p2 } = true :=
  noCache_resolve_twice_distinct_instances_equal false
    (World.initial (some { type := .NoCache, entries := [] })) 0
    ":1.7" "/org/a11y/atspi/accessible/root" (by decide) (by decide)
    (Or.inr ⟨[], rfl⟩)

/-- C7, the claim as stated fails: in a build with assertions, resolving the empty peer with a
well-formed path stops at `Q_ASSERT(!service.isEmpty())`. -/
theorem resolve_empty_peer_assertion_fails :
    AccessibleObject.AccessibleObject3 false
        (World.initial (some { type := .StrongCache, entries := [] })) (some 0)
        "" "/org/a11y/atspi/accessible/root"
      = .error .assertFailed := by
  simp [AccessibleObject.AccessibleObject3, Q_ASSERT, isEmpty, bind, Except.bind]

/-- C7 as amended: with a registry and non-empty peer and path, resolution returns a handle
holding a state, in either build. With an empty peer or an empty path, the constructor's
assertion fails in a build with assertions; in a build without them resolution returns a
handle, and that handle is invalid whenever the key path ++ peer is not found in the cache
(so that the state is created from the peer and path given). -/
theorem resolve_completes_unless_assertion (QT_NO_DEBUG : Bool) (w : World) (r : Ptr)
    (service path : String) :
    (service ≠ "" → path ≠ "" →
      ∃ p w1, AccessibleObject.AccessibleObject3 QT_NO_DEBUG w (some r) service path
        = .ok ({ d := some p }, w1)) ∧
    (service = "" ∨ path = "" →
      AccessibleObject.AccessibleObject3 false w (some r) service path
        = .error .assertFailed) ∧
    (service = "" ∨ path = "" →
      (∀ cs, (w.registries r).m_cacheStrategy = some cs →
        cs.get w.owners (path ++ service) = none) →
      ∃ p w1, AccessibleObject.AccessibleObject3 true w (some r) service path
          = .ok ({ d := some p }, w1) ∧
        AccessibleObject.isValid w1 { d := some p } = false) := by
  refine ⟨?_, ?_, ?_⟩
  · intro hs hp
    cases hc : (w.registries r).m_cacheStrategy with
    | none => exact ⟨_, _, AccessibleObject3_nostrategy QT_NO_DEBUG w r service path hs hp hc⟩
    | some cs =>
      cases hg : cs.get w.owners (path ++ service) with
      | none => exact ⟨_, _, AccessibleObject3_miss QT_NO_DEBUG w r cs service path hs hp hc hg⟩
      | some p =>
        exact ⟨_, _, AccessibleObject3_hit QT_NO_DEBUG w r cs service path p hs hp hc hg⟩
  · intro h
    by_cases hs : service = ""
    · simp [AccessibleObject.AccessibleObject3, Q_ASSERT, isEmpty, bind, Except.bind, hs]
    · have hp : path = "" := h.resolve_left hs
      simp [AccessibleObject.AccessibleObject3, Q_ASSERT, isEmpty, bind, Except.bind, hs, hp]
  · intro h hmiss
    rw [AccessibleObject3_release_eq w r service path]
    cases hc : (w.registries r).m_cacheStrategy with
    | none =>
      refine ⟨_, _, rfl, ?_⟩
      rcases h with h | h <;>
        simp [AccessibleObject.isValid, World.retain, World.alloc,
          newAccessibleObjectPrivate, isEmpty, h]
    | some cs =>
      simp only [hmiss cs hc]
      refine ⟨_, _, rfl, ?_⟩
      rcases h with h | h <;>
        simp [AccessibleObject.isValid, World.retain, World.alloc, World.setCache,
          newAccessibleObjectPrivate, isEmpty, h]

/-- C7 as amended, at concrete inputs: the identity (":1.7",
"/org/a11y/atspi/accessible/root") and the empty peer with the same path, on the initial
state with an empty strong cache. -/
theorem resolve_completes_unless_assertion_witness :
    (∃ p w1, AccessibleObject.AccessibleObject3 false
        (World.initial (some { type := .StrongCache, entries := [] })) (some 0)
        ":1.7" "/org/a11y/atspi/accessible/root" = .ok ({ d := some p }, w1)) ∧
    AccessibleObject.AccessibleObject3 false
        (World.initial (some { type := .StrongCache, entries := [] })) (some 0)
        "" "/org/a11y/atspi/accessible/root" = .error .assertFailed ∧
    (∃ p w1, AccessibleObject.AccessibleObject3 true
        (World.initial (some { type := .StrongCache, entries := [] })) (some 0)
        "" "/org/a11y/atspi/accessible/root" = .ok ({ d := some p }, w1) ∧
      AccessibleObject.isValid w1 { d := some p } = false) :=
  ⟨(resolve_completes_unless_assertion false
      (World.initial (some { type := .StrongCache, entries := [] })) 0
      ":1.7" "/org/a11y/atspi/accessible/root").1 (by decide) (by decide),
   (resolve_completes_unless_assertion false
      (World.initial (some { type := .StrongCache, entries := [] })) 0
      "" "/org/a11y/atspi/accessible/root").2.1 (Or.inl rfl),
   (resolve_completes_unless_assertion false
      (World.initial (some { type := .StrongCache, entries := [] })) 0
      "" "/org/a11y/atspi/accessible/root").2.2 (Or.inl rfl)
      (by
        intro cs hcs
        have h : cs = { type := .StrongCache, entries := [] } := (Option.some.inj hcs).symm
        subst h
        rfl)⟩

/-- C6, the code at a default-constructed handle: `id()` and `isValid()` test `d` and return
the empty string and false, but `name()`, `description()`, `role()`, `parent()`, `children()`,
`childCount()`, `supportedInterfaces()`, `boundingRect()`, `text()`, `actions()`,
`isDefunct()` and `isActive()` dereference the null `d`. -/
theorem default_handle_accessors_dereference_null (E : Enumerators) (R : Remote) (w : World) :
    AccessibleObject.id w AccessibleObject.AccessibleObject0 = "" ∧
    AccessibleObject.isValid w AccessibleObject.AccessibleObject0 = false ∧
    AccessibleObject.name R w AccessibleObject.AccessibleObject0 = .error .nullDereference ∧
    AccessibleObject.description R w AccessibleObject.AccessibleObject0
      = .error .nullDereference ∧
    AccessibleObject.role R w AccessibleObject.AccessibleObject0 = .error .nullDereference ∧
    AccessibleObject.parent R w AccessibleObject.AccessibleObject0 = .error .nullDereference ∧
    AccessibleObject.children R w AccessibleObject.AccessibleObject0
      = .error .nullDereference ∧
    AccessibleObject.childCount R w AccessibleObject.AccessibleObject0
      = .error .nullDereference ∧
    AccessibleObject.supportedInterfaces R w AccessibleObject.AccessibleObject0
      = .error .nullDereference ∧
    AccessibleObject.boundingRect E R w AccessibleObject.AccessibleObject0
      = .error .nullDereference ∧
    AccessibleObject.text E R w AccessibleObject.AccessibleObject0 0 (-1)
      = .error .nullDereference ∧
    AccessibleObject.actions R w AccessibleObject.AccessibleObject0 = .error .nullDereference ∧
    AccessibleObject.isDefunct w AccessibleObject.AccessibleObject0 = .error .nullDereference ∧
    AccessibleObject.isActive R w AccessibleObject.AccessibleObject0
      = .error .nullDereference := by
  refine ⟨rfl, rfl, rfl, rfl, rfl, rfl, rfl, rfl, rfl, rfl, rfl, rfl, rfl, rfl⟩

/-- The interface lookup of a handle with a state bound to registry `r`. -/
theorem supportedInterfaces_eq (R : Remote) (w : World) (self : AccessibleObject)
    (p r : Ptr) (hd : self.d = some p) (hr : (w.heap p).registryPrivate = some r) :
    self.supportedInterfaces R w =
      .ok (R.supportedInterfaces w r self,
        w.record { registry := r, object := self, query := .supportedInterfaces }) := by
  simp [AccessibleObject.supportedInterfaces, AccessibleObject.forward, hd, hr]

/-- C8: on a handle with a state bound to a registry whose interface bitset lacks the gating
interface, each gated accessor returns its default, and the log of registry calls grows by
the interface lookup alone: `boundingRect()` without `ComponentInterface`;
`characterRect()`, `caretOffset()`, `characterCount()`, `text()` without `TextInterface`;
`setText()`, `insertText()`, `copyText()`, `cutText()`, `deleteText()`, `pasteText()`
without `EditableTextInterface`. -/
theorem gated_accessor_without_interface_returns_default (E : Enumerators) (R : Remote)
    (w : World) (self : AccessibleObject) (p r : Ptr)
    (hd : self.d = some p) (hr : (w.heap p).registryPrivate = some r) :
    (R.supportedInterfaces w r self &&& E.ComponentInterface = 0 →
      ∃ w1, self.boundingRect E R w = .ok (QRect.null, w1) ∧
        w1.log = w.log ++ [{ registry := r, object := self, query := .supportedInterfaces }]) ∧
    (R.supportedInterfaces w r self &&& E.TextInterface = 0 →
      (∀ offset, ∃ w1, self.characterRect E R w offset = .ok (QRect.null, w1) ∧
        w1.log = w.log ++ [{ registry := r, object := self, query := .supportedInterfaces }]) ∧
      (∃ w1, self.caretOffset E R w = .ok (0, w1) ∧
        w1.log = w.log ++ [{ registry := r, object := self, query := .supportedInterfaces }]) ∧
      (∃ w1, self.characterCount E R w = .ok (0, w1) ∧
        w1.log = w.log ++ [{ registry := r, object := self, query := .supportedInterfaces }]) ∧
      (∀ startOffset endOffset, ∃ w1,
        self.text E R w startOffset endOffset = .ok ("", w1) ∧
        w1.log = w.log ++ [{ registry := r, object := self, query := .supportedInterfaces }])) ∧
    (R.supportedInterfaces w r self &&& E.EditableTextInterface = 0 →
      (∀ text, ∃ w1, self.setText E R w text = .ok (false, w1) ∧
        w1.log = w.log ++ [{ registry := r, object := self, query := .supportedInterfaces }]) ∧
      (∀ text position length, ∃ w1,
        self.insertText E R w text position length = .ok (false, w1) ∧
        w1.log = w.log ++ [{ registry := r, object := self, query := .supportedInterfaces }]) ∧
      (∀ startPos endPos, ∃ w1, self.copyText E R w startPos endPos = .ok (false, w1) ∧
        w1.log = w.log ++ [{ registry := r, object := self, query := .supportedInterfaces }]) ∧
      (∀ startPos endPos, ∃ w1, self.cutText E R w startPos endPos = .ok (false, w1) ∧
        w1.log = w.log ++ [{ registry := r, object := self, query := .supportedInterfaces }]) ∧
      (∀ startPos endPos, ∃ w1, self.deleteText E R w startPos endPos = .ok (false, w1) ∧
        w1.log = w.log ++ [{ registry := r, object := self, query := .supportedInterfaces }]) ∧
      (∀ position, ∃ w1, self.pasteText E R w position = .ok (false, w1) ∧
        w1.log = w.log ++ [{ registry := r, object := self, query := .supportedInterfaces }])) := by
  have hsi := supportedInterfaces_eq R w self p r hd hr
  refine ⟨?_, ?_, ?_⟩
  · intro h
    simp [AccessibleObject.boundingRect, hsi, bind, Except.bind, h, World.qWarning,
      World.record]
  · intro h
    refine ⟨fun offset => ?_, ?_, ?_, fun startOffset endOffset => ?_⟩
    · simp [AccessibleObject.characterRect, hsi, bind, Except.bind, h, World.qWarning,
        World.record]
    · simp [AccessibleObject.caretOffset, hsi, bind, Except.bind, h, World.qWarning,
        World.record]
    · simp [AccessibleObject.characterCount, hsi, bind, Except.bind, h, World.qWarning,
        World.record]
    · simp [AccessibleObject.text, hsi, bind, Except.bind, h, World.qWarning,
        World.record]
  · intro h
    refine ⟨fun text => ?_, fun text position length => ?_, fun startPos endPos => ?_,
      fun startPos endPos => ?_, fun startPos endPos => ?_, fun position => ?_⟩
    · simp [AccessibleObject.setText, hsi, bind, Except.bind, h, World.qWarning,
        World.record]
    · simp [AccessibleObject.insertText, hsi, bind, Except.bind, h, World.qWarning,
        World.record]
    · simp [AccessibleObject.copyText, hsi, bind, Except.bind, h, World.qWarning,
        World.record]
    · simp [AccessibleObject.cutText, hsi, bind, Except.bind, h, World.qWarning,
        World.record]
    · simp [AccessibleObject.deleteText, hsi, bind, Except.bind, h, World.qWarning,
        World.record]
    · simp [AccessibleObject.pasteText, hsi, bind, Except.bind, h, World.qWarning,
        World.record]

/-- C8 at a concrete input: an object whose interface bitset is 0x1 has none of the three
gating interfaces of `Enumerators.sample`; `boundingRect()`, `text(0, -1)` and `setText("x")`
return the null rectangle, the empty string and false after the interface lookup alone. -/
theorem gated_accessor_without_interface_returns_default_witness :
    (∃ w1, AccessibleObject.boundingRect Enumerators.sample (Remote.sample 1) World.oneObject
          { d := some 0 } = .ok (QRect.null, w1) ∧
        w1.log = World.oneObject.log ++
          [{ registry := 0, object := { d := some 0 }, query := .supportedInterfaces }]) ∧
    (∃ w1, AccessibleObject.text Enumerators.sample (Remote.sample 1) World.oneObject
          { d := some 0 } 0 (-1) = .ok ("", w1) ∧
        w1.log = World.oneObject.log ++
          [{ registry := 0, object := { d := some 0 }, query := .supportedInterfaces }]) ∧
    (∃ w1, AccessibleObject.setText Enumerators.sample (Remote.sample 1) World.oneObject
          { d := some 0 } "x" = .ok (false, w1) ∧
        w1.log = World.oneObject.log ++
          [{ registry := 0, object := { d := some 0 }, query := .supportedInterfaces }]) :=
  ⟨(gated_accessor_without_interface_returns_default Enumerators.sample (Remote.sample 1)
      World.oneObject { d := some 0 } 0 0 rfl rfl).1 (by decide),
   ((gated_accessor_without_interface_returns_default Enumerators.sample (Remote.sample 1)
      World.oneObject { d := some 0 } 0 0 rfl rfl).2.1 (by decide)).2.2.2 0 (-1),
   ((gated_accessor_without_interface_returns_default Enumerators.sample (Remote.sample 1)
      World.oneObject { d := some 0 } 0 0 rfl rfl).2.2 (by decide)).1 "x"⟩

/-- The test guarding `textSelections()` and `setTextSelections()` is on the enumerator `Text`: when
the interface bitset meets `Text`, both forward to the registry, whatever the bitset says
about `TextInterface`. -/
theorem textSelections_forwards_when_Text_bits_set (E : Enumerators) (R : Remote) (w : World)
    (self : AccessibleObject) (p r : Ptr) (selections : List (Int × Int))
    (hd : self.d = some p) (hr : (w.heap p).registryPrivate = some r)
    (h : R.supportedInterfaces w r self &&& E.Text ≠ 0) :
    (∃ w1, self.textSelections E R w
        = .ok (R.textSelections
            (w.record { registry := r, object := self, query := .supportedInterfaces })
            r self, w1) ∧
      w1.log = w.log ++ [{ registry := r, object := self, query := .supportedInterfaces },
        { registry := r, object := self, query := .textSelections }]) ∧
    (∃ w1, self.setTextSelections E R w selections = .ok ((), w1) ∧
      w1.log = w.log ++ [{ registry := r, object := self, query := .supportedInterfaces },
        { registry := r, object := self, query := .setTextSelections selections }]) := by
  have hsi := supportedInterfaces_eq R w self p r hd hr
  have hr1 : ((w.record
      { registry := r, object := self, query := .supportedInterfaces }).heap p).registryPrivate
      = some r := hr
  constructor
  · simp [AccessibleObject.textSelections, hsi, bind, Except.bind, h,
      AccessibleObject.forward, hd, hr1]
    simp [World.record]
  · simp [AccessibleObject.setTextSelections, hsi, bind, Except.bind, h,
      AccessibleObject.forward, hd, hr1]
    simp [World.record]

/-- Whatever values the header gives the enumerators: if `Text` has a bit `i` that
`TextInterface` lacks, an object whose interface bitset is that single bit has no
`TextInterface`, and `textSelections()` still forwards to the registry. -/
theorem textSelections_forwards_on_bit_outside_TextInterface (E : Enumerators) (R : Remote)
    (w : World) (self : AccessibleObject) (p r i : Nat)
    (hd : self.d = some p) (hr : (w.heap p).registryPrivate = some r)
    (hText : E.Text.testBit i = true) (hTextInterface : E.TextInterface.testBit i = false)
    (hifaces : R.supportedInterfaces w r self = 2 ^ i) :
    R.supportedInterfaces w r self &&& E.TextInterface = 0 ∧
    ∃ w1, self.textSelections E R w
        = .ok (R.textSelections
            (w.record { registry := r, object := self, query := .supportedInterfaces })
            r self, w1) ∧
      w1.log = w.log ++ [{ registry := r, object := self, query := .supportedInterfaces },
        { registry := r, object := self, query := .textSelections }] := by
  have hzero : (2 ^ i) &&& E.TextInterface = 0 := by
    apply Nat.eq_of_testBit_eq
    intro j
    by_cases hij : i = j
    · subst hij
      simp [Nat.testBit_and, hTextInterface]
    · simp [Nat.testBit_and, Nat.testBit_two_pow, hij]
  have hne : (2 ^ i) &&& E.Text ≠ 0 := by
    intro h0
    have := congrArg (fun n => Nat.testBit n i) h0
    simp [Nat.testBit_and, Nat.testBit_two_pow_self, hText] at this
  refine ⟨by rw [hifaces]; exact hzero, ?_⟩
  exact (textSelections_forwards_when_Text_bits_set E R w self p r [] hd hr
    (by rw [hifaces]; exact hne)).1

/-- C9, the code at a failing input: with the enumerator values of `Enumerators.sample`, the
interface bitset 0x21 has no `TextInterface` bit, yet `textSelections()` returns the
registry's answer [(2, 5)] and `setTextSelections([(0, 1)])` reaches the registry: each
issues its registry query after the interface lookup. -/
theorem textSelections_not_gated_by_TextInterface :
    (Remote.sample 0x21).supportedInterfaces World.oneObject 0 { d := some 0 }
        &&& Enumerators.sample.TextInterface = 0 ∧
    (∃ w1, AccessibleObject.textSelections Enumerators.sample (Remote.sample 0x21)
          World.oneObject { d := some 0 } = .ok ([(2, 5)], w1) ∧
        w1.log = [{ registry := 0, object := { d := some 0 }, query := .supportedInterfaces },
          { registry := 0, object := { d := some 0 }, query := .textSelections }]) ∧
    (∃ w1, AccessibleObject.setTextSelections Enumerators.sample (Remote.sample 0x21)
          World.oneObject { d := some 0 } [(0, 1)] = .ok ((), w1) ∧
        w1.log = [{ registry := 0, object := { d := some 0 }, query := .supportedInterfaces },
          { registry := 0, object := { d := some 0 },
            query := .setTextSelections [(0, 1)] }]) := by
  have h := textSelections_forwards_when_Text_bits_set Enumerators.sample (Remote.sample 0x21)
    World.oneObject { d := some 0 } 0 0 [(0, 1)] rfl rfl (by decide)
  exact ⟨by decide, h.1, h.2⟩

/-- Once the flag `actionsFetched` is set, `actions()` returns the stored list and changes
nothing. -/
theorem actions_of_fetched (R : Remote) (w : World) (p : Ptr)
    (hf : (w.heap p).actionsFetched = true) :
    AccessibleObject.actions R w { d := some p } = .ok ((w.heap p).actions, w) := by
  simp [AccessibleObject.actions, hf]

/-- Any number of calls of `actions()` on a state whose flag is set return the stored list
each time and change nothing. -/
theorem actionsTimes_of_fetched (R : Remote) (p : Ptr) (n : Nat) (w : World)
    (hf : (w.heap p).actionsFetched = true) :
    actionsTimes R { d := some p } n w
      = .ok (List.replicate n (w.heap p).actions, w) := by
  induction n with
  | zero => rfl
  | succ k ih =>
    simp [actionsTimes, actions_of_fetched R w p hf, ih, List.replicate_succ]

/-- The first call of `actions()` on a state bound to registry `r` whose flag is not set:
the flag is set, the registry is asked once and its answer stored and returned. -/
theorem actions_of_unfetched (R : Remote) (w : World) (p r : Ptr)
    (hr : (w.heap p).registryPrivate = some r) (hf : (w.heap p).actionsFetched = false) :
    AccessibleObject.actions R w { d := some p }
      = .ok (R.actions (w.store p { w.heap p with actionsFetched := true }) r { d := some p },
          ((w.store p { w.heap p with actionsFetched := true }).record
              { registry := r, object := { d := some p }, query := .actions }).store p
            { w.heap p with
              actionsFetched := true
              actions :=
                R.actions (w.store p { w.heap p with actionsFetched := true }) r
                  { d := some p } }) := by
  simp [AccessibleObject.actions, hf, hr, World.store, World.record]

/-- C10: for a Proxy State bound to a registry and any n + 1 calls of `actions()` on handles
sharing it, every call returns the list the first call returned. If the state was not
fetched before, the registry's action fetch is called exactly once, by the first call, and
its answer (empty or not) is that list; if it was fetched before, the fetch is not called at
all. So the log of registry calls grows by at most one action fetch. -/
theorem actions_fetched_at_most_once (R : Remote) (w : World) (p r : Ptr) (n : Nat)
    (hr : (w.heap p).registryPrivate = some r) :
    ∃ first w1 wN,
      AccessibleObject.actions R w { d := some p } = .ok (first, w1) ∧
      actionsTimes R { d := some p } (n + 1) w = .ok (List.replicate (n + 1) first, wN) ∧
      ((w.heap p).actionsFetched = false →
        first = R.actions (w.store p { w.heap p with actionsFetched := true }) r
          { d := some p } ∧
        wN.log = w.log ++ [{ registry := r, object := { d := some p }, query := .actions }]) ∧
      ((w.heap p).actionsFetched = true → wN.log = w.log) := by
  cases hf : (w.heap p).actionsFetched with
  | true =>
    refine ⟨_, _, _, actions_of_fetched R w p hf, actionsTimes_of_fetched R p (n + 1) w hf,
      ?_, ?_⟩
    · intro h; cases h
    · intro _; rfl
  | false =>
    obtain ⟨first, w1, h1, hfirst, hlog, hflag, hstored⟩ :
        ∃ first w1, AccessibleObject.actions R w { d := some p } = .ok (first, w1) ∧
          first = R.actions (w.store p { w.heap p with actionsFetched := true }) r
            { d := some p } ∧
          w1.log = w.log ++ [{ registry := r, object := { d := some p }, query := .actions }] ∧
          (w1.heap p).actionsFetched = true ∧ (w1.heap p).actions = first :=
      ⟨_, _, actions_of_unfetched R w p r hr hf, rfl, rfl, by simp [World.store],
        by simp [World.store]⟩
    refine ⟨first, w1, w1, h1, ?_, ?_, ?_⟩
    · simp only [actionsTimes, h1]
      rw [actionsTimes_of_fetched R p n w1 hflag, hstored]
      rfl
    · intro _
      exact ⟨hfirst, hlog⟩
    · intro h; cases h

/-- A key is not found exactly when no entry has it. -/
theorem lookup_eq_none_iff_forall (k : String) (l : List (String × Ptr)) :
    l.lookup k = none ↔ ∀ e ∈ l, e.1 ≠ k := by
  induction l with
  | nil => simp
  | cons e rest ih =>
    obtain ⟨k1, p1⟩ := e
    by_cases h : k = k1
    · subst h
      simp [List.lookup]
    · have hb : (k == k1) = false := by simpa using h
      simp [List.lookup, hb, ih, Ne.symm h]

/-- A key that is found is found in an entry of the list. -/
theorem mem_of_lookup_eq_some (k : String) (p : Ptr) (l : List (String × Ptr))
    (h : l.lookup k = some p) : (k, p) ∈ l := by
  induction l with
  | nil => simp at h
  | cons e rest ih =>
    obtain ⟨k1, p1⟩ := e
    by_cases hk : k = k1
    · subst hk
      simp [List.lookup] at h
      simp [h]
    · have hb : (k == k1) = false := by simpa using hk
      simp [List.lookup, hb] at h
      exact List.mem_cons_of_mem _ (ih h)

/-- The entries that can be found are entries of the store. -/
theorem live_subset (cs : CacheStrategy) (owners : List Ptr) :
    ∀ e ∈ cs.live owners, e ∈ cs.entries := by
  intro e he
  unfold CacheStrategy.live at he
  cases ht : cs.type <;> simp [ht] at he
  · exact he.1
  · exact he

/-- A state found by `get` under `WeakCache` is held by a handle. -/
theorem get_weak_mem_owners (cs : CacheStrategy) (owners : List Ptr) (k : String) (p : Ptr)
    (ht : cs.type = .WeakCache) (h : cs.get owners k = some p) : p ∈ owners := by
  have hm := mem_of_lookup_eq_some k p _ h
  simp [CacheStrategy.live, ht] at hm
  exact hm.2

/-- Taking one more reference to a state that a handle already holds changes nothing in
what can be found. -/
theorem live_cons_of_mem (cs : CacheStrategy) (owners : List Ptr) (p : Ptr)
    (hp : cs.type = .WeakCache → p ∈ owners) :
    cs.live (p :: owners) = cs.live owners := by
  unfold CacheStrategy.live
  cases ht : cs.type with
  | NoCache => rfl
  | StrongCache => rfl
  | WeakCache =>
    simp only
    apply List.filter_congr
    intro e _
    have := hp ht
    by_cases he : e.2 = p
    · simp [he, this]
    · simp [he]

/-- After a miss, what can be found is the new entry followed by what could be found
before (nothing under `NoCache`). -/
theorem live_add_fresh (cs : CacheStrategy) (owners : List Ptr) (k : String) (n : Ptr)
    (hfresh : ∀ e ∈ cs.entries, e.2 < n) :
    (cs.add k n).live (n :: owners) =
      if cs.type = .NoCache then [] else (k, n) :: cs.live owners := by
  unfold CacheStrategy.live CacheStrategy.add
  cases ht : cs.type with
  | NoCache => simp [ht]
  | StrongCache => simp
  | WeakCache =>
    simp
    apply List.filter_congr
    intro e he
    have := hfresh e he
    have hne : e.2 ≠ n := Nat.ne_of_lt this
    simp [hne]

/-- The two ways in which a resolution on a registry with a cache strategy returns. -/
theorem AccessibleObject3_ok_cases (QT_NO_DEBUG : Bool) (w w1 : World) (r : Ptr)
    (cs : CacheStrategy) (service path : String) (h : AccessibleObject)
    (hc : (w.registries r).m_cacheStrategy = some cs)
    (hok : AccessibleObject.AccessibleObject3 QT_NO_DEBUG w (some r) service path
      = .ok (h, w1)) :
    (∃ q, cs.get w.owners (path ++ service) = some q ∧ h = { d := some q } ∧
      w1 = w.retain q) ∨
    (cs.get w.owners (path ++ service) = none ∧ h = { d := some w.next } ∧
      w1 = (((w.alloc (newAccessibleObjectPrivate (some r) service path)).2.setCache r
              (cs.add (path ++ service) w.next)).retain w.next)) := by
  have key : AccessibleObject.AccessibleObject3 QT_NO_DEBUG w (some r) service path =
      match cs.get w.owners (path ++ service) with
      | some p => .ok ({ d := some p }, w.retain p)
      | none =>
        .ok ({ d := some w.next },
          (((w.alloc (newAccessibleObjectPrivate (some r) service path)).2.setCache r
            (cs.add (path ++ service) w.next)).retain w.next)) := by
    cases QT_NO_DEBUG with
    | true => rw [AccessibleObject3_release_eq, hc]
    | false =>
      by_cases hs : service = ""
      · simp [AccessibleObject.AccessibleObject3, Q_ASSERT, isEmpty, bind, Except.bind, hs]
          at hok
      · by_cases hp : path = ""
        · simp [AccessibleObject.AccessibleObject3, Q_ASSERT, isEmpty, bind, Except.bind, hs,
            hp] at hok
        · rw [AccessibleObject3_eq false w r service path hs hp, hc]
  rw [key] at hok
  cases hg : cs.get w.owners (path ++ service) with
  | some q =>
    rw [hg] at hok
    simp only [Except.ok.injEq, Prod.mk.injEq] at hok
    exact Or.inl ⟨q, rfl, hok.1.symm, hok.2.symm⟩
  | none =>
    rw [hg] at hok
    simp only [Except.ok.injEq, Prod.mk.injEq] at hok
    exact Or.inr ⟨rfl, hok.1.symm, hok.2.symm⟩

/-- A resolution keeps the cache well formed. On a hit the cache is left as it is and the
state found is returned; on a miss exactly one entry, for the new state under the key
path ++ service, is added. -/
theorem resolve_preserves_CacheInv (QT_NO_DEBUG : Bool) (w w1 : World) (r : Ptr)
    (cs : CacheStrategy) (service path : String) (h : AccessibleObject)
    (inv : CacheInv w r cs)
    (hok : AccessibleObject.AccessibleObject3 QT_NO_DEBUG w (some r) service path
      = .ok (h, w1)) :
    ∃ cs1, CacheInv w1 r cs1 ∧ cs1.type = cs.type ∧
      (∀ q, cs.get w.owners (path ++ service) = some q →
        cs1 = cs ∧ h.d = some q ∧ cs1.live w1.owners = cs.live w.owners) ∧
      (cs.get w.owners (path ++ service) = none →
        cs1 = cs.add (path ++ service) w.next ∧ h.d = some w.next ∧
        cs1.live w1.owners =
          if cs.type = .NoCache then [] else (path ++ service, w.next) :: cs.live w.owners) := by
  obtain ⟨hc, hlt, hnd, hkey⟩ := inv
  rcases AccessibleObject3_ok_cases QT_NO_DEBUG w w1 r cs service path h hc hok with
    ⟨q, hg, hh, hw⟩ | ⟨hg, hh, hw⟩
  · have hlive : cs.live (q :: w.owners) = cs.live w.owners :=
      live_cons_of_mem cs w.owners q
        (fun ht => get_weak_mem_owners cs w.owners _ q ht hg)
    subst hw hh
    refine ⟨cs, ⟨hc, hlt, ?_, hkey⟩, rfl, ?_, ?_⟩
    · simpa [World.retain, hlive] using hnd
    · intro q1 hq1
      rw [hg] at hq1
      cases hq1
      exact ⟨rfl, rfl, hlive⟩
    · intro hn
      rw [hg] at hn
      cases hn
  · have hlive := live_add_fresh cs w.owners (path ++ service) w.next hlt
    have hfresh : ∀ e ∈ cs.live w.owners, e.1 ≠ path ++ service :=
      (lookup_eq_none_iff_forall _ _).1 hg
    subst hw hh
    refine ⟨cs.add (path ++ service) w.next, ⟨?_, ?_, ?_, ?_⟩, ?_, ?_, ?_⟩
    · simp [World.retain, World.setCache, World.alloc]
    · intro e he
      have : e = (path ++ service, w.next) ∨ e ∈ cs.entries := by
        unfold CacheStrategy.add at he
        cases ht : cs.type <;> simp [ht] at he <;> first | exact Or.inr he | exact he
      rcases this with rfl | he
      · simp [World.retain, World.setCache, World.alloc]
      · exact Nat.lt_succ_of_lt (hlt e he)
    · have : (((w.alloc (newAccessibleObjectPrivate (some r) service path)).2.setCache r
          (cs.add (path ++ service) w.next)).retain w.next).owners = w.next :: w.owners := rfl
      rw [this, hlive]
      by_cases ht : cs.type = .NoCache
      · simp [ht]
      · simp only [ht, if_false, List.map_cons, List.nodup_cons]
        refine ⟨?_, hnd⟩
        intro hmem
        obtain ⟨e, he, hek⟩ := List.mem_map.1 hmem
        exact hfresh e he hek
    · intro e he
      have : e = (path ++ service, w.next) ∨ e ∈ cs.entries := by
        unfold CacheStrategy.add at he
        cases ht : cs.type <;> simp [ht] at he <;> first | exact Or.inr he | exact he
      rcases this with rfl | he
      · simp [World.retain, World.setCache, World.alloc, newAccessibleObjectPrivate]
      · have hne : e.2 ≠ w.next := Nat.ne_of_lt (hlt e he)
        simpa [World.retain, World.setCache, World.alloc, hne] using hkey e he
    · unfold CacheStrategy.add
      cases ht : cs.type <;> simp [ht]
    · intro q hq
      rw [hg] at hq
      cases hq
    · intro _
      exact ⟨rfl, rfl, hlive⟩

/-- Copying a handle keeps the cache well formed and what can be found in it. -/
theorem copy_preserves_CacheInv (w : World) (r : Ptr) (cs : CacheStrategy)
    (other : AccessibleObject) (inv : CacheInv w r cs) :
    CacheInv (AccessibleObject.AccessibleObjectCopy w other).2 r cs := by
  obtain ⟨hc, hlt, hnd, hkey⟩ := inv
  unfold AccessibleObject.AccessibleObjectCopy
  cases hd : other.d with
  | none => exact ⟨hc, hlt, hnd, hkey⟩
  | some p =>
    by_cases hp : p ∈ w.owners
    · simp only [hp, if_true]
      refine ⟨hc, hlt, ?_, hkey⟩
      have := live_cons_of_mem cs w.owners p (fun _ => hp)
      simpa [World.retain, this] using hnd
    · simp only [hp, if_false]
      exact ⟨hc, hlt, hnd, hkey⟩

/-- Destroying a handle keeps the cache well formed. -/
theorem destroy_preserves_CacheInv (w : World) (r : Ptr) (cs : CacheStrategy)
    (self : AccessibleObject) (inv : CacheInv w r cs) :
    CacheInv (self.destroy w) r cs := by
  obtain ⟨hc, hlt, hnd, hkey⟩ := inv
  cases hd : self.d with
  | none =>
    simp only [AccessibleObject.destroy, hd]
    exact ⟨hc, hlt, hnd, hkey⟩
  | some p =>
    simp only [AccessibleObject.destroy, hd]
    refine ⟨hc, hlt, ?_, hkey⟩
    have hsub : List.Sublist (cs.live (w.owners.erase p)) (cs.live w.owners) := by
      unfold CacheStrategy.live
      cases ht : cs.type with
      | NoCache => exact List.Sublist.refl _
      | StrongCache => exact List.Sublist.refl _
      | WeakCache =>
        simp only
        apply List.monotone_filter_right
        intro e he
        simp only [decide_eq_true_eq] at he ⊢
        exact List.mem_of_mem_erase he
    exact List.Nodup.sublist (hsub.map Prod.fst) hnd

/-- Every program state reached from a state whose cache is well formed has a well-formed
cache of the same policy. -/
theorem run_preserves_CacheInv (QT_NO_DEBUG : Bool) (r : Ptr) (steps : List Step) :
    ∀ (w : World) (cs : CacheStrategy), CacheInv w r cs →
      ∃ cs1, CacheInv (run QT_NO_DEBUG r w steps) r cs1 ∧ cs1.type = cs.type := by
  induction steps with
  | nil => intro w cs inv; exact ⟨cs, inv, rfl⟩
  | cons s rest ih =>
    intro w cs inv
    cases s with
    | resolve service path =>
      cases hok : AccessibleObject.AccessibleObject3 QT_NO_DEBUG w (some r) service path with
      | error e =>
        simp only [run, Step.apply, hok]
        exact ⟨cs, inv, rfl⟩
      | ok res =>
        obtain ⟨h, w1⟩ := res
        obtain ⟨cs1, inv1, ht1, -, -⟩ :=
          resolve_preserves_CacheInv QT_NO_DEBUG w w1 r cs service path h inv hok
        obtain ⟨cs2, inv2, ht2⟩ := ih w1 cs1 inv1
        simp only [run, Step.apply, hok]
        exact ⟨cs2, inv2, ht2.trans ht1⟩
    | copy h =>
      simp only [run, Step.apply]
      exact ih _ cs (copy_preserves_CacheInv w r cs h inv)
    | destroy h =>
      simp only [run, Step.apply]
      exact ih _ cs (destroy_preserves_CacheInv w r cs h inv)

/-- C4: in every program state reached from an empty cache by resolutions, handle copies and
handle destructions, no two entries that can be found have the same key, and two such
entries whose states have the same Identity are one entry (at most one Proxy State per
Identity is reachable through the cache). A further resolution never overwrites or
duplicates: every key that was found is still found with the same state; on a hit the cache
is left unchanged and the state found is returned, and only on a miss is one entry added,
for the key path ++ peer that missed. -/
theorem cache_holds_one_live_entry_per_key (QT_NO_DEBUG : Bool) (w : World) (r : Ptr)
    (ty : CacheType) (steps : List Step)
    (h0 : (w.registries r).m_cacheStrategy = some { type := ty, entries := [] }) :
    ∃ cs, ((run QT_NO_DEBUG r w steps).registries r).m_cacheStrategy = some cs ∧
      cs.type = ty ∧
      ((cs.live (run QT_NO_DEBUG r w steps).owners).map Prod.fst).Nodup ∧
      (∀ e1 ∈ cs.live (run QT_NO_DEBUG r w steps).owners,
        ∀ e2 ∈ cs.live (run QT_NO_DEBUG r w steps).owners,
          ((run QT_NO_DEBUG r w steps).heap e1.2).service
            = ((run QT_NO_DEBUG r w steps).heap e2.2).service →
          ((run QT_NO_DEBUG r w steps).heap e1.2).path
            = ((run QT_NO_DEBUG r w steps).heap e2.2).path →
          e1 = e2) ∧
      (∀ service path h w2,
        AccessibleObject.AccessibleObject3 QT_NO_DEBUG (run QT_NO_DEBUG r w steps) (some r)
            service path = .ok (h, w2) →
        ∃ cs2, (w2.registries r).m_cacheStrategy = some cs2 ∧
          (∀ k q, cs.get (run QT_NO_DEBUG r w steps).owners k = some q →
            cs2.get w2.owners k = some q) ∧
          (∀ q, cs.get (run QT_NO_DEBUG r w steps).owners (path ++ service) = some q →
            cs2 = cs ∧ h.d = some q) ∧
          (cs.get (run QT_NO_DEBUG r w steps).owners (path ++ service) = none →
            cs2 = cs.add (path ++ service) (run QT_NO_DEBUG r w steps).next ∧
            h.d = some (run QT_NO_DEBUG r w steps).next)) := by
  have inv0 : CacheInv w r { type := ty, entries := [] } := by
    refine ⟨h0, ?_, ?_, ?_⟩
    · intro e he; cases he
    · cases ty <;> simp [CacheStrategy.live]
    · intro e he; cases he
  obtain ⟨cs, inv, hty⟩ := run_preserves_CacheInv QT_NO_DEBUG r steps w _ inv0
  generalize run QT_NO_DEBUG r w steps = W at inv ⊢
  refine ⟨cs, inv.1, hty, inv.2.2.1, ?_, ?_⟩
  · intro e1 he1 e2 he2 hs hp
    apply List.inj_on_of_nodup_map inv.2.2.1 he1 he2
    rw [inv.2.2.2 e1 (live_subset cs W.owners e1 he1),
      inv.2.2.2 e2 (live_subset cs W.owners e2 he2), hs, hp]
  · intro service path h w2 hok
    obtain ⟨cs2, inv2, -, hhit, hmiss⟩ :=
      resolve_preserves_CacheInv QT_NO_DEBUG W w2 r cs service path h inv hok
    refine ⟨cs2, inv2.1, ?_, ?_, ?_⟩
    · intro k q hk
      cases hg : cs.get W.owners (path ++ service) with
      | some q1 =>
        obtain ⟨-, -, hl⟩ := hhit q1 hg
        unfold CacheStrategy.get at hk ⊢
        rw [hl]
        exact hk
      | none =>
        obtain ⟨-, -, hl⟩ := hmiss hg
        unfold CacheStrategy.get at hk hg ⊢
        rw [hl]
        by_cases ht : cs.type = .NoCache
        · simp [CacheStrategy.live, ht] at hk
        · have hne : k ≠ path ++ service := by
            intro heq
            rw [heq, hg] at hk
            cases hk
          have hb : (k == path ++ service) = false := by simpa using hne
          simp only [ht, if_false, List.lookup, hb]
          exact hk
    · intro q hq
      obtain ⟨h1, h2, -⟩ := hhit q hq
      exact ⟨h1, h2⟩
    · intro hn
      obtain ⟨h1, h2, -⟩ := hmiss hn
      exact ⟨h1, h2⟩

/-- C4 at a concrete run on an empty weak cache: ("/a", ":1.7") is resolved, its handle
destroyed, the same Identity resolved again, and ("/b", ":1.8") resolved. The cache reached
is a weak cache in which no key can be found twice. -/
theorem cache_holds_one_live_entry_per_key_witness :
    ∃ cs,
      ((run false 0 (World.initial (some { type := .WeakCache, entries := [] }))
          [.resolve ":1.7" "/a", .destroy { d := some 0 }, .resolve ":1.7" "/a",
            .resolve ":1.8" "/b"]).registries 0).m_cacheStrategy = some cs ∧
      cs.type = .WeakCache ∧
      ((cs.live (run false 0 (World.initial (some { type := .WeakCache, entries := [] }))
          [.resolve ":1.7" "/a", .destroy { d := some 0 }, .resolve ":1.7" "/a",
            .resolve ":1.8" "/b"]).owners).map Prod.fst).Nodup := by
  obtain ⟨cs, h1, h2, h3, -⟩ := cache_holds_one_live_entry_per_key false
    (World.initial (some { type := .WeakCache, entries := [] })) 0 .WeakCache
    [.resolve ":1.7" "/a", .destroy { d := some 0 }, .resolve ":1.7" "/a",
      .resolve ":1.8" "/b"] rfl
  exact ⟨cs, h1, h2, h3⟩

/-- C10 at a concrete input: three calls of `actions()` on the one object of
`World.oneObject`, against a registry whose action fetch answers the empty list the first
time and [7] afterwards. All three calls return the empty list and the registry is asked
once. -/
theorem actions_fetched_at_most_once_witness :
    ∃ wN, actionsTimes (Remote.sample 0) { d := some 0 } 3 World.oneObject
        = .ok ([[], [], []], wN) ∧
      wN.log = [{ registry := 0, object := { d := some 0 }, query := .actions }] := by
  obtain ⟨first, w1, wN, -, h2, h3, -⟩ :=
    actions_fetched_at_most_once (Remote.sample 0) World.oneObject 0 0 2 rfl
  obtain ⟨hfirst, hlog⟩ := h3 rfl
  have hempty : first = [] := hfirst
  subst hempty
  exact ⟨wN, h2, hlog⟩

/-- Validity of a handle depends on the Proxy States only. -/
theorem isValid_congr (w w1 : World) (h : AccessibleObject) (hh : w1.heap = w.heap) :
    h.isValid w1 = h.isValid w := by
  simp [AccessibleObject.isValid, hh]

/-- The text block of `focusPoint()` on an object with stable answers: it asks the registry
only when `ifaces` has `TextInterface`, and yields the centre of the character rectangle
exactly when, in addition, that rectangle has `x() != 0 || y() != 0`. -/
theorem focusPointText_eq (E : Enumerators) (R : Remote) (w : World)
    (self : AccessibleObject) (p r : Ptr) (ifaces : Nat) (offset : Int) (cr br : QRect)
    (hd : self.d = some p) (hr : (w.heap p).registryPrivate = some r)
    (hs : StableAnswers R r self ifaces offset cr br) :
    ∃ w2, w2.heap = w.heap ∧
      w2.log = w.log ++
        (if ifaces &&& E.TextInterface ≠ 0 then
          [{ registry := r, object := self, query := .supportedInterfaces },
           { registry := r, object := self, query := .caretOffset },
           { registry := r, object := self, query := .supportedInterfaces },
           { registry := r, object := self, query := .characterRect offset }]
        else []) ∧
      self.focusPointText E R w ifaces =
        .ok (if ifaces &&& E.TextInterface ≠ 0 ∧ (cr.x1 ≠ 0 ∨ cr.y1 ≠ 0)
          then some cr.center else none, w2) := by
  obtain ⟨hsi, hco, hcr, -⟩ := hs
  by_cases ht : ifaces &&& E.TextInterface = 0
  · exact ⟨w, rfl, by simp [ht], by simp [AccessibleObject.focusPointText, ht]⟩
  · have hlog : (if ifaces &&& E.TextInterface ≠ 0 then
          [({ registry := r, object := self, query := .supportedInterfaces } : Call),
           { registry := r, object := self, query := .caretOffset },
           { registry := r, object := self, query := .supportedInterfaces },
           { registry := r, object := self, query := .characterRect offset }]
        else []) =
          [{ registry := r, object := self, query := .supportedInterfaces },
           { registry := r, object := self, query := .caretOffset },
           { registry := r, object := self, query := .supportedInterfaces },
           { registry := r, object := self, query := .characterRect offset }] := by
      simp [ht]
    rw [hlog]
    refine ⟨((((w.record { registry := r, object := self, query := .supportedInterfaces }).record
        { registry := r, object := self, query := .caretOffset }).record
        { registry := r, object := self, query := .supportedInterfaces }).record
        { registry := r, object := self, query := .characterRect offset }), rfl, ?_, ?_⟩
    · simp [World.record]
    · by_cases hxy : cr.x1 ≠ 0 ∨ cr.y1 ≠ 0
      · simp [AccessibleObject.focusPointText, AccessibleObject.caretOffset,
          AccessibleObject.characterRect, AccessibleObject.supportedInterfaces,
          AccessibleObject.forward, hd, hr, World.record, bind, Except.bind, hsi, hco, hcr,
          ht, hxy, QRect.x, QRect.y]
      · simp [AccessibleObject.focusPointText, AccessibleObject.caretOffset,
          AccessibleObject.characterRect, AccessibleObject.supportedInterfaces,
          AccessibleObject.forward, hd, hr, World.record, bind, Except.bind, hsi, hco, hcr,
          ht, hxy, QRect.x, QRect.y]

/-- The component block of `focusPoint()` on an object with stable answers: it asks the
registry only when `ifaces` has `ComponentInterface`, and yields the centre of the bounding
rectangle exactly when, in addition, that rectangle is not null. -/
theorem focusPointComponent_eq (E : Enumerators) (R : Remote) (w : World)
    (self : AccessibleObject) (p r : Ptr) (ifaces : Nat) (offset : Int) (cr br : QRect)
    (hd : self.d = some p) (hr : (w.heap p).registryPrivate = some r)
    (hs : StableAnswers R r self ifaces offset cr br) :
    ∃ w2, w2.heap = w.heap ∧
      w2.log = w.log ++
        (if ifaces &&& E.ComponentInterface ≠ 0 then
          [{ registry := r, object := self, query := .supportedInterfaces },
           { registry := r, object := self, query := .boundingRect }]
        else []) ∧
      self.focusPointComponent E R w ifaces =
        .ok (if ifaces &&& E.ComponentInterface ≠ 0 ∧ br.isNull = false
          then some br.center else none, w2) := by
  obtain ⟨hsi, -, -, hbr⟩ := hs
  by_cases ht : ifaces &&& E.ComponentInterface = 0
  · exact ⟨w, rfl, by simp [ht], by simp [AccessibleObject.focusPointComponent, ht]⟩
  · have hlog : (if ifaces &&& E.ComponentInterface ≠ 0 then
          [({ registry := r, object := self, query := .supportedInterfaces } : Call),
           { registry := r, object := self, query := .boundingRect }]
        else []) =
          [{ registry := r, object := self, query := .supportedInterfaces },
           { registry := r, object := self, query := .boundingRect }] := by
      simp [ht]
    rw [hlog]
    refine ⟨((w.record { registry := r, object := self, query := .supportedInterfaces }).record
        { registry := r, object := self, query := .boundingRect }), rfl, ?_, ?_⟩
    · simp [World.record]
    · cases hn : br.isNull <;>
        simp [AccessibleObject.focusPointComponent, AccessibleObject.boundingRect,
          AccessibleObject.supportedInterfaces, AccessibleObject.forward, hd, hr,
          World.record, bind, Except.bind, hsi, hbr, ht, hn]

/-- One call of `focusPoint()` on an object with stable answers whose text block yields a
point: the centre of the character rectangle is returned, and the registry is asked for the
interfaces, the caret offset and the character rectangle only. -/
theorem focusPoint_of_text_point (E : Enumerators) (R : Remote) (w : World)
    (self : AccessibleObject) (p r : Ptr) (ifaces : Nat) (offset : Int) (cr br : QRect)
    (fuel : Nat)
    (hd : self.d = some p) (hr : (w.heap p).registryPrivate = some r)
    (hs : StableAnswers R r self ifaces offset cr br)
    (ht : ifaces &&& E.TextInterface ≠ 0) (hxy : cr.x1 ≠ 0 ∨ cr.y1 ≠ 0) :
    ∃ w1, w1.heap = w.heap ∧
      w1.log = w.log ++
        [{ registry := r, object := self, query := .supportedInterfaces },
         { registry := r, object := self, query := .supportedInterfaces },
         { registry := r, object := self, query := .caretOffset },
         { registry := r, object := self, query := .supportedInterfaces },
         { registry := r, object := self, query := .characterRect offset }] ∧
      AccessibleObject.focusPoint E R (fuel + 1) w self = some (.ok (cr.center, w1)) := by
  obtain ⟨w2, hheap, hlog, htext⟩ := focusPointText_eq E R
    (w.record { registry := r, object := self, query := .supportedInterfaces })
    self p r ifaces offset cr br hd hr hs
  refine ⟨w2, hheap, ?_, ?_⟩
  · rw [hlog]
    simp [World.record, ht]
  · simp only [AccessibleObject.focusPoint, supportedInterfaces_eq R w self p r hd hr, hs.1,
      htext]
    simp [ht, hxy]

/-- One call of `focusPoint()` on an object with stable answers whose text block yields no
point and whose component block yields one: the centre of the bounding rectangle is
returned. -/
theorem focusPoint_of_component_point (E : Enumerators) (R : Remote) (w : World)
    (self : AccessibleObject) (p r : Ptr) (ifaces : Nat) (offset : Int) (cr br : QRect)
    (fuel : Nat)
    (hd : self.d = some p) (hr : (w.heap p).registryPrivate = some r)
    (hs : StableAnswers R r self ifaces offset cr br)
    (ht : ifaces &&& E.TextInterface = 0 ∨ (cr.x1 = 0 ∧ cr.y1 = 0))
    (hc : ifaces &&& E.ComponentInterface ≠ 0) (hn : br.isNull = false) :
    ∃ w1, w1.heap = w.heap ∧
      (∀ c ∈ w1.log, c ∈ w.log ∨ c.query ≠ .parentAccessible) ∧
      AccessibleObject.focusPoint E R (fuel + 1) w self = some (.ok (br.center, w1)) := by
  obtain ⟨w2, hheap2, hlog2, htext⟩ := focusPointText_eq E R
    (w.record { registry := r, object := self, query := .supportedInterfaces })
    self p r ifaces offset cr br hd hr hs
  have hr2 : (w2.heap p).registryPrivate = some r := by rw [hheap2]; exact hr
  obtain ⟨w3, hheap3, hlog3, hcomp⟩ :=
    focusPointComponent_eq E R w2 self p r ifaces offset cr br hd hr2 hs
  have hnot : ¬(ifaces &&& E.TextInterface ≠ 0 ∧ (cr.x1 ≠ 0 ∨ cr.y1 ≠ 0)) := by
    rintro ⟨h1, h2⟩
    rcases ht with ht | ⟨hx, hy⟩
    · exact h1 ht
    · rcases h2 with h2 | h2
      · exact h2 hx
      · exact h2 hy
  refine ⟨w3, by rw [hheap3, hheap2]; rfl, ?_, ?_⟩
  · have hT : ∀ c ∈ (if ifaces &&& E.TextInterface ≠ 0 then
          [({ registry := r, object := self, query := .supportedInterfaces } : Call),
           { registry := r, object := self, query := .caretOffset },
           { registry := r, object := self, query := .supportedInterfaces },
           { registry := r, object := self, query := .characterRect offset }]
        else []), c.query ≠ .parentAccessible := by
      intro c hcm
      by_cases h : ifaces &&& E.TextInterface = 0
      · simp [h] at hcm
      · simp [h] at hcm
        rcases hcm with h1 | h1 | h1 | h1 <;> subst h1 <;> simp
    have hC : ∀ c ∈ (if ifaces &&& E.ComponentInterface ≠ 0 then
          [({ registry := r, object := self, query := .supportedInterfaces } : Call),
           { registry := r, object := self, query := .boundingRect }]
        else []), c.query ≠ .parentAccessible := by
      intro c hcm
      simp [hc] at hcm
      rcases hcm with h1 | h1 <;> subst h1 <;> simp
    intro c hcmem
    rw [hlog3, hlog2] at hcmem
    simp only [World.record, List.mem_append] at hcmem
    rcases hcmem with ((hcmem | hcmem) | hcmem) | hcmem
    · exact Or.inl hcmem
    · right
      simp at hcmem
      subst hcmem
      simp
    · exact Or.inr (hT c hcmem)
    · exact Or.inr (hC c hcmem)
  · simp only [AccessibleObject.focusPoint, supportedInterfaces_eq R w self p r hd hr, hs.1,
      htext, hnot, if_false, hcomp]
    simp [hc, hn]

/-- One call of `focusPoint()` on an object with stable answers whose two blocks yield no
point and whose parent is `q`: the call asks for the parent and, when `q` is valid, returns
what `q.focusPoint()` returns; when `q` is invalid it returns the null point. -/
theorem focusPoint_of_no_point (E : Enumerators) (R : Remote) (w : World)
    (self q : AccessibleObject) (p r : Ptr) (ifaces : Nat) (offset : Int) (cr br : QRect)
    (fuel : Nat)
    (hd : self.d = some p) (hr : (w.heap p).registryPrivate = some r)
    (hs : StableAnswers R r self ifaces offset cr br)
    (ht : ifaces &&& E.TextInterface = 0 ∨ (cr.x1 = 0 ∧ cr.y1 = 0))
    (hc : ifaces &&& E.ComponentInterface = 0 ∨ br.isNull = true)
    (hq : ∀ w1, R.parentAccessible w1 r self = q) :
    ∃ w1, w1.heap = w.heap ∧
      AccessibleObject.focusPoint E R (fuel + 1) w self =
        if q.isValid w then AccessibleObject.focusPoint E R fuel w1 q
        else some (.ok (QPoint.null, w1)) := by
  obtain ⟨w2, hheap2, -, htext⟩ := focusPointText_eq E R
    (w.record { registry := r, object := self, query := .supportedInterfaces })
    self p r ifaces offset cr br hd hr hs
  have hr2 : (w2.heap p).registryPrivate = some r := by rw [hheap2]; exact hr
  obtain ⟨w3, hheap3, -, hcomp⟩ :=
    focusPointComponent_eq E R w2 self p r ifaces offset cr br hd hr2 hs
  have hr3 : (w3.heap p).registryPrivate = some r := by rw [hheap3]; exact hr2
  have hnot : ¬(ifaces &&& E.TextInterface ≠ 0 ∧ (cr.x1 ≠ 0 ∨ cr.y1 ≠ 0)) := by
    rintro ⟨h1, h2⟩
    rcases ht with ht | ⟨hx, hy⟩
    · exact h1 ht
    · rcases h2 with h2 | h2
      · exact h2 hx
      · exact h2 hy
  have hnotc : ¬(ifaces &&& E.ComponentInterface ≠ 0 ∧ br.isNull = false) := by
    rintro ⟨h1, h2⟩
    rcases hc with hc | hc
    · exact h1 hc
    · rw [hc] at h2
      cases h2
  have hheap4 : (w3.record { registry := r, object := self, query := .parentAccessible }).heap
      = w.heap := by
    show w3.heap = w.heap
    rw [hheap3, hheap2]
    rfl
  refine ⟨w3.record { registry := r, object := self, query := .parentAccessible }, hheap4, ?_⟩
  simp only [AccessibleObject.focusPoint, supportedInterfaces_eq R w self p r hd hr, hs.1,
    htext, hcomp, hnot, hnotc, if_false, AccessibleObject.parent, AccessibleObject.forward, hd,
    hr3, hq, isValid_congr w _ q hheap4]

/-- One call of `focusPoint()` on an object that supports neither the text nor the component
interface and whose parent is `q`: the registry is asked for the interfaces and the parent,
and the call returns what `q.focusPoint()` returns when `q` is valid, the null point
otherwise. -/
theorem focusPoint_of_no_interfaces (E : Enumerators) (R : Remote) (w : World)
    (self q : AccessibleObject) (p r : Ptr) (fuel : Nat)
    (hd : self.d = some p) (hr : (w.heap p).registryPrivate = some r)
    (hi : ∀ w1, R.supportedInterfaces w1 r self &&& E.TextInterface = 0 ∧
      R.supportedInterfaces w1 r self &&& E.ComponentInterface = 0)
    (hq : ∀ w1, R.parentAccessible w1 r self = q) :
    ∃ w1, w1.heap = w.heap ∧
      w1.log = w.log ++ [{ registry := r, object := self, query := .supportedInterfaces },
        { registry := r, object := self, query := .parentAccessible }] ∧
      AccessibleObject.focusPoint E R (fuel + 1) w self =
        if q.isValid w then AccessibleObject.focusPoint E R fuel w1 q
        else some (.ok (QPoint.null, w1)) := by
  refine ⟨(w.record { registry := r, object := self, query := .supportedInterfaces }).record
    { registry := r, object := self, query := .parentAccessible }, rfl, ?_, ?_⟩
  · simp [World.record]
  · have hv : q.isValid ((w.record
        { registry := r, object := self, query := .supportedInterfaces }).record
        { registry := r, object := self, query := .parentAccessible }) = q.isValid w :=
      isValid_congr w _ q rfl
    have hr1 : ((w.record
        { registry := r, object := self, query := .supportedInterfaces }).heap p).registryPrivate
        = some r := hr
    simp only [AccessibleObject.focusPoint, supportedInterfaces_eq R w self p r hd hr,
      AccessibleObject.focusPointText, AccessibleObject.focusPointComponent, (hi w).1,
      (hi w).2, ne_eq, not_true_eq_false, if_false, AccessibleObject.parent,
      AccessibleObject.forward, hd, hr1, hq, hv]

/-- The recursion of `focusPoint()` along a parent chain without text and component
interfaces, started in any program state with the Proxy States of `w`: a call depth of the
chain length is enough, and the null point is returned. -/
theorem focusPoint_chain_aux (E : Enumerators) (R : Remote) (w : World) :
    ∀ (rest : List AccessibleObject) (bottom : AccessibleObject),
      ParentChain E R w (bottom :: rest) →
      ∀ (fuel : Nat) (w0 : World), w0.heap = w.heap → rest.length + 1 ≤ fuel →
        ∃ w1, w1.heap = w.heap ∧
          AccessibleObject.focusPoint E R fuel w0 bottom = some (.ok (QPoint.null, w1)) := by
  intro rest
  induction rest with
  | nil =>
    intro bottom hchain fuel w0 hheap hfuel
    obtain ⟨p, r, hd, hr, hi, q, hq, hqv⟩ := hchain
    obtain ⟨f, rfl⟩ : ∃ f, fuel = f + 1 := ⟨fuel - 1, by simp at hfuel; omega⟩
    have hr0 : (w0.heap p).registryPrivate = some r := by rw [hheap]; exact hr
    obtain ⟨w1, hheap1, -, hfp⟩ :=
      focusPoint_of_no_interfaces E R w0 bottom q p r f hd hr0 hi hq
    refine ⟨w1, by rw [hheap1, hheap], ?_⟩
    rw [hfp, isValid_congr w w0 q hheap, hqv]
    simp
  | cons next rest ih =>
    intro bottom hchain fuel w0 hheap hfuel
    obtain ⟨⟨p, r, hd, hr, hi, hq, hnv⟩, hrest⟩ := hchain
    obtain ⟨f, rfl⟩ : ∃ f, fuel = f + 1 := ⟨fuel - 1, by simp at hfuel; omega⟩
    have hr0 : (w0.heap p).registryPrivate = some r := by rw [hheap]; exact hr
    obtain ⟨w1, hheap1, -, hfp⟩ :=
      focusPoint_of_no_interfaces E R w0 bottom next p r f hd hr0 hi hq
    have hf : rest.length + 1 ≤ f := by simp at hfuel; omega
    obtain ⟨w2, hheap2, hfp2⟩ := ih next hrest f w1 (by rw [hheap1, hheap]) hf
    refine ⟨w2, hheap2, ?_⟩
    rw [hfp, isValid_congr w w0 next hheap, hnv]
    simpa using hfp2

/-- C11: for every parent chain of n >= 1 objects (the bottom object and the list `rest` of
its ancestors) in which no object supports the text or the component interface and the
parent of the topmost object is an invalid handle, `focusPoint()` on the bottom object
returns, with n nested calls at most, and returns the null point (0, 0). -/
theorem focusPoint_null_on_chain_without_geometry (E : Enumerators) (R : Remote) (w : World)
    (bottom : AccessibleObject) (rest : List AccessibleObject)
    (hchain : ParentChain E R w (bottom :: rest)) :
    ∀ fuel, rest.length + 1 ≤ fuel →
      ∃ w1, AccessibleObject.focusPoint E R fuel w bottom
          = some (.ok ({ xp := 0, yp := 0 }, w1)) ∧
        w1.heap = w.heap := by
  intro fuel hfuel
  obtain ⟨w1, hheap, hfp⟩ := focusPoint_chain_aux E R w rest bottom hchain fuel w rfl hfuel
  exact ⟨w1, hfp, hheap⟩

/-- Every handle to an object of `World.chain n` is valid. -/
theorem isValid_chain (n p : Nat) :
    AccessibleObject.isValid (World.chain n) { d := some p } = true := by
  have hne : String.mk (':' :: List.replicate p '1') ≠ "" := by
    intro h
    have := congrArg String.data h
    simp at this
  simp [AccessibleObject.isValid, World.chain, newAccessibleObjectPrivate, isEmpty, hne]

/-- The objects at addresses `k` to `n - 1` of `World.chain n`, with the parent relation
`chainParent n` and no interfaces, form a parent chain. -/
theorem parentChain_chainFrom (E : Enumerators) (cr br : QRect) (n : Nat) :
    ∀ (len k : Nat), k + (len + 1) = n →
      ParentChain E (Remote.geometry 0 cr br (chainParent n)) (World.chain n)
        (chainFrom k (len + 1)) := by
  intro len
  induction len with
  | zero =>
    intro k hk
    refine ⟨k, 0, rfl, rfl, ?_, { d := none }, ?_, rfl⟩
    · intro w1
      simp [Remote.geometry, Remote.sample]
    · intro w1
      have : ¬ (k + 1 < n) := by omega
      simp [Remote.geometry, chainParent, this]
  | succ len ih =>
    intro k hk
    refine ⟨⟨k, 0, rfl, rfl, ?_, ?_, isValid_chain n (k + 1)⟩, ih (k + 1) (by omega)⟩
    · intro w1
      simp [Remote.geometry, Remote.sample]
    · intro w1
      have : k + 1 < n := by omega
      simp [Remote.geometry, chainParent, this]

/-- C11 at the 50-deep chain: 50 objects, each the parent of the one before, none with a
text or component interface, the parent of the last one invalid. `focusPoint()` on the
bottom object returns the null point within 50 nested calls. -/
theorem focusPoint_null_on_chain_without_geometry_witness :
    ∃ w1, AccessibleObject.focusPoint Enumerators.sample
        (Remote.geometry 0 QRect.null QRect.null (chainParent 50)) 50 (World.chain 50)
        { d := some 0 } = some (.ok ({ xp := 0, yp := 0 }, w1)) ∧
      w1.heap = (World.chain 50).heap :=
  focusPoint_null_on_chain_without_geometry Enumerators.sample
    (Remote.geometry 0 QRect.null QRect.null (chainParent 50)) (World.chain 50)
    { d := some 0 } (chainFrom 1 49)
    (parentChain_chainFrom Enumerators.sample QRect.null QRect.null 50 49 0 rfl)
    50 (by simp [chainFrom])

/-- The answers of `Remote.geometry` are stable. -/
theorem stableAnswers_geometry (ifaces : Nat) (cr br : QRect)
    (parentOf : AccessibleObject → AccessibleObject) (r : Ptr) (self : AccessibleObject) :
    StableAnswers (Remote.geometry ifaces cr br parentOf) r self ifaces 3 cr br :=
  ⟨fun _ => rfl, fun _ => rfl, fun _ => rfl, fun _ => rfl⟩

/-- On an object that yields no point of its own and is its own valid parent, no call depth
is enough for `focusPoint()` to return, in any program state with the Proxy States of
`w`. -/
theorem focusPoint_self_parent_aux (E : Enumerators) (R : Remote) (w : World)
    (self : AccessibleObject) (p r : Ptr) (ifaces : Nat) (offset : Int) (cr br : QRect)
    (hd : self.d = some p) (hr : (w.heap p).registryPrivate = some r)
    (hs : StableAnswers R r self ifaces offset cr br)
    (ht : ifaces &&& E.TextInterface = 0 ∨ (cr.x1 = 0 ∧ cr.y1 = 0))
    (hc : ifaces &&& E.ComponentInterface = 0 ∨ br.isNull = true)
    (hq : ∀ w1, R.parentAccessible w1 r self = self)
    (hv : self.isValid w = true) :
    ∀ (fuel : Nat) (w0 : World), w0.heap = w.heap →
      AccessibleObject.focusPoint E R fuel w0 self = none := by
  intro fuel
  induction fuel with
  | zero => intro w0 _; rfl
  | succ f ih =>
    intro w0 hheap
    have hr0 : (w0.heap p).registryPrivate = some r := by rw [hheap]; exact hr
    obtain ⟨w1, hheap1, hfp⟩ :=
      focusPoint_of_no_point E R w0 self self p r ifaces offset cr br f hd hr0 hs ht hc hq
    rw [hfp, isValid_congr w w0 self hheap, hv]
    simpa using ih w1 (by rw [hheap1, hheap])

/-- C12, the claim as stated fails: the object of `World.oneObject`, without text and
component interface and with itself as parent, is a valid handle, and `focusPoint()` on it
returns at no call depth. -/
theorem focusPoint_self_parent_never_returns :
    AccessibleObject.isValid World.oneObject { d := some 0 } = true ∧
    ¬ ∃ fuel result, AccessibleObject.focusPoint Enumerators.sample
        (Remote.geometry 0 QRect.null QRect.null (fun o => o)) fuel World.oneObject
        { d := some 0 } = some result := by
  refine ⟨by decide, ?_⟩
  rintro ⟨fuel, result, h⟩
  have hnone := focusPoint_self_parent_aux Enumerators.sample
    (Remote.geometry 0 QRect.null QRect.null (fun o => o)) World.oneObject { d := some 0 } 0 0
    0 3 QRect.null QRect.null rfl rfl (stableAnswers_geometry _ _ _ _ _ _) (Or.inl rfl)
    (Or.inl rfl) (fun _ => rfl) (by decide) fuel World.oneObject rfl
  rw [hnone] at h
  cases h

/-- C12 as amended: on an object that yields no point from its own text or component
interface and whose `parent()` is a valid handle to that same object, the recursion of
`focusPoint()` is not stopped: whatever the bound on the depth of nested calls, the call
has not returned when the bound is reached. -/
theorem focusPoint_self_parent_unbounded (E : Enumerators) (R : Remote) (w : World)
    (self : AccessibleObject) (p r : Ptr) (ifaces : Nat) (offset : Int) (cr br : QRect)
    (hd : self.d = some p) (hr : (w.heap p).registryPrivate = some r)
    (hs : StableAnswers R r self ifaces offset cr br)
    (ht : ifaces &&& E.TextInterface = 0 ∨ (cr.x1 = 0 ∧ cr.y1 = 0))
    (hc : ifaces &&& E.ComponentInterface = 0 ∨ br.isNull = true)
    (hq : ∀ w1, R.parentAccessible w1 r self = self)
    (hv : self.isValid w = true) :
    ∀ fuel, AccessibleObject.focusPoint E R fuel w self = none :=
  fun fuel =>
    focusPoint_self_parent_aux E R w self p r ifaces offset cr br hd hr hs ht hc hq hv fuel w rfl

/-- C12 as amended, at a concrete input: the self-parenting object of `World.oneObject`;
a depth of 1000 nested calls is not enough. -/
theorem focusPoint_self_parent_unbounded_witness :
    AccessibleObject.focusPoint Enumerators.sample
      (Remote.geometry 0 QRect.null QRect.null (fun o => o)) 1000 World.oneObject
      { d := some 0 } = none :=
  focusPoint_self_parent_unbounded Enumerators.sample
    (Remote.geometry 0 QRect.null QRect.null (fun o => o)) World.oneObject { d := some 0 } 0 0
    0 3 QRect.null QRect.null rfl rfl (stableAnswers_geometry _ _ _ _ _ _) (Or.inl rfl)
    (Or.inl rfl) (fun _ => rfl) (by decide) 1000

/-- C13, the claim as stated fails: the object supports the text interface and its
character rectangle, 10 by 10 with the top-left corner at the origin, has centre (4, 4);
without component interface and with an invalid parent `focusPoint()` returns the null
point, not that centre. -/
theorem focusPoint_ignores_character_rect_at_origin :
    (({ x1 := 0, y1 := 0, x2 := 9, y2 := 9 } : QRect).width ≠ 0 ∧
      ({ x1 := 0, y1 := 0, x2 := 9, y2 := 9 } : QRect).height ≠ 0) ∧
    (0x10000 &&& Enumerators.sample.TextInterface ≠ 0) ∧
    ({ x1 := 0, y1 := 0, x2 := 9, y2 := 9 } : QRect).center = { xp := 4, yp := 4 } ∧
    ∃ w1, AccessibleObject.focusPoint Enumerators.sample
        (Remote.geometry 0x10000 { x1 := 0, y1 := 0, x2 := 9, y2 := 9 } QRect.null
          (fun _ => { d := none })) 1 World.oneObject { d := some 0 }
        = some (.ok ({ xp := 0, yp := 0 }, w1)) := by
  refine ⟨by decide, by decide, by decide, ?_⟩
  obtain ⟨w1, -, hfp⟩ := focusPoint_of_no_point Enumerators.sample
    (Remote.geometry 0x10000 { x1 := 0, y1 := 0, x2 := 9, y2 := 9 } QRect.null
      (fun _ => { d := none })) World.oneObject { d := some 0 } { d := none } 0 0 0x10000 3
    { x1 := 0, y1 := 0, x2 := 9, y2 := 9 } QRect.null 0 rfl rfl
    (stableAnswers_geometry _ _ _ _ _ _) (Or.inr ⟨rfl, rfl⟩) (Or.inl (by decide))
    (fun _ => rfl)
  exact ⟨w1, hfp⟩

/-- C13 as amended: for every object that supports the text interface, if the character
rectangle at the caret offset has `x() != 0` or `y() != 0`, `focusPoint()` returns the centre
of that rectangle, whatever its width and height, and asks the registry neither for the
bounding rectangle nor for the parent; if the top-left corner of the character rectangle is
the origin, the text block yields no point, whatever the size of the rectangle. -/
theorem focusPoint_text_branch (E : Enumerators) (R : Remote) (w : World)
    (self : AccessibleObject) (p r : Ptr) (ifaces : Nat) (offset : Int) (cr br : QRect)
    (hd : self.d = some p) (hr : (w.heap p).registryPrivate = some r)
    (hs : StableAnswers R r self ifaces offset cr br)
    (ht : ifaces &&& E.TextInterface ≠ 0) :
    (cr.x ≠ 0 ∨ cr.y ≠ 0 →
      ∀ fuel, ∃ w1,
        AccessibleObject.focusPoint E R (fuel + 1) w self = some (.ok (cr.center, w1)) ∧
        w1.log = w.log ++
          [{ registry := r, object := self, query := .supportedInterfaces },
           { registry := r, object := self, query := .supportedInterfaces },
           { registry := r, object := self, query := .caretOffset },
           { registry := r, object := self, query := .supportedInterfaces },
           { registry := r, object := self, query := .characterRect offset }]) ∧
    (cr.x = 0 ∧ cr.y = 0 →
      ∃ w2, self.focusPointText E R w ifaces = .ok (none, w2)) := by
  constructor
  · intro hxy fuel
    obtain ⟨w1, -, hlog, hfp⟩ :=
      focusPoint_of_text_point E R w self p r ifaces offset cr br fuel hd hr hs ht hxy
    exact ⟨w1, hfp, hlog⟩
  · rintro ⟨hx, hy⟩
    obtain ⟨w2, -, -, htext⟩ := focusPointText_eq E R w self p r ifaces offset cr br hd hr hs
    refine ⟨w2, ?_⟩
    rw [htext]
    have hx1 : cr.x1 = 0 := hx
    have hy1 : cr.y1 = 0 := hy
    simp [hx1, hy1]

/-- C13 as amended, at concrete inputs: a text object whose character rectangle has the
corners (10, 10) and (19, 19) gets the centre (14, 14); with the rectangle (0, 0)-(9, 9) the
text block yields no point. -/
theorem focusPoint_text_branch_witness :
    (∃ w1, AccessibleObject.focusPoint Enumerators.sample
        (Remote.geometry 0x10000 { x1 := 10, y1 := 10, x2 := 19, y2 := 19 } QRect.null
          (fun _ => { d := none })) 1 World.oneObject { d := some 0 }
        = some (.ok ({ xp := 14, yp := 14 }, w1)) ∧
      w1.log = World.oneObject.log ++
        [{ registry := 0, object := { d := some 0 }, query := .supportedInterfaces },
         { registry := 0, object := { d := some 0 }, query := .supportedInterfaces },
         { registry := 0, object := { d := some 0 }, query := .caretOffset },
         { registry := 0, object := { d := some 0 }, query := .supportedInterfaces },
         { registry := 0, object := { d := some 0 }, query := .characterRect 3 }]) ∧
    (∃ w2, AccessibleObject.focusPointText Enumerators.sample
        (Remote.geometry 0x10000 { x1 := 0, y1 := 0, x2 := 9, y2 := 9 } QRect.null
          (fun _ => { d := none })) World.oneObject { d := some 0 } 0x10000
        = .ok (none, w2)) :=
  ⟨(focusPoint_text_branch Enumerators.sample
      (Remote.geometry 0x10000 { x1 := 10, y1 := 10, x2 := 19, y2 := 19 } QRect.null
        (fun _ => { d := none })) World.oneObject { d := some 0 } 0 0 0x10000 3
      { x1 := 10, y1 := 10, x2 := 19, y2 := 19 } QRect.null rfl rfl
      (stableAnswers_geometry _ _ _ _ _ _) (by decide)).1 (Or.inl (by decide)) 0,
   (focusPoint_text_branch Enumerators.sample
      (Remote.geometry 0x10000 { x1 := 0, y1 := 0, x2 := 9, y2 := 9 } QRect.null
        (fun _ => { d := none })) World.oneObject { d := some 0 } 0 0 0x10000 3
      { x1 := 0, y1 := 0, x2 := 9, y2 := 9 } QRect.null rfl rfl
      (stableAnswers_geometry _ _ _ _ _ _) (by decide)).2 ⟨rfl, rfl⟩⟩

/-- A rectangle is null exactly when its width and its height are both 0. -/
theorem QRect.isNull_iff (r : QRect) : r.isNull = true ↔ r.width = 0 ∧ r.height = 0 := by
  simp only [QRect.isNull, QRect.width, QRect.height, Bool.and_eq_true, decide_eq_true_eq]
  constructor
  · rintro ⟨h1, h2⟩
    constructor <;> omega
  · rintro ⟨h1, h2⟩
    constructor <;> omega

/-- C14, the claim as stated fails: the object has no text interface and supports the
component interface; its bounding rectangle has width 0 and height 5, so it is empty, but it
is not null, and `focusPoint()` returns its centre (9, 12) instead of going on to the
(invalid) parent and returning the null point. -/
theorem focusPoint_uses_empty_bounding_rect :
    ({ x1 := 10, y1 := 10, x2 := 9, y2 := 14 } : QRect).width ≤ 0 ∧
    (0x20 &&& Enumerators.sample.TextInterface = 0) ∧
    (0x20 &&& Enumerators.sample.ComponentInterface ≠ 0) ∧
    ∃ w1, AccessibleObject.focusPoint Enumerators.sample
        (Remote.geometry 0x20 QRect.null { x1 := 10, y1 := 10, x2 := 9, y2 := 14 }
          (fun _ => { d := none })) 1 World.oneObject { d := some 0 }
        = some (.ok ({ xp := 9, yp := 12 }, w1)) := by
  refine ⟨by decide, by decide, by decide, ?_⟩
  obtain ⟨w1, -, -, hfp⟩ := focusPoint_of_component_point Enumerators.sample
    (Remote.geometry 0x20 QRect.null { x1 := 10, y1 := 10, x2 := 9, y2 := 14 }
      (fun _ => { d := none })) World.oneObject { d := some 0 } 0 0 0x20 3
    QRect.null { x1 := 10, y1 := 10, x2 := 9, y2 := 14 } 0 rfl rfl
    (stableAnswers_geometry _ _ _ _ _ _) (Or.inl (by decide)) (by decide) (by decide)
  exact ⟨w1, hfp⟩

/-- C14 as amended: for every object whose text block yields no point and that supports the
component interface, `focusPoint()` returns the centre of the bounding rectangle, without
asking for the parent, when the rectangle is not null (width or height other than 0); when
the rectangle is null (width 0 and height 0) it goes on with the parent: it returns what the
parent's `focusPoint()` returns, or the null point when the parent is invalid. -/
theorem focusPoint_component_branch (E : Enumerators) (R : Remote) (w : World)
    (self : AccessibleObject) (p r : Ptr) (ifaces : Nat) (offset : Int) (cr br : QRect)
    (hd : self.d = some p) (hr : (w.heap p).registryPrivate = some r)
    (hs : StableAnswers R r self ifaces offset cr br)
    (ht : ifaces &&& E.TextInterface = 0 ∨ (cr.x = 0 ∧ cr.y = 0))
    (hc : ifaces &&& E.ComponentInterface ≠ 0) :
    (¬(br.width = 0 ∧ br.height = 0) →
      ∀ fuel, ∃ w1,
        AccessibleObject.focusPoint E R (fuel + 1) w self = some (.ok (br.center, w1)) ∧
        ∀ c ∈ w1.log, c ∈ w.log ∨ c.query ≠ .parentAccessible) ∧
    (br.width = 0 ∧ br.height = 0 →
      ∀ q, (∀ w1, R.parentAccessible w1 r self = q) →
        ∀ fuel, ∃ w1, w1.heap = w.heap ∧
          AccessibleObject.focusPoint E R (fuel + 1) w self =
            if q.isValid w then AccessibleObject.focusPoint E R fuel w1 q
            else some (.ok ({ xp := 0, yp := 0 }, w1))) := by
  constructor
  · intro hn fuel
    have hnull : br.isNull = false := by
      cases h : br.isNull
      · rfl
      · exact absurd ((QRect.isNull_iff br).1 h) hn
    obtain ⟨w1, -, hlog, hfp⟩ :=
      focusPoint_of_component_point E R w self p r ifaces offset cr br fuel hd hr hs ht hc hnull
    exact ⟨w1, hfp, hlog⟩
  · intro hn q hq fuel
    exact focusPoint_of_no_point E R w self q p r ifaces offset cr br fuel hd hr hs ht
      (Or.inr ((QRect.isNull_iff br).2 hn)) hq

/-- C14 as amended, at concrete inputs: a component object without text interface whose
bounding rectangle has width 0 and height 5 gets that rectangle's centre (9, 12); with the
null rectangle and an invalid parent it gets the null point. -/
theorem focusPoint_component_branch_witness :
    (∃ w1, AccessibleObject.focusPoint Enumerators.sample
        (Remote.geometry 0x20 QRect.null { x1 := 10, y1 := 10, x2 := 9, y2 := 14 }
          (fun _ => { d := none })) 1 World.oneObject { d := some 0 }
        = some (.ok ({ xp := 9, yp := 12 }, w1)) ∧
      ∀ c ∈ w1.log, c ∈ World.oneObject.log ∨ c.query ≠ .parentAccessible) ∧
    (∃ w1, w1.heap = World.oneObject.heap ∧
      AccessibleObject.focusPoint Enumerators.sample
        (Remote.geometry 0x20 QRect.null QRect.null (fun _ => { d := none })) 1
        World.oneObject { d := some 0 }
        = some (.ok ({ xp := 0, yp := 0 }, w1))) :=
  ⟨(focusPoint_component_branch Enumerators.sample
      (Remote.geometry 0x20 QRect.null { x1 := 10, y1 := 10, x2 := 9, y2 := 14 }
        (fun _ => { d := none })) World.oneObject { d := some 0 } 0 0 0x20 3
      QRect.null { x1 := 10, y1 := 10, x2 := 9, y2 := 14 } rfl rfl
      (stableAnswers_geometry _ _ _ _ _ _) (Or.inl (by decide)) (by decide)).1
      (by decide) 0,
   (focusPoint_component_branch Enumerators.sample
      (Remote.geometry 0x20 QRect.null QRect.null (fun _ => { d := none }))
      World.oneObject { d := some 0 } 0 0 0x20 3 QRect.null QRect.null rfl rfl
      (stableAnswers_geometry _ _ _ _ _ _) (Or.inl (by decide)) (by decide)).2
      (by decide) { d := none } (fun _ => rfl) 0⟩

/-- C15: for a handle with a Proxy State bound to a registry, `url()` has the scheme string
of that registry as scheme, the object's path as path and the object's peer as fragment; for
a handle without Proxy State, or whose state has no registry, `url()` is the empty URL. The
scheme string is "AccessibleObject" in a registry that carries the documented value. -/
theorem url_components (w : World) (h : AccessibleObject) :
    (∀ p r, h.d = some p → (w.heap p).registryPrivate = some r →
      (h.url w).scheme = (w.registries r).ACCESSIBLE_OBJECT_SCHEME_STRING ∧
      (h.url w).path = (w.heap p).path ∧
      (h.url w).fragment = (w.heap p).service ∧
      ((w.registries r).ACCESSIBLE_OBJECT_SCHEME_STRING = "AccessibleObject" →
        h.url w = { scheme := "AccessibleObject", path := (w.heap p).path,
                    fragment := (w.heap p).service })) ∧
    (h.d = none → h.url w = QUrl.empty) ∧
    (∀ p, h.d = some p → (w.heap p).registryPrivate = none → h.url w = QUrl.empty) := by
  refine ⟨?_, ?_, ?_⟩
  · intro p r hd hr
    refine ⟨?_, ?_, ?_, ?_⟩ <;>
      simp [AccessibleObject.url, hd, hr, QUrl.setScheme, QUrl.setPath, QUrl.setFragment,
        QUrl.empty]
  · intro hd
    simp [AccessibleObject.url, hd]
  · intro p hd hr
    simp [AccessibleObject.url, hd, hr]

/-- Resolution with a registry passes the assertions when the build has none or when peer
and path are non-empty. -/
theorem AccessibleObject3_eq_of (QT_NO_DEBUG : Bool) (w : World) (r : Ptr)
    (service path : String)
    (hne : QT_NO_DEBUG = false → service ≠ "" ∧ path ≠ "") :
    AccessibleObject.AccessibleObject3 QT_NO_DEBUG w (some r) service path =
      match (w.registries r).m_cacheStrategy with
      | some cs =>
        match cs.get w.owners (path ++ service) with
        | some p => .ok ({ d := some p }, w.retain p)
        | none =>
          .ok ({ d := some w.next },
            (((w.alloc (newAccessibleObjectPrivate (some r) service path)).2.setCache r
              (cs.add (path ++ service) w.next)).retain w.next))
      | none =>
        .ok ({ d := some w.next },
          (w.alloc (newAccessibleObjectPrivate (some r) service path)).2.retain w.next) := by
  cases QT_NO_DEBUG with
  | true => exact AccessibleObject3_release_eq w r service path
  | false => exact AccessibleObject3_eq false w r service path (hne rfl).1 (hne rfl).2

/-- A resolution that returns, in a build with assertions, was given a non-empty peer and a
non-empty path. -/
theorem nonempty_of_AccessibleObject3_ok (w w1 : World) (registryPrivate : Option Ptr)
    (service path : String) (h : AccessibleObject)
    (hok : AccessibleObject.AccessibleObject3 false w registryPrivate service path
      = .ok (h, w1)) :
    service ≠ "" ∧ path ≠ "" := by
  by_cases hs : service = ""
  · cases registryPrivate <;>
      simp [AccessibleObject.AccessibleObject3, Q_ASSERT, isEmpty, bind, Except.bind, hs]
        at hok
  · by_cases hp : path = ""
    · cases registryPrivate <;>
        simp [AccessibleObject.AccessibleObject3, Q_ASSERT, isEmpty, bind, Except.bind, hs,
          hp] at hok
    · exact ⟨hs, hp⟩

/-- A resolution in a program state whose cache is well formed and holds states bound to the
registry: the cache stays so, and the handle returned holds a state `p` bound to the
registry whose path ++ service is the key path ++ service asked for. Unless the policy is
`NoCache`, that key is afterwards found in the cache with the state `p`. On a miss `p` is
the new state, with the peer and path asked for; on a hit `p` is the state found and no
state is created. -/
theorem resolve_in_bound_cache (QT_NO_DEBUG : Bool) (w w1 : World) (r : Ptr)
    (cs : CacheStrategy) (service path : String) (h : AccessibleObject)
    (inv : CacheInv w r cs) (hb : CacheBound QT_NO_DEBUG w cs r)
    (hok : AccessibleObject.AccessibleObject3 QT_NO_DEBUG w (some r) service path
      = .ok (h, w1)) :
    ∃ cs1, CacheInv w1 r cs1 ∧ CacheBound QT_NO_DEBUG w1 cs1 r ∧ cs1.type = cs.type ∧
      ∃ p, h.d = some p ∧ (w1.heap p).registryPrivate = some r ∧
        (QT_NO_DEBUG = false → (w1.heap p).service ≠ "" ∧ (w1.heap p).path ≠ "") ∧
        (w1.heap p).path ++ (w1.heap p).service = path ++ service ∧
        (cs.type ≠ .NoCache → cs1.get w1.owners (path ++ service) = some p) ∧
        (cs.get w.owners (path ++ service) = none →
          p = w.next ∧ (w1.heap p).service = service ∧ (w1.heap p).path = path) ∧
        (∀ q, cs.get w.owners (path ++ service) = some q → p = q ∧ w1.heap = w.heap) := by
  obtain ⟨cs1, inv1, hty, hhit, hmiss⟩ :=
    resolve_preserves_CacheInv QT_NO_DEBUG w w1 r cs service path h inv hok
  obtain ⟨hc, hlt, hnd, hkey⟩ := inv
  rcases AccessibleObject3_ok_cases QT_NO_DEBUG w w1 r cs service path h hc hok with
    ⟨q, hg, -, hw⟩ | ⟨hg, -, hw⟩
  · obtain ⟨hcs1, hhd, hlive⟩ := hhit q hg
    have hmem : (path ++ service, q) ∈ cs.entries :=
      live_subset cs w.owners _ (mem_of_lookup_eq_some _ _ _ hg)
    have hheap : w1.heap = w.heap := by rw [hw]; rfl
    subst hcs1
    refine ⟨cs1, inv1, ?_, hty, q, hhd, ?_, ?_, ?_, ?_, ?_, ?_⟩
    · intro e he
      rw [hheap]
      exact hb e he
    · rw [hheap]; exact (hb _ hmem).1
    · rw [hheap]; exact (hb _ hmem).2
    · rw [hheap]; exact (hkey _ hmem).symm
    · intro _
      unfold CacheStrategy.get at hg ⊢
      rw [hlive]
      exact hg
    · intro hn
      rw [hg] at hn
      cases hn
    · intro q1 hq1
      rw [hg] at hq1
      cases hq1
      exact ⟨rfl, hheap⟩
  · obtain ⟨hcs1, hhd, hlive⟩ := hmiss hg
    have hheapnew : w1.heap w.next = newAccessibleObjectPrivate (some r) service path := by
      rw [hw]
      simp [World.retain, World.setCache, World.alloc]
    have hheapold : ∀ q, q < w.next → w1.heap q = w.heap q := by
      intro q hq
      rw [hw]
      have : q ≠ w.next := Nat.ne_of_lt hq
      simp [World.retain, World.setCache, World.alloc, this]
    have hne : QT_NO_DEBUG = false → service ≠ "" ∧ path ≠ "" := by
      intro hq
      subst hq
      exact nonempty_of_AccessibleObject3_ok w w1 (some r) service path h hok
    refine ⟨cs1, inv1, ?_, hty, w.next, hhd, ?_, ?_, ?_, ?_, ?_, ?_⟩
    · intro e he
      have hcases : e = (path ++ service, w.next) ∨ e ∈ cs.entries := by
        rw [hcs1] at he
        unfold CacheStrategy.add at he
        cases ht : cs.type <;> simp [ht] at he <;> first | exact Or.inr he | exact he
      rcases hcases with rfl | he
      · rw [hheapnew]
        exact ⟨rfl, hne⟩
      · rw [hheapold e.2 (hlt e he)]
        exact hb e he
    · rw [hheapnew]; rfl
    · rw [hheapnew]; exact hne
    · rw [hheapnew]; rfl
    · intro hnc
      unfold CacheStrategy.get
      rw [hlive]
      simp [hnc, List.lookup]
    · intro _
      rw [hheapnew]
      exact ⟨rfl, rfl, rfl⟩
    · intro q hq
      rw [hg] at hq
      cases hq

/-- The copy of a handle and the destruction of a handle leave the Proxy States as they
are. -/
theorem copy_destroy_heap (w : World) (h : AccessibleObject) :
    (AccessibleObject.AccessibleObjectCopy w h).2.heap = w.heap ∧
    (h.destroy w).heap = w.heap := by
  constructor
  · unfold AccessibleObject.AccessibleObjectCopy
    cases h.d with
    | none => rfl
    | some p =>
      by_cases hp : p ∈ w.owners
      · simp [hp, World.retain]
      · simp [hp]
  · unfold AccessibleObject.destroy
    cases h.d <;> rfl

/-- Every program state reached from a state whose cache is well formed and holds states
bound to the registry has such a cache, of the same policy. -/
theorem run_preserves_CacheBound (QT_NO_DEBUG : Bool) (r : Ptr) (steps : List Step) :
    ∀ (w : World) (cs : CacheStrategy), CacheInv w r cs → CacheBound QT_NO_DEBUG w cs r →
      ∃ cs1, CacheInv (run QT_NO_DEBUG r w steps) r cs1 ∧
        CacheBound QT_NO_DEBUG (run QT_NO_DEBUG r w steps) cs1 r ∧ cs1.type = cs.type := by
  induction steps with
  | nil => intro w cs inv hb; exact ⟨cs, inv, hb, rfl⟩
  | cons s rest ih =>
    intro w cs inv hb
    cases s with
    | resolve service path =>
      cases hok : AccessibleObject.AccessibleObject3 QT_NO_DEBUG w (some r) service path with
      | error e =>
        simp only [run, Step.apply, hok]
        exact ⟨cs, inv, hb, rfl⟩
      | ok res =>
        obtain ⟨h, w1⟩ := res
        obtain ⟨cs1, inv1, hb1, ht1, -⟩ :=
          resolve_in_bound_cache QT_NO_DEBUG w w1 r cs service path h inv hb hok
        obtain ⟨cs2, inv2, hb2, ht2⟩ := ih w1 cs1 inv1 hb1
        simp only [run, Step.apply, hok]
        exact ⟨cs2, inv2, hb2, ht2.trans ht1⟩
    | copy h =>
      simp only [run, Step.apply]
      refine ih _ cs (copy_preserves_CacheInv w r cs h inv) ?_
      intro e he
      rw [(copy_destroy_heap w h).1]
      exact hb e he
    | destroy h =>
      simp only [run, Step.apply]
      refine ih _ cs (destroy_preserves_CacheInv w r cs h inv) ?_
      intro e he
      rw [(copy_destroy_heap w h).2]
      exact hb e he

/-- The program states reached from an empty cache: the cache is well formed and holds
states bound to the registry. -/
theorem run_from_empty_cache (QT_NO_DEBUG : Bool) (w : World) (r : Ptr) (ty : CacheType)
    (steps : List Step)
    (h0 : (w.registries r).m_cacheStrategy = some { type := ty, entries := [] }) :
    ∃ cs, CacheInv (run QT_NO_DEBUG r w steps) r cs ∧
      CacheBound QT_NO_DEBUG (run QT_NO_DEBUG r w steps) cs r ∧ cs.type = ty := by
  have inv0 : CacheInv w r { type := ty, entries := [] } := by
    refine ⟨h0, ?_, ?_, ?_⟩
    · intro e he; cases he
    · cases ty <;> simp [CacheStrategy.live]
    · intro e he; cases he
  have hb0 : CacheBound QT_NO_DEBUG w { type := ty, entries := [] } r := by
    intro e he; cases he
  exact run_preserves_CacheBound QT_NO_DEBUG r steps w _ inv0 hb0

/-- Parsing the URL of a handle in any program state: `fromUrl(url(h))` resolves the peer and
path of `h`, and returns a handle to a state with that peer and path that compares equal to
`h`, provided that the cache of the registry holds no state of another Identity under the
key of `h`. -/
theorem fromUrl_url_of_cache_agrees (QT_NO_DEBUG : Bool) (w : World) (h : AccessibleObject)
    (p r : Ptr) (hd : h.d = some p) (hr : (w.heap p).registryPrivate = some r)
    (hne : QT_NO_DEBUG = false → (w.heap p).service ≠ "" ∧ (w.heap p).path ≠ "")
    (hcache : ∀ cs q, (w.registries r).m_cacheStrategy = some cs →
      cs.get w.owners ((w.heap p).path ++ (w.heap p).service) = some q →
      (w.heap q).service = (w.heap p).service ∧ (w.heap q).path = (w.heap p).path) :
    ∃ h1 w1 p1, RegistryPrivate.fromUrl QT_NO_DEBUG w r (h.url w) = .ok (h1, w1) ∧
      h1.d = some p1 ∧
      (w1.heap p1).service = (w.heap p).service ∧ (w1.heap p1).path = (w.heap p).path ∧
      h1.operatorEq w1 h = true := by
  have hurl : RegistryPrivate.fromUrl QT_NO_DEBUG w r (h.url w) =
      AccessibleObject.AccessibleObject3 QT_NO_DEBUG w (some r) (w.heap p).service
        (w.heap p).path := by
    simp [RegistryPrivate.fromUrl, AccessibleObject.url, hd, hr, QUrl.setScheme, QUrl.setPath,
      QUrl.setFragment, QUrl.empty]
  rw [hurl]
  cases hc : (w.registries r).m_cacheStrategy with
  | none =>
    have hres := AccessibleObject3_eq_of QT_NO_DEBUG w r _ _ hne
    simp only [hc] at hres
    refine ⟨_, _, w.next, hres, rfl, ?_, ?_, ?_⟩
    · simp [World.retain, World.alloc, newAccessibleObjectPrivate]
    · simp [World.retain, World.alloc, newAccessibleObjectPrivate]
    · by_cases hpn : p = w.next
      · simp [AccessibleObject.operatorEq, hd, hpn]
      · simp [AccessibleObject.operatorEq, AccessibleObjectPrivate.operatorEq, hd,
          World.retain, World.alloc, newAccessibleObjectPrivate, hpn]
  | some cs =>
    cases hg : cs.get w.owners ((w.heap p).path ++ (w.heap p).service) with
    | some q =>
      have hres := AccessibleObject3_eq_of QT_NO_DEBUG w r _ _ hne
      simp only [hc, hg] at hres
      obtain ⟨h1, h2⟩ := hcache cs q hc hg
      refine ⟨_, _, q, hres, rfl, h1, h2, ?_⟩
      simp [AccessibleObject.operatorEq, AccessibleObjectPrivate.operatorEq, hd,
        World.retain, h1, h2]
    | none =>
      have hres := AccessibleObject3_eq_of QT_NO_DEBUG w r _ _ hne
      simp only [hc, hg] at hres
      refine ⟨_, _, w.next, hres, rfl, ?_, ?_, ?_⟩
      · simp [World.retain, World.setCache, World.alloc, newAccessibleObjectPrivate]
      · simp [World.retain, World.setCache, World.alloc, newAccessibleObjectPrivate]
      · by_cases hpn : p = w.next
        · simp [AccessibleObject.operatorEq, hd, hpn]
        · simp [AccessibleObject.operatorEq, AccessibleObjectPrivate.operatorEq, hd,
            World.retain, World.setCache, World.alloc, newAccessibleObjectPrivate, hpn]

/-- Resolution of a non-empty peer and path on a registry with a cache strategy returns. -/
theorem AccessibleObject3_returns (QT_NO_DEBUG : Bool) (w : World) (r : Ptr)
    (cs : CacheStrategy) (service path : String) (hs : service ≠ "") (hp : path ≠ "")
    (hc : (w.registries r).m_cacheStrategy = some cs) :
    ∃ h w1, AccessibleObject.AccessibleObject3 QT_NO_DEBUG w (some r) service path
      = .ok (h, w1) := by
  cases hg : cs.get w.owners (path ++ service) with
  | none => exact ⟨_, _, AccessibleObject3_miss QT_NO_DEBUG w r cs service path hs hp hc hg⟩
  | some q => exact ⟨_, _, AccessibleObject3_hit QT_NO_DEBUG w r cs service path q hs hp hc hg⟩

/-- C16: the URL of a handle carries the path and the peer of its state in two separate
components, so `url()` is injective on identities, in every program state. In every program
state reached from an empty cache, for every non-empty peer and path: resolving the pair
gives a handle `h`, parsing `url(h)` reads the path back from the URL path and the peer from
the URL fragment, and `fromUrl(url(h))` returns a handle to a state with the peer and path
of `h` that compares equal to `h`. The same holds for every handle of a registry without
cache strategy. -/
theorem url_fromUrl_round_trip (QT_NO_DEBUG : Bool) (w : World) (r : Ptr) (ty : CacheType)
    (steps : List Step) (service path : String)
    (h0 : (w.registries r).m_cacheStrategy = some { type := ty, entries := [] })
    (hs : service ≠ "") (hp : path ≠ "") :
    (∃ h w1 p,
      AccessibleObject.AccessibleObject3 QT_NO_DEBUG (run QT_NO_DEBUG r w steps) (some r)
        service path = .ok (h, w1) ∧
      h.d = some p ∧
      (h.url w1).path = (w1.heap p).path ∧ (h.url w1).fragment = (w1.heap p).service ∧
      ∃ h2 w2 p2, RegistryPrivate.fromUrl QT_NO_DEBUG w1 r (h.url w1) = .ok (h2, w2) ∧
        h2.d = some p2 ∧
        (w2.heap p2).service = (w1.heap p).service ∧ (w2.heap p2).path = (w1.heap p).path ∧
        h2.operatorEq w2 h = true) ∧
    (∀ (w0 : World) (a b : AccessibleObject) (pa pb ra rb : Ptr),
      a.d = some pa → b.d = some pb →
      (w0.heap pa).registryPrivate = some ra → (w0.heap pb).registryPrivate = some rb →
      a.url w0 = b.url w0 →
      (w0.heap pa).service = (w0.heap pb).service ∧ (w0.heap pa).path = (w0.heap pb).path) ∧
    (∀ (w0 : World) (h : AccessibleObject) (p r0 : Ptr),
      h.d = some p → (w0.heap p).registryPrivate = some r0 →
      (w0.heap p).service ≠ "" → (w0.heap p).path ≠ "" →
      (w0.registries r0).m_cacheStrategy = none →
      ∃ h2 w2 p2, RegistryPrivate.fromUrl QT_NO_DEBUG w0 r0 (h.url w0) = .ok (h2, w2) ∧
        h2.d = some p2 ∧
        (w2.heap p2).service = (w0.heap p).service ∧ (w2.heap p2).path = (w0.heap p).path ∧
        h2.operatorEq w2 h = true) := by
  refine ⟨?_, ?_, ?_⟩
  · obtain ⟨cs, inv, hb, hty⟩ := run_from_empty_cache QT_NO_DEBUG w r ty steps h0
    generalize run QT_NO_DEBUG r w steps = W at inv hb ⊢
    obtain ⟨h, w1, hok⟩ := AccessibleObject3_returns QT_NO_DEBUG W r cs service path hs hp inv.1
    obtain ⟨cs1, inv1, -, hty1, p, hd, hr, hne, hkey, hfound, -, -⟩ :=
      resolve_in_bound_cache QT_NO_DEBUG W w1 r cs service path h inv hb hok
    refine ⟨h, w1, p, hok, hd, ?_, ?_, ?_⟩
    · simp [AccessibleObject.url, hd, hr, QUrl.setScheme, QUrl.setPath, QUrl.setFragment,
        QUrl.empty]
    · simp [AccessibleObject.url, hd, hr, QUrl.setScheme, QUrl.setPath, QUrl.setFragment,
        QUrl.empty]
    · apply fromUrl_url_of_cache_agrees QT_NO_DEBUG w1 h p r hd hr hne
      intro cs2 q hc2 hg2
      have hcs : cs2 = cs1 := by
        rw [inv1.1] at hc2
        exact (Option.some.inj hc2).symm
      subst hcs
      rw [hkey] at hg2
      by_cases hnc : cs.type = .NoCache
      · have : cs2.get w1.owners (path ++ service) = none := by
          simp [CacheStrategy.get, CacheStrategy.live, hty1, hnc]
        rw [this] at hg2
        cases hg2
      · rw [hfound hnc] at hg2
        cases hg2
        exact ⟨rfl, rfl⟩
  · intro w0 a b pa pb ra rb ha hb hra hrb hurl
    simp [AccessibleObject.url, ha, hb, hra, hrb, QUrl.setScheme, QUrl.setPath,
      QUrl.setFragment, QUrl.empty] at hurl
    exact ⟨hurl.2.2, hurl.2.1⟩
  · intro w0 h p r0 hd hr hsv hpa hnone
    apply fromUrl_url_of_cache_agrees QT_NO_DEBUG w0 h p r0 hd hr (fun _ => ⟨hsv, hpa⟩)
    intro cs q hc
    rw [hnone] at hc
    cases hc

/-- C16 at a concrete input: after (":1.7", "/org/a11y/atspi/accessible/root") was resolved
on an empty strong cache, the handle for (":1.8", "/org/a11y/atspi/accessible/1") is
serialized and parsed back. -/
theorem url_fromUrl_round_trip_witness :
    ∃ h w1 p,
      AccessibleObject.AccessibleObject3 false
        (run false 0 (World.initial (some { type := .StrongCache, entries := [] }))
          [.resolve ":1.7" "/org/a11y/atspi/accessible/root"]) (some 0)
        ":1.8" "/org/a11y/atspi/accessible/1" = .ok (h, w1) ∧
      h.d = some p ∧
      (h.url w1).path = (w1.heap p).path ∧ (h.url w1).fragment = (w1.heap p).service ∧
      ∃ h2 w2 p2, RegistryPrivate.fromUrl false w1 0 (h.url w1) = .ok (h2, w2) ∧
        h2.d = some p2 ∧
        (w2.heap p2).service = (w1.heap p).service ∧ (w2.heap p2).path = (w1.heap p).path ∧
        h2.operatorEq w2 h = true :=
  (url_fromUrl_round_trip false (World.initial (some { type := .StrongCache, entries := [] }))
    0 .StrongCache [.resolve ":1.7" "/org/a11y/atspi/accessible/root"]
    ":1.8" "/org/a11y/atspi/accessible/1" rfl (by decide) (by decide)).1

/-- C18: in every program state reached from an empty cache, resolution of a non-empty
(peer, path) asks the cache with the key path ++ peer: on a hit the state found under that
key is returned and the cache is left as it is, on a miss the new state is added under that
key. `id()` of the handle returned is the string path ++ peer, and unless the policy is
`NoCache` the cache finds the handle's own state under `id()`. `id()` of a handle without
Proxy State or whose state has no registry is the empty string. -/
theorem cache_key_is_path_then_peer (QT_NO_DEBUG : Bool) (w : World) (r : Ptr)
    (ty : CacheType) (steps : List Step) (service path : String)
    (h0 : (w.registries r).m_cacheStrategy = some { type := ty, entries := [] })
    (hs : service ≠ "") (hp : path ≠ "") :
    (∃ h w1 p cs cs1,
      AccessibleObject.AccessibleObject3 QT_NO_DEBUG (run QT_NO_DEBUG r w steps) (some r)
        service path = .ok (h, w1) ∧
      h.d = some p ∧
      ((run QT_NO_DEBUG r w steps).registries r).m_cacheStrategy = some cs ∧
      (w1.registries r).m_cacheStrategy = some cs1 ∧
      (∀ q, cs.get (run QT_NO_DEBUG r w steps).owners (path ++ service) = some q →
        p = q ∧ cs1 = cs) ∧
      (cs.get (run QT_NO_DEBUG r w steps).owners (path ++ service) = none →
        p = (run QT_NO_DEBUG r w steps).next ∧ cs1 = cs.add (path ++ service) p) ∧
      h.id w1 = path ++ service ∧
      (ty ≠ .NoCache → cs1.get w1.owners (h.id w1) = some p)) ∧
    (∀ w0, AccessibleObject.id w0 { d := none } = "") ∧
    (∀ w0 p, (w0.heap p).registryPrivate = none → AccessibleObject.id w0 { d := some p } = "") := by
  refine ⟨?_, fun _ => rfl, ?_⟩
  · obtain ⟨cs, inv, hb, hty⟩ := run_from_empty_cache QT_NO_DEBUG w r ty steps h0
    generalize run QT_NO_DEBUG r w steps = W at inv hb ⊢
    obtain ⟨h, w1, hok⟩ := AccessibleObject3_returns QT_NO_DEBUG W r cs service path hs hp inv.1
    obtain ⟨cs1, inv1, -, -, p, hd, hr, -, hkey, hfound, hmiss, hhit⟩ :=
      resolve_in_bound_cache QT_NO_DEBUG W w1 r cs service path h inv hb hok
    obtain ⟨cs1', inv1', -, hhit', hmiss'⟩ :=
      resolve_preserves_CacheInv QT_NO_DEBUG W w1 r cs service path h inv hok
    have hcs : cs1' = cs1 := by
      have := inv1'.1
      rw [inv1.1] at this
      exact (Option.some.inj this).symm
    subst hcs
    have hid : h.id w1 = path ++ service := by
      simp [AccessibleObject.id, hd, hr, hkey]
    refine ⟨h, w1, p, cs, cs1', hok, hd, inv.1, inv1.1, ?_, ?_, hid, ?_⟩
    · intro q hq
      exact ⟨(hhit q hq).1, (hhit' q hq).1⟩
    · intro hn
      obtain ⟨hpn, -, -⟩ := hmiss hn
      refine ⟨hpn, ?_⟩
      rw [hpn]
      exact (hmiss' hn).1
    · intro hnc
      rw [hid]
      exact hfound (by rw [hty]; exact hnc)
  · intro w0 p hr
    simp [AccessibleObject.id, hr]

/-- C18 at a concrete input: on an empty strong cache the pair (":1.7",
"/org/a11y/atspi/accessible/root") is resolved; the key and `id()` are
"/org/a11y/atspi/accessible/root:1.7". -/
theorem cache_key_is_path_then_peer_witness :
    ∃ h w1 p cs cs1,
      AccessibleObject.AccessibleObject3 false
        (run false 0 (World.initial (some { type := .StrongCache, entries := [] })) [])
        (some 0) ":1.7" "/org/a11y/atspi/accessible/root" = .ok (h, w1) ∧
      h.d = some p ∧
      ((run false 0 (World.initial (some { type := .StrongCache, entries := [] }))
        []).registries 0).m_cacheStrategy = some cs ∧
      (w1.registries 0).m_cacheStrategy = some cs1 ∧
      (∀ q, cs.get (run false 0 (World.initial (some { type := .StrongCache, entries := [] }))
          []).owners ("/org/a11y/atspi/accessible/root" ++ ":1.7") = some q →
        p = q ∧ cs1 = cs) ∧
      (cs.get (run false 0 (World.initial (some { type := .StrongCache, entries := [] }))
          []).owners ("/org/a11y/atspi/accessible/root" ++ ":1.7") = none →
        p = (run false 0 (World.initial (some { type := .StrongCache, entries := [] }))
          []).next ∧ cs1 = cs.add ("/org/a11y/atspi/accessible/root" ++ ":1.7") p) ∧
      h.id w1 = "/org/a11y/atspi/accessible/root" ++ ":1.7" ∧
      (CacheType.StrongCache ≠ .NoCache → cs1.get w1.owners (h.id w1) = some p) :=
  (cache_key_is_path_then_peer false
    (World.initial (some { type := .StrongCache, entries := [] })) 0 .StrongCache []
    ":1.7" "/org/a11y/atspi/accessible/root" rfl (by decide) (by decide)).1

/-- Two concatenations that are equal and split at the same length have equal parts. -/
theorem append_eq_append_of_length_eq (a b c d : String) (h : a ++ b = c ++ d)
    (hl : a.length = c.length) : a = c ∧ b = d := by
  have hdata : a.data ++ b.data = c.data ++ d.data := by
    have := congrArg String.data h
    simpa using this
  obtain ⟨h1, h2⟩ := List.append_inj hdata hl
  exact ⟨String.ext h1, String.ext h2⟩

/-- C19, the claim as stated fails: after ("cc.d", "/a/b") was resolved on an empty strong
cache, resolving the different pair ("c.d", "/a/bc"), whose key "/a/bcc.d" is the same,
returns the Proxy State of the first pair: its peer is "cc.d" and its path "/a/b". -/
theorem resolve_returns_state_of_colliding_identity :
    "/a/b" ++ "cc.d" = "/a/bc" ++ "c.d" ∧
    ∃ h w1 p,
      AccessibleObject.AccessibleObject3 false
        (run false 0 (World.initial (some { type := .StrongCache, entries := [] }))
          [.resolve "cc.d" "/a/b"]) (some 0) "c.d" "/a/bc" = .ok (h, w1) ∧
      h.d = some p ∧ (w1.heap p).service = "cc.d" ∧ (w1.heap p).path = "/a/b" ∧
      (w1.heap p).service ≠ "c.d" ∧ (w1.heap p).path ≠ "/a/bc" := by
  have h1 := AccessibleObject3_miss false
    (World.initial (some { type := .StrongCache, entries := [] })) 0
    { type := .StrongCache, entries := [] } "cc.d" "/a/b" (by decide) (by decide) rfl rfl
  have hrun : run false 0 (World.initial (some { type := .StrongCache, entries := [] }))
      [.resolve "cc.d" "/a/b"] =
      ((((World.initial (some { type := .StrongCache, entries := [] })).alloc
        (newAccessibleObjectPrivate (some 0) "cc.d" "/a/b")).2.setCache 0
        (CacheStrategy.add { type := .StrongCache, entries := [] } ("/a/b" ++ "cc.d")
          (World.initial (some { type := .StrongCache, entries := [] })).next)).retain
        (World.initial (some { type := .StrongCache, entries := [] })).next) := by
    simp only [run, Step.apply, h1]
  have h2 := AccessibleObject3_hit false
    (run false 0 (World.initial (some { type := .StrongCache, entries := [] }))
      [.resolve "cc.d" "/a/b"]) 0
    { type := .StrongCache, entries := [("/a/b" ++ "cc.d", 0)] } "c.d" "/a/bc" 0
    (by decide) (by decide) (by rw [hrun]; rfl) (by rw [hrun]; decide)
  refine ⟨by decide, { d := some 0 }, _, 0, h2, rfl, ?_, ?_, ?_, ?_⟩
  · rw [hrun]; rfl
  · rw [hrun]; rfl
  · rw [hrun]; decide
  · rw [hrun]; decide

/-- C19 as amended: in every program state reached from an empty cache, resolving a
non-empty (peer, path) returns a handle to a Proxy State whose path ++ peer is the
requested path ++ peer. Its peer and its path are the requested ones when the resolution
misses the cache and so creates the state, and whenever its path is as long as the
requested path. -/
theorem resolve_returns_state_with_requested_key (QT_NO_DEBUG : Bool) (w : World) (r : Ptr)
    (ty : CacheType) (steps : List Step) (service path : String)
    (h0 : (w.registries r).m_cacheStrategy = some { type := ty, entries := [] })
    (hs : service ≠ "") (hp : path ≠ "") :
    ∃ h w1 p,
      AccessibleObject.AccessibleObject3 QT_NO_DEBUG (run QT_NO_DEBUG r w steps) (some r)
        service path = .ok (h, w1) ∧
      h.d = some p ∧
      (w1.heap p).path ++ (w1.heap p).service = path ++ service ∧
      ((w1.heap p).path.length = path.length →
        (w1.heap p).service = service ∧ (w1.heap p).path = path) ∧
      (∀ cs, ((run QT_NO_DEBUG r w steps).registries r).m_cacheStrategy = some cs →
        cs.get (run QT_NO_DEBUG r w steps).owners (path ++ service) = none →
        (w1.heap p).service = service ∧ (w1.heap p).path = path) := by
  obtain ⟨cs, inv, hb, -⟩ := run_from_empty_cache QT_NO_DEBUG w r ty steps h0
  generalize run QT_NO_DEBUG r w steps = W at inv hb ⊢
  obtain ⟨h, w1, hok⟩ := AccessibleObject3_returns QT_NO_DEBUG W r cs service path hs hp inv.1
  obtain ⟨cs1, -, -, -, p, hd, -, -, hkey, -, hmiss, -⟩ :=
    resolve_in_bound_cache QT_NO_DEBUG W w1 r cs service path h inv hb hok
  refine ⟨h, w1, p, hok, hd, hkey, ?_, ?_⟩
  · intro hlen
    obtain ⟨h1, h2⟩ := append_eq_append_of_length_eq _ _ _ _ hkey hlen
    exact ⟨h2, h1⟩
  · intro cs2 hc2 hg
    have hcs : cs2 = cs := by
      rw [inv.1] at hc2
      exact (Option.some.inj hc2).symm
    subst hcs
    exact (hmiss hg).2

/-- C19 as amended, at a concrete input: after ("cc.d", "/a/b") was resolved on an empty
strong cache, the pair ("c.d", "/a/bc") is resolved. -/
theorem resolve_returns_state_with_requested_key_witness :
    ∃ h w1 p,
      AccessibleObject.AccessibleObject3 false
        (run false 0 (World.initial (some { type := .StrongCache, entries := [] }))
          [.resolve "cc.d" "/a/b"]) (some 0) "c.d" "/a/bc" = .ok (h, w1) ∧
      h.d = some p ∧
      (w1.heap p).path ++ (w1.heap p).service = "/a/bc" ++ "c.d" ∧
      ((w1.heap p).path.length = "/a/bc".length →
        (w1.heap p).service = "c.d" ∧ (w1.heap p).path = "/a/bc") ∧
      (∀ cs, ((run false 0 (World.initial (some { type := .StrongCache, entries := [] }))
          [.resolve "cc.d" "/a/b"]).registries 0).m_cacheStrategy = some cs →
        cs.get (run false 0 (World.initial (some { type := .StrongCache, entries := [] }))
          [.resolve "cc.d" "/a/b"]).owners ("/a/bc" ++ "c.d") = none →
        (w1.heap p).service = "c.d" ∧ (w1.heap p).path = "/a/bc") :=
  resolve_returns_state_with_requested_key false
    (World.initial (some { type := .StrongCache, entries := [] })) 0 .StrongCache
    [.resolve "cc.d" "/a/b"] "c.d" "/a/bc" rfl (by decide) (by decide)

/-- C17, the code on two equal handles: `qHash` is the hash of the pointer held, so two
handles whose states have the same peer and path compare equal with `operator==` and still
hash differently as soon as the pointer hash tells their two states apart; handles holding
the same pointer hash alike. -/
theorem qHash_differs_on_equal_handles (qHashPointer : Option Ptr → Nat) (w : World)
    (p q : Ptr)
    (hs : (w.heap p).service = (w.heap q).service) (hp : (w.heap p).path = (w.heap q).path)
    (hH : qHashPointer (some p) ≠ qHashPointer (some q)) :
    AccessibleObject.operatorEq w { d := some p } { d := some q } = true ∧
    qHash qHashPointer { d := some p } ≠ qHash qHashPointer { d := some q } ∧
    (∀ a b : AccessibleObject, a.d = b.d → qHash qHashPointer a = qHash qHashPointer b) := by
  refine ⟨?_, hH, ?_⟩
  · simp [AccessibleObject.operatorEq, AccessibleObjectPrivate.operatorEq, hs, hp]
  · intro a b hab
    simp [qHash, hab]

/-- C17 at a failing input: under `NoCache` the pair (":1.7",
"/org/a11y/atspi/accessible/root") is resolved twice; the two handles, to the states 0 and
1, compare equal and have the hashes 16 and 32. -/
theorem qHash_differs_on_equal_handles_witness :
    AccessibleObject.operatorEq
      (run false 0 (World.initial (some { type := .NoCache, entries := [] }))
        [.resolve ":1.7" "/org/a11y/atspi/accessible/root",
         .resolve ":1.7" "/org/a11y/atspi/accessible/root"])
      { d := some 0 } { d := some 1 } = true ∧
    qHash qHashPointerSample { d := some 0 } ≠ qHash qHashPointerSample { d := some 1 } ∧
    (∀ a b : AccessibleObject, a.d = b.d →
      qHash qHashPointerSample a = qHash qHashPointerSample b) :=
  qHash_differs_on_equal_handles qHashPointerSample
    (run false 0 (World.initial (some { type := .NoCache, entries := [] }))
      [.resolve ":1.7" "/org/a11y/atspi/accessible/root",
       .resolve ":1.7" "/org/a11y/atspi/accessible/root"]) 0 1 (by rfl) (by rfl) (by decide)

/-- `indexOf` is the index of the first occurrence: it is `i` exactly when entry `i` of
`roles` is the role and no earlier entry is. -/
theorem indexOf_eq_iff_first_occurrence (roles : List Nat) (role : Nat) (i : Nat) :
    indexOf roles role = (i : Int) ↔
      roles[i]? = some role ∧ ∀ j, j < i → roles[j]? ≠ some role := by
  induction roles generalizing i with
  | nil => simp [indexOf]
  | cons x rest ih =>
    by_cases hx : x = role
    · subst hx
      cases i with
      | zero => simp [indexOf, List.indexOf_cons_self]
      | succ k =>
        simp only [indexOf, List.mem_cons, true_or, if_true, List.indexOf_cons_self]
        constructor
        · intro h
          have : (0 : Int) = ((k + 1 : Nat) : Int) := by simpa using h
          omega
        · rintro ⟨-, h⟩
          exact absurd (by simp) (h 0 (Nat.succ_pos k))
    · have hx' : role ≠ x := fun h => hx h.symm
      cases i with
      | zero =>
        simp only [indexOf, List.mem_cons, hx', false_or, List.indexOf_cons_ne _ hx]
        constructor
        · intro h
          split at h
          · have : ((List.indexOf role rest + 1 : Nat) : Int) = ((0 : Nat) : Int) := by
              simpa using h
            omega
          · simp at h
        · rintro ⟨h, -⟩
          simp at h
          exact absurd h hx
      | succ k =>
        have ihk := ih k
        simp only [indexOf] at ihk
        simp only [indexOf, List.mem_cons, hx', false_or, List.indexOf_cons_ne _ hx,
          List.getElem?_cons_succ]
        constructor
        · intro h
          have h1 : (if role ∈ rest then ((List.indexOf role rest : Nat) : Int) else -1)
              = (k : Int) := by
            split at h
            · rename_i hm
              simp only [hm, if_true]
              have : ((List.indexOf role rest + 1 : Nat) : Int) = ((k + 1 : Nat) : Int) := h
              omega
            · have : (-1 : Int) = ((k + 1 : Nat) : Int) := h
              omega
          obtain ⟨h2, h3⟩ := ihk.1 h1
          refine ⟨h2, ?_⟩
          intro j hj
          cases j with
          | zero => simp [hx]
          | succ j =>
            simp only [List.getElem?_cons_succ]
            exact h3 j (by omega)
        · rintro ⟨h2, h3⟩
          have h1 := ihk.2 ⟨h2, fun j hj => by
            have := h3 (j + 1) (by omega)
            simpa using this⟩
          split at h1
          · rename_i hm
            simp only [hm, if_true]
            have : ((List.indexOf role rest : Nat) : Int) = (k : Int) := h1
            show ((List.indexOf role rest).succ : Int) = ((k + 1 : Nat) : Int)
            push_cast
            omega
          · have : (-1 : Int) = (k : Int) := h1
            omega

/-- The loop of `children(roles)` over children that all hold a state bound to a registry,
when the role of an object is always answered alike: the loop returns, the number of
buckets stays, and each bucket gets appended, in order, the children whose role has its
first occurrence in `roles` at the index of the bucket. -/
theorem childrenRolesLoop_eq (R : Remote) (roles : List Nat) (roleOf : AccessibleObject → Nat)
    (w : World) (hrole : ∀ w1 r1 c, R.role w1 r1 c = roleOf c) :
    ∀ (rest : List AccessibleObject) (result : List (List AccessibleObject)) (w0 : World),
      w0.heap = w.heap →
      (∀ c ∈ rest, ∃ pc rc, c.d = some pc ∧ (w.heap pc).registryPrivate = some rc) →
      ∃ result1 w1, childrenRolesLoop R roles rest result w0 = .ok (result1, w1) ∧
        w1.heap = w.heap ∧ result1.length = result.length ∧
        ∀ i : Nat, result1[i]? = (result[i]?).map
          (fun b => b ++ rest.filter (fun c => decide (indexOf roles (roleOf c) = (i : Int)))) := by
  intro rest
  induction rest with
  | nil =>
    intro result w0 hheap _
    exact ⟨result, w0, rfl, hheap, rfl, by intro i; cases result[i]? <;> simp⟩
  | cons child rest ih =>
    intro result w0 hheap hbound
    obtain ⟨pc, rc, hd, hr⟩ := hbound child (List.mem_cons_self _ _)
    have hr0 : (w0.heap pc).registryPrivate = some rc := by rw [hheap]; exact hr
    have hroleeq : child.role R w0 = .ok (roleOf child,
        w0.record { registry := rc, object := child, query := .role }) := by
      simp [AccessibleObject.role, AccessibleObject.forward, hd, hr0, hrole]
    have hrest : ∀ c ∈ rest, ∃ pc rc, c.d = some pc ∧ (w.heap pc).registryPrivate = some rc :=
      fun c hc => hbound c (List.mem_cons_of_mem _ hc)
    by_cases hneg : indexOf roles (roleOf child) < 0
    · obtain ⟨result1, w1, hloop, hheap1, hlen, hget⟩ :=
        ih result (w0.record { registry := rc, object := child, query := .role }) hheap hrest
      refine ⟨result1, w1, ?_, hheap1, hlen, ?_⟩
      · simp only [childrenRolesLoop, hroleeq, hneg, if_true, hloop]
      · intro i
        rw [hget i]
        have hne : indexOf roles (roleOf child) ≠ (i : Int) := by omega
        simp [List.filter_cons, hne]
    · obtain ⟨result1, w1, hloop, hheap1, hlen, hget⟩ :=
        ih (result.modify (fun bucket => bucket ++ [child])
          (indexOf roles (roleOf child)).toNat)
          (w0.record { registry := rc, object := child, query := .role }) hheap hrest
      refine ⟨result1, w1, ?_, hheap1, ?_, ?_⟩
      · simp only [childrenRolesLoop, hroleeq, hneg, if_false, hloop]
      · rw [hlen, List.length_modify]
      · intro i
        rw [hget i, List.getElem?_modify]
        by_cases hi : (indexOf roles (roleOf child)).toNat = i
        · have hi' : indexOf roles (roleOf child) = (i : Int) := by omega
          cases result[i]? <;> simp [List.filter_cons, hi, hi']
        · have hi' : indexOf roles (roleOf child) ≠ (i : Int) := by omega
          cases result[i]? <;> simp [List.filter_cons, hi, hi']

/-- C20: for a handle with a state bound to a registry whose children all hold a state bound
to a registry, the role of an object being answered alike at every call (`roleOf`):
`children(roles)` returns one bucket per entry of `roles`, and bucket `i` is the sub-list of
`children()`, in order, of the children whose role has its first occurrence in `roles` at
index `i`. Hence a child whose role is not in `roles` is in no bucket, a child whose role
is in `roles` is in the bucket of one index only, and the bucket at an index whose role
occurs earlier in `roles` is empty. -/
theorem children_by_roles_buckets (R : Remote) (w : World) (self : AccessibleObject)
    (p r : Ptr) (roles : List Nat) (roleOf : AccessibleObject → Nat)
    (hd : self.d = some p) (hr : (w.heap p).registryPrivate = some r)
    (hrole : ∀ w1 r1 c, R.role w1 r1 c = roleOf c)
    (hbound : ∀ c ∈ R.children w r self,
      ∃ pc rc, c.d = some pc ∧ (w.heap pc).registryPrivate = some rc) :
    ∃ buckets w1, self.childrenRoles R w roles = .ok (buckets, w1) ∧
      buckets.length = roles.length ∧
      (∀ i, i < roles.length → buckets[i]? = some ((R.children w r self).filter
        (fun c => decide (indexOf roles (roleOf c) = (i : Int))))) ∧
      (∀ (role i : Nat), indexOf roles role = (i : Int) ↔
        roles[i]? = some role ∧ ∀ j, j < i → roles[j]? ≠ some role) ∧
      (∀ c ∈ R.children w r self, roleOf c ∉ roles →
        ∀ (k : Nat) b, buckets[k]? = some b → c ∉ b) ∧
      (∀ c ∈ R.children w r self, roleOf c ∈ roles →
        ∃ i : Nat, i < roles.length ∧
          ∀ (k : Nat) b, buckets[k]? = some b → (c ∈ b ↔ k = i)) ∧
      (∀ i j : Nat, j < i → i < roles.length → roles[j]? = roles[i]? →
        buckets[i]? = some []) := by
  have hchildren : self.children R w = .ok (R.children w r self,
      w.record { registry := r, object := self, query := .children }) := by
    simp [AccessibleObject.children, AccessibleObject.forward, hd, hr]
  obtain ⟨buckets, w1, hloop, -, hlen, hget⟩ :=
    childrenRolesLoop_eq R roles roleOf w hrole (R.children w r self)
      (List.replicate roles.length [])
      (w.record { registry := r, object := self, query := .children }) rfl hbound
  have hlen' : buckets.length = roles.length := by simpa using hlen
  have hbucket : ∀ i, i < roles.length → buckets[i]? = some ((R.children w r self).filter
      (fun c => decide (indexOf roles (roleOf c) = (i : Int)))) := by
    intro i hi
    rw [hget i]
    simp [List.getElem?_replicate, hi]
  have hsome : ∀ (k : Nat) b, buckets[k]? = some b → k < roles.length ∧
      b = (R.children w r self).filter
        (fun c => decide (indexOf roles (roleOf c) = (k : Int))) := by
    intro k b hk
    have hklt : k < roles.length := by
      by_contra hge
      have : buckets[k]? = none := by
        apply List.getElem?_eq_none
        omega
      rw [this] at hk
      cases hk
    refine ⟨hklt, ?_⟩
    rw [hbucket k hklt] at hk
    exact (Option.some.inj hk).symm
  refine ⟨buckets, w1, ?_, hlen', hbucket, indexOf_eq_iff_first_occurrence roles, ?_, ?_, ?_⟩
  · simp only [AccessibleObject.childrenRoles, hchildren, hloop]
  · intro c _ hnot k b hk
    obtain ⟨-, hb⟩ := hsome k b hk
    rw [hb]
    simp [indexOf, hnot]
  · intro c hc hin
    refine ⟨roles.indexOf (roleOf c), List.indexOf_lt_length.2 hin, ?_⟩
    intro k b hk
    obtain ⟨-, hb⟩ := hsome k b hk
    rw [hb]
    simp only [List.mem_filter, hc, true_and, decide_eq_true_eq, indexOf, hin, if_true]
    constructor
    · intro h
      omega
    · intro h
      rw [h]
  · intro i j hji hi hsame
    rw [hbucket i hi]
    congr 1
    rw [List.filter_eq_nil_iff]
    intro c _
    simp only [decide_eq_true_eq]
    intro hidx
    obtain ⟨h1, h2⟩ := (indexOf_eq_iff_first_occurrence roles (roleOf c) i).1 hidx
    exact h2 j hji (by rw [hsame]; exact h1)

/-- C20 at a concrete input: the children at the addresses 1, 2, 1 with the roles 1, 2, 1
are sorted by the roles [2, 1, 2]. -/
theorem children_by_roles_buckets_witness :
    ∃ buckets w1, AccessibleObject.childrenRoles Remote.family (World.chain 3)
        { d := some 0 } [2, 1, 2] = .ok (buckets, w1) ∧
      buckets.length = [2, 1, 2].length ∧
      (∀ i, i < [2, 1, 2].length →
        buckets[i]? = some ((Remote.family.children (World.chain 3) 0 { d := some 0 }).filter
          (fun c => decide (indexOf [2, 1, 2]
            ((fun c : AccessibleObject => match c.d with
              | some p => p
              | none => 0) c) = (i : Int))))) := by
  obtain ⟨buckets, w1, h1, h2, h3, -⟩ := children_by_roles_buckets Remote.family
    (World.chain 3) { d := some 0 } 0 0 [2, 1, 2]
    (fun c => match c.d with
      | some p => p
      | none => 0) rfl rfl (fun _ _ _ => rfl)
    (by
      intro c hc
      have hc' : c = { d := some 1 } ∨ c = { d := some 2 } ∨ c = { d := some 1 } := by
        simpa [Remote.family] using hc
      rcases hc' with rfl | rfl | rfl
      · exact ⟨1, 0, rfl, rfl⟩
      · exact ⟨2, 0, rfl, rfl⟩
      · exact ⟨1, 0, rfl, rfl⟩)
  exact ⟨buckets, w1, h1, h2, h3⟩

/-- The mask of a state predicate reads one bit: for an index below 64, the 64-bit value
`state & (quint64(1) << index)` is non-zero exactly when bit `index` of the state is set. -/
theorem mask_ne_zero_iff_testBit (s index : Nat) (h : index < 64) :
    (s % 2 ^ 64) &&& ((1 <<< index) % 2 ^ 64) ≠ 0 ↔ (s % 2 ^ 64).testBit index = true := by
  have h1 : (1 <<< index) % 2 ^ 64 = 2 ^ index := by
    rw [Nat.one_shiftLeft]
    exact Nat.mod_eq_of_lt (Nat.pow_lt_pow_right (by norm_num) h)
  rw [h1]
  generalize s % 2 ^ 64 = x
  constructor
  · intro hne
    by_contra hb
    apply hne
    apply Nat.eq_of_testBit_eq
    intro j
    by_cases hj : index = j
    · subst hj
      simpa [Nat.testBit_and] using hb
    · simp [Nat.testBit_and, Nat.testBit_two_pow, hj]
  · intro hb h0
    have := congrArg (fun n => Nat.testBit n index) h0
    simp [Nat.testBit_and, Nat.testBit_two_pow_self, hb] at this

/-- The shared body of the state predicates on a handle with a state bound to registry `r`:
the registry is asked for the state once, and the result is bit `index` of its answer. -/
theorem stateBit_eq (R : Remote) (w : World) (self : AccessibleObject) (p r index : Nat)
    (hd : self.d = some p) (hr : (w.heap p).registryPrivate = some r) (h : index < 64) :
    self.stateBit R w index =
      .ok ((R.state w r self % 2 ^ 64).testBit index,
        w.record { registry := r, object := self, query := .state }) := by
  have hdec : decide ((R.state w r self % 2 ^ 64) &&& ((1 <<< index) % 2 ^ 64) ≠ 0)
      = (R.state w r self % 2 ^ 64).testBit index := by
    cases hb : (R.state w r self % 2 ^ 64).testBit index
    · have := (mask_ne_zero_iff_testBit (R.state w r self) index h).not.2 (by rw [hb]; simp)
      simpa using this
    · have := (mask_ne_zero_iff_testBit (R.state w r self) index h).2 hb
      simpa using this
  simp only [AccessibleObject.stateBit, AccessibleObject.forward, hd, hr, bind, Except.bind,
    hdec]

/-- The shared body of the state predicates depends on the answer of the registry through
bit `index` only: two remote sides whose answers agree on that bit give the same outcome. -/
theorem stateBit_spec (R : Remote) (w : World) (self : AccessibleObject) (p r index : Nat)
    (hd : self.d = some p) (hr : (w.heap p).registryPrivate = some r) (h : index < 64) :
    index < 64 ∧
    self.stateBit R w index =
      .ok ((R.state w r self % 2 ^ 64).testBit index,
        w.record { registry := r, object := self, query := .state }) ∧
    (∀ R2 : Remote,
      (R2.state w r self % 2 ^ 64).testBit index = (R.state w r self % 2 ^ 64).testBit index →
      self.stateBit R2 w index = self.stateBit R w index) := by
  refine ⟨h, stateBit_eq R w self p r index hd hr h, ?_⟩
  intro R2 h2
  rw [stateBit_eq R w self p r index hd hr h, stateBit_eq R2 w self p r index hd hr h, h2]

/-- C21, counterexample: the state index of `hasToolTip()` is 13, not 32 or higher. On an
object whose state bitset has bit 13 alone set it returns true, and on an object whose state
bitset has every bit at index 32..63 set and no other it returns false. -/
theorem hasToolTip_reads_bit_below_32 :
    ATSPI_STATE_HAS_TOOLTIP < 32 ∧
    AccessibleObject.hasToolTip (Remote.withState (2 ^ 13)) World.oneObject { d := some 0 } =
      .ok (true,
        World.oneObject.record { registry := 0, object := { d := some 0 }, query := .state }) ∧
    AccessibleObject.hasToolTip (Remote.withState (2 ^ 64 - 2 ^ 32)) World.oneObject
        { d := some 0 } =
      .ok (false,
        World.oneObject.record { registry := 0, object := { d := some 0 }, query := .state }) := by
  refine ⟨by decide, ?_, ?_⟩
  · exact (stateBit_eq (Remote.withState (2 ^ 13)) World.oneObject { d := some 0 } 0 0
      ATSPI_STATE_HAS_TOOLTIP rfl rfl (by decide)).trans (by
        simp [Remote.withState, ATSPI_STATE_HAS_TOOLTIP, Nat.testBit])
  · exact (stateBit_eq (Remote.withState (2 ^ 64 - 2 ^ 32)) World.oneObject { d := some 0 } 0 0
      ATSPI_STATE_HAS_TOOLTIP rfl rfl (by decide)).trans (by
        simp [Remote.withState, ATSPI_STATE_HAS_TOOLTIP, Nat.testBit])

/-- C21 as amended: on a handle whose state is bound to a registry, each of the eighteen
predicates that read the state bitset (hasSelectableText, hasToolTip, isActive, isChecked,
isDefault, isEditable, isEnabled, isExpandable, isExpanded, isFocusable, isFocused,
isMultiLine, isSelectable, isSelected, isSensitive, isSingleLine, isVisible,
supportsAutocompletion) asks the registry for the state once and returns true exactly when
the bit at its own ATSPI state index is set in the 64-bit answer; the outcome depends on no
other bit of the answer. Every index is below 64; those of hasSelectableText, isDefault and
supportsAutocompletion are 32 or higher, that of hasToolTip is 13. The shift, the mask and
the conversion to bool lose no bit: at every index 32..63 the shared body returns that bit
of the answer. -/
theorem state_predicate_returns_own_bit (R : Remote) (w : World) (self : AccessibleObject)
    (p r : Ptr) (hd : self.d = some p) (hr : (w.heap p).registryPrivate = some r) :
    (∀ f index, (f, index) ∈ statePredicates →
      index < 64 ∧
      f R w self =
        .ok ((R.state w r self % 2 ^ 64).testBit index,
          w.record { registry := r, object := self, query := .state }) ∧
      (∀ R2 : Remote,
        (R2.state w r self % 2 ^ 64).testBit index
          = (R.state w r self % 2 ^ 64).testBit index →
        f R2 w self = f R w self)) ∧
    (∀ index, 32 ≤ index → index < 64 →
      self.stateBit R w index =
        .ok ((R.state w r self % 2 ^ 64).testBit index,
          w.record { registry := r, object := self, query := .state })) ∧
    32 ≤ ATSPI_STATE_SELECTABLE_TEXT ∧ 32 ≤ ATSPI_STATE_IS_DEFAULT ∧
    32 ≤ ATSPI_STATE_SUPPORTS_AUTOCOMPLETION ∧ ATSPI_STATE_HAS_TOOLTIP = 13 := by
  refine ⟨?_, fun index _ h => stateBit_eq R w self p r index hd hr h,
    by decide, by decide, by decide, rfl⟩
  intro f index hmem
  simp only [statePredicates, List.mem_cons, List.mem_singleton, Prod.mk.injEq,
    List.mem_nil_iff, or_false] at hmem
  repeat
    (rcases hmem with ⟨rfl, rfl⟩ | hmem
     exact stateBit_spec R w self p r _ hd hr (by decide))
  all_goals
    (obtain ⟨rfl, rfl⟩ := hmem
     exact stateBit_spec R w self p r _ hd hr (by decide))

/-- C21 as amended, on an object whose state bitset has bit 38 alone set:
`hasSelectableText()` returns true, `isDefault()` (bit 39) and `isVisible()` (bit 30) return
false. -/
theorem state_predicate_returns_own_bit_witness :
    ({ d := some 0 } : AccessibleObject).d = some 0 ∧
    (World.oneObject.heap 0).registryPrivate = some 0 ∧
    AccessibleObject.hasSelectableText (Remote.withState (2 ^ 38)) World.oneObject
        { d := some 0 } =
      .ok (true,
        World.oneObject.record { registry := 0, object := { d := some 0 }, query := .state }) ∧
    AccessibleObject.isDefault (Remote.withState (2 ^ 38)) World.oneObject { d := some 0 } =
      .ok (false,
        World.oneObject.record { registry := 0, object := { d := some 0 }, query := .state }) ∧
    AccessibleObject.isVisible (Remote.withState (2 ^ 38)) World.oneObject { d := some 0 } =
      .ok (false,
        World.oneObject.record { registry := 0, object := { d := some 0 }, query := .state }) := by
  have h := (state_predicate_returns_own_bit (Remote.withState (2 ^ 38)) World.oneObject
    { d := some 0 } 0 0 rfl rfl).1
  refine ⟨rfl, rfl, ?_, ?_, ?_⟩
  · exact (h _ ATSPI_STATE_SELECTABLE_TEXT (by simp [statePredicates])).2.1.trans (by
      simp [Remote.withState, ATSPI_STATE_SELECTABLE_TEXT, Nat.testBit])
  · exact (h _ ATSPI_STATE_IS_DEFAULT (by simp [statePredicates])).2.1.trans (by
      simp [Remote.withState, ATSPI_STATE_IS_DEFAULT, Nat.testBit])
  · exact (h _ ATSPI_STATE_VISIBLE (by simp [statePredicates])).2.1.trans (by
      simp [Remote.withState, ATSPI_STATE_VISIBLE, Nat.testBit])

end QAccessibleClient
